import Mathlib

/-!
# TC851/Server: `src/main.c`

A shallow embedding of the key-value server of `src/main.c` and theorems about it.

Modelling conventions.

* A C string (a NUL-terminated `char` array) is a Lean `String`; one `Char` stands for one
  C `char`, so the byte length of a C string is `String.length`.  The terminating NUL is the
  end of the list and is not a member of it.
* A connection is identified by a natural number that stands both for the socket descriptor
  `client_socket` and for the thread (`pthread_self ()`) running `client_handler` on it.
* `client_handler` is cut at its blocking and synchronisation calls (`recv`,
  `pthread_mutex_lock`, `pthread_mutex_unlock`).  A program counter `Pc` names the call a thread
  is about to execute; one step executes that call and the code after it, up to the next
  such call.
* A mutex is `Option ConnId`: `none` when unlocked, `some c` when locked by thread `c`.
  The mutexes are initialised with default attributes (lines 183-185) and are not
  recursive: `pthread_mutex_lock` on a locked mutex does not return while it is locked,
  also when the caller itself holds it (POSIX leaves that case undefined; a default glibc
  mutex waits for ever).
* `recv` hands a thread the bytes of one `recv` call; the buffer then holds, as a C string,
  the bytes before the first NUL among them (`c_str`).  The arrays `cmd`, `key` and `value`
  keep their contents from one request to the next unless `sscanf` writes them, and hold
  what the stack happens to hold when the thread starts (`started`).
* `send` appends the message to the sequence of messages written to a socket descriptor.
-/

namespace Server

/-! ## Constants (lines 9-12) -/

abbrev BUFFER_SIZE : Nat := 1024
abbrev MAX_KEY_VALUE_PAIRS : Nat := 100
abbrev MAX_CLIENTS : Nat := 100

/-- Connection identity: the socket descriptor and the thread serving it. -/
abbrev ConnId := Nat

/-! ## Data model (lines 14-32) -/

/-- Lines 14-17: `KeyValuePair`. -/
structure KeyValuePair where
  key : String
  value : String
deriving DecidableEq, Repr, Inhabited

/-- Lines 25-28: `Subscriber`. -/
structure Subscriber where
  client_socket : ConnId
  key : String
deriving DecidableEq, Repr, Inhabited

/-! ## C library functions used by the server -/

/-- The white-space characters of `isspace` in the C locale. -/
def isspace (ch : Char) : Bool :=
  ch = ' ' || ch = '\t' || ch = '\n' || ch = '\x0b' || ch = '\x0c' || ch = '\r'

/-- One `%Ns` conversion of `sscanf`: skip leading white space, then read at most `n`
characters that are not white space.  `none` is an input failure (the input ends before a
character is read); otherwise the token and the unread rest of the input. -/
def scan_s (n : Nat) (input : List Char) : Option (List Char × List Char) :=
  let rest := input.dropWhile isspace
  let tok := (rest.takeWhile (fun ch => !isspace ch)).take n
  if tok = [] then none else some (tok, rest.drop tok.length)

/-- Line 81: `sscanf (buffer, "%15s %127s %127s", cmd, key, value)`.  The arguments
`cmd key value` are the contents of the three arrays before the call; an array whose
conversion is not reached keeps its contents. -/
def sscanf (buffer cmd key value : String) : String × String × String :=
  match scan_s 15 buffer.data with
  | none => (cmd, key, value)
  | some (c, r1) =>
    match scan_s 127 r1 with
    | none => (String.mk c, key, value)
    | some (k, r2) =>
      match scan_s 127 r2 with
      | none => (String.mk c, String.mk k, value)
      | some (v, _) => (String.mk c, String.mk k, String.mk v)

/-- Line 79: the C string in an array that holds the bytes `data` followed by the NUL of
`buffer[bytes_received] = '\0'`.  A C string ends at its first NUL, so these are the bytes of
`data` before the first NUL among them, and all of `data` when it has none.  This is what
`sscanf` (line 81) and `strlen` (line 161) see of the received bytes. -/
def c_str (data : String) : String :=
  String.mk (data.data.takeWhile (fun ch => ch != '\x00'))

/-- The test `strcasecmp (a, b) == 0`: equality up to the case of ASCII letters. -/
def strcasecmp (a b : String) : Bool :=
  a.data.map Char.toLower == b.data.map Char.toLower

/-- The C string left in `dst` by `strncpy (dst, src, n)`: at most `n` characters of `src`.
Every source of the server is an array filled by a `%127s` conversion and `n` is 128, so the
copy is the source itself in every reachable state. -/
def strncpy (src : String) (n : Nat) : String :=
  String.mk (src.data.take n)

/-- The C string left in the buffer by `snprintf (buffer, size, ...)` when the formatted
text is `text`: at most `size - 1` characters of it. -/
def snprintf (size : Nat) (text : String) : String :=
  String.mk (text.data.take (size - 1))

/-! ## State -/

/-- The synchronisation call of `client_handler` a thread is about to execute. -/
inductive Pc
  /-- Line 78: `recv`. -/
  | recv
  /-- Line 84: `pthread_mutex_lock (&transaction_mutex)` of BEG. -/
  | beg_lock
  /-- Line 96: `pthread_mutex_unlock (&transaction_mutex)` of END. -/
  | end_unlock
  /-- Line 40: `pthread_mutex_lock (&subscribers_mutex)` in `subscribe`. -/
  | sub_lock
  /-- Lines 43 and 53: `pthread_mutex_unlock (&subscribers_mutex)` in `subscribe`. -/
  | sub_unlock
  /-- Line 111: `pthread_mutex_lock (&transaction_mutex)` of the gate wait. -/
  | gate_lock
  /-- Line 112: `pthread_mutex_unlock (&transaction_mutex)` of the gate wait. -/
  | gate_unlock
  /-- Line 115: `pthread_mutex_lock (&store_mutex)`. -/
  | store_lock
  /-- Line 57: `pthread_mutex_lock (&subscribers_mutex)` in `publish`. -/
  | publish_lock
  /-- Line 69: `pthread_mutex_unlock (&subscribers_mutex)` in `publish`. -/
  | publish_unlock
  /-- Line 158: `pthread_mutex_unlock (&store_mutex)`. -/
  | store_unlock
  /-- Line 155: `pthread_mutex_unlock (&store_mutex)` of QUIT. -/
  | quit_unlock
  /-- After line 163: the socket is closed and the thread has returned. -/
  | closed
deriving DecidableEq, Repr, Inhabited

/-- The automatic variables of one `client_handler` thread (lines 73-80). -/
structure Local where
  pc : Pc
  in_transaction : Nat
  buffer : String
  cmd : String
  key : String
  value : String
deriving DecidableEq, Repr, Inhabited

/-- Lines 19-20: the array `store` and the number `store_size` of its live slots. -/
structure Store where
  store : List KeyValuePair
  store_size : Nat
deriving DecidableEq, Repr

/-- Lines 30-31: the array `subscribers` and the number `num_subscribers` of its records. -/
structure Registry where
  subscribers : List Subscriber
  num_subscribers : Nat
deriving DecidableEq, Repr

/-- The globals of lines 19-32 together with the threads and the sockets. -/
structure System where
  kv : Store
  store_mutex : Option ConnId
  transaction_mutex : Option ConnId
  transaction_owner : Option ConnId
  registry : Registry
  subscribers_mutex : Option ConnId
  thread : ConnId → Local
  sent : ConnId → List String

/-- The state after `main` has initialised the mutexes (lines 183-185), with every thread on
a stack that has not been used before: the global arrays are zero-filled, no lock is held,
every thread is at its first `recv` with `in_transaction = 0`, and nothing has been sent.
The arrays `cmd`, `key` and `value` of a thread are automatic and the code does not
initialise them (line 80); on a fresh stack they are zero-filled, that is empty.  The state
in which the threads find other contents is `started`. -/
def initial : System where
  kv :=
    { store := List.replicate MAX_KEY_VALUE_PAIRS { key := "", value := "" }
      store_size := 0 }
  store_mutex := none
  transaction_mutex := none
  transaction_owner := none
  registry :=
    { subscribers := List.replicate MAX_CLIENTS { client_socket := 0, key := "" }
      num_subscribers := 0 }
  subscribers_mutex := none
  thread := fun _ =>
    { pc := .recv, in_transaction := 0, buffer := "", cmd := "", key := "", value := "" }
  sent := fun _ => []

/-- The state after `main` has initialised the mutexes in which thread `c` finds the strings
`stack c` in its arrays `cmd`, `key` and `value` when it starts.  Line 80 does not initialise
the arrays, so a thread that runs on the stack of a thread that has ended finds the tokens
of that thread there. -/
def started (stack : ConnId → String × String × String) : System :=
  { initial with
    thread := fun c =>
      { pc := .recv, in_transaction := 0, buffer := ""
        cmd := (stack c).1, key := (stack c).2.1, value := (stack c).2.2 } }

/-- The strings a thread can find in `cmd`, `key` and `value` when it starts: C strings that
fit the arrays (16, 128 and 128 bytes with the NUL), as a fresh stack holds and as the
`%15s` and `%127s` conversions of an earlier thread leave. -/
def Fits (stack : ConnId → String × String × String) : Prop :=
  ∀ c, (stack c).1.length ≤ 15 ∧ (stack c).2.1.length ≤ 127 ∧ (stack c).2.2.length ≤ 127

/-- What an attempt to advance a thread yields. -/
inductive Outcome
  /-- The call returned; the new state. -/
  | ok (s : System)
  /-- The thread cannot advance: the mutex it asks for is locked, or it waits in `recv`. -/
  | blocked
  /-- An array is written outside its bounds. -/
  | undefined

/-- Replace the automatic variables of thread `c`. -/
def set_thread (s : System) (c : ConnId) (l : Local) : System :=
  { s with thread := Function.update s.thread c l }

/-- The call `send (sock, msg, strlen (msg), 0)`. -/
def send (s : System) (sock : ConnId) (msg : String) : System :=
  { s with sent := Function.update s.sent sock (s.sent sock ++ [msg]) }

/-- Line 161 and the jump back to line 78: thread `c`, whose variables are `l`, sends its
buffer on its own socket and waits for the next request. -/
def respond (s : System) (c : ConnId) (l : Local) : System :=
  send (set_thread s c { l with pc := .recv }) c l.buffer

/-! ## The store loops (lines 118-124, 129-134, 144-151) -/

/-- The scan `for (i = ...; i < store_size; i++) if (strcmp (key, store[i].key) == 0) ... break`
shared by GET, PUT and DEL: `find_key store key n i` looks at the `n` slots from index `i` on
and yields the first index whose key equals `key`. -/
def find_key (store : List KeyValuePair) (key : String) : Nat → Nat → Option Nat
  | 0, _ => none
  | n + 1, i =>
    if key = (store.getD i default).key then some i else find_key store key n (i + 1)

/-! ## The registry (lines 39-70) -/

/-- Lines 62-67: the loop of `publish` over the `n` records from index `i` on. -/
def publish_loop (key buffer : String) : Nat → Nat → System → System
  | 0, _, s => s
  | n + 1, i, s =>
    let subscriber := s.registry.subscribers.getD i default
    publish_loop key buffer n (i + 1)
      (if subscriber.key = key then send s subscriber.client_socket buffer else s)

/-- Lines 39-51 of `subscribe (c, key)` once `subscribers_mutex` is held: a full registry is
left as it is, otherwise the record is written at index `num_subscribers`. -/
def subscribe (r : Registry) (client_socket : ConnId) (key : String) : Registry :=
  if r.num_subscribers ≥ MAX_CLIENTS then r
  else
    let new_subscriber : Subscriber :=
      { client_socket := client_socket, key := strncpy key 128 }
    { subscribers := r.subscribers.set r.num_subscribers new_subscriber
      num_subscribers := r.num_subscribers + 1 }

/-- Lines 59-67 of `publish (key, value)` once `subscribers_mutex` is held. -/
def publish (s : System) (key value : String) : System :=
  let buffer := snprintf BUFFER_SIZE ("PUB:" ++ key ++ ":" ++ value ++ "\n")
  publish_loop key buffer s.registry.num_subscribers 0 s

/-! ## The store branches (lines 116-153), executed while `store_mutex` is held -/

/-- Lines 117-126: the buffer GET leaves. -/
def get_body (s : Store) (key : String) : String :=
  match find_key s.store key s.store_size 0 with
  | some i =>
    snprintf BUFFER_SIZE ("GET:" ++ key ++ ":" ++ (s.store.getD i default).value ++ "\n")
  | none => snprintf BUFFER_SIZE ("GET:" ++ key ++ ":key_nonexistent\n")

/-- Lines 128-139: the store after PUT.  A key that is found has its value overwritten; a
key that is not found takes the slot at index `store_size`, and `none` when that index is
outside the array. -/
def put_body (s : Store) (key value : String) : Option Store :=
  match find_key s.store key s.store_size 0 with
  | some index =>
    some { s with
      store := s.store.set index
        { (s.store.getD index default) with value := strncpy value 128 } }
  | none =>
    let index := s.store_size
    if index < MAX_KEY_VALUE_PAIRS then
      some
        { store_size := s.store_size + 1
          store := s.store.set index { key := strncpy key 128, value := strncpy value 128 } }
    else none

/-- Lines 143-153: the store and the buffer after DEL.  A key found at index `i` has its
slot overwritten with the last live slot after `store_size` is decremented. -/
def del_body (s : Store) (key : String) : Store × String :=
  match find_key s.store key s.store_size 0 with
  | some i =>
    ({ store_size := s.store_size - 1
       store := s.store.set i (s.store.getD (s.store_size - 1) default) },
      snprintf BUFFER_SIZE ("DEL:" ++ key ++ ":key_deleted\n"))
  | none => (s, snprintf BUFFER_SIZE ("DEL:" ++ key ++ ":key_nonexistent\n"))

/-! ## `client_handler` (lines 72-166) -/

/-- Lines 81-113 for thread `c` whose variables are `l`, its buffer holding the C string
just received: parse the line and run up to the first synchronisation call. -/
def dispatch (c : ConnId) (s : System) (l : Local) : System :=
  let (cmd, key, value) := sscanf l.buffer l.cmd l.key l.value
  let l := { l with cmd := cmd, key := key, value := value }
  if strcasecmp cmd "BEG" then
    set_thread s c { l with pc := .beg_lock }
  else if strcasecmp cmd "END" then
    if l.in_transaction = 1 ∧ s.transaction_owner = some c then
      set_thread s c
        { l with
          in_transaction := 0
          buffer := snprintf BUFFER_SIZE "END:transaction_ended\n"
          pc := .end_unlock }
    else
      respond s c { l with buffer := snprintf BUFFER_SIZE "END:no_transaction_to_end\n" }
  else if strcasecmp cmd "SUB" then
    set_thread s c { l with pc := .sub_lock }
  else if l.in_transaction = 1 ∧ ¬ s.transaction_owner = some c then
    respond s c { l with buffer := snprintf BUFFER_SIZE "ERROR:transaction_in_progress\n" }
  else if l.in_transaction = 0 then
    set_thread s c { l with pc := .gate_lock }
  else
    set_thread s c { l with pc := .store_lock }

/-- Lines 78-79: `recv` on the socket of thread `c` returns the bytes `data`.  At most
`BUFFER_SIZE - 1` bytes are returned; when none is, the loop is left and the socket closed
(lines 163-165).  Otherwise the buffer is used as a C string from here on and holds
`c_str data`. -/
def recv (c : ConnId) (data : String) (s : System) : Outcome :=
  let l := s.thread c
  if l.pc ≠ .recv then .blocked
  else if BUFFER_SIZE - 1 < data.length then .blocked
  else if data.length = 0 then .ok (set_thread s c { l with pc := .closed })
  else .ok (dispatch c s { l with buffer := c_str data })

/-- Lines 115-157: thread `c` takes `store_mutex` and runs the branch of its command. -/
def store_step (c : ConnId) (s : System) (l : Local) : Outcome :=
  if s.store_mutex.isSome then .blocked
  else
    let s := { s with store_mutex := some c }
    if strcasecmp l.cmd "GET" then
      .ok (set_thread s c { l with buffer := get_body s.kv l.key, pc := .store_unlock })
    else if strcasecmp l.cmd "PUT" then
      match put_body s.kv l.key l.value with
      | none => .undefined
      | some kv =>
        .ok (set_thread { s with kv := kv } c
          { l with
            buffer := snprintf BUFFER_SIZE ("PUT:" ++ l.key ++ ":" ++ l.value ++ "\n")
            pc := .publish_lock })
    else if strcasecmp l.cmd "DEL" then
      .ok (set_thread { s with kv := (del_body s.kv l.key).1 } c
        { l with buffer := (del_body s.kv l.key).2, pc := .store_unlock })
    else if strcasecmp l.cmd "QUIT" then
      .ok (set_thread s c { l with pc := .quit_unlock })
    else
      .ok (set_thread s c { l with pc := .store_unlock })

/-- One step of thread `c`: the synchronisation call at its program counter and the code
after it up to the next one. -/
def step (c : ConnId) (s : System) : Outcome :=
  let l := s.thread c
  match l.pc with
  | .recv => .blocked
  | .closed => .blocked
  | .beg_lock =>
    -- lines 84-91, then line 161
    if s.transaction_mutex.isSome then .blocked
    else
      let s := { s with transaction_mutex := some c }
      if l.in_transaction = 0 then
        respond { s with transaction_owner := some c } c
          { l with
            in_transaction := 1
            buffer := snprintf BUFFER_SIZE "BEG:transaction_started\n" } |> .ok
      else
        respond s c
          { l with buffer := snprintf BUFFER_SIZE "BEG:transaction_already_started\n" } |> .ok
  | .end_unlock =>
    -- line 96, then line 161
    .ok (respond { s with transaction_mutex := none } c l)
  | .sub_lock =>
    -- lines 40-51
    if s.subscribers_mutex.isSome then .blocked
    else
      .ok (set_thread
        { s with
          subscribers_mutex := some c
          registry := subscribe s.registry c l.key } c
        { l with pc := .sub_unlock })
  | .sub_unlock =>
    -- line 43 or 53, then lines 102 and 161
    .ok (respond { s with subscribers_mutex := none } c
      { l with buffer := snprintf BUFFER_SIZE ("SUB:" ++ l.key ++ ":key_subscribed\n") })
  | .gate_lock =>
    -- line 111
    if s.transaction_mutex.isSome then .blocked
    else .ok (set_thread { s with transaction_mutex := some c } c { l with pc := .gate_unlock })
  | .gate_unlock =>
    -- line 112
    .ok (set_thread { s with transaction_mutex := none } c { l with pc := .store_lock })
  | .store_lock => store_step c s l
  | .publish_lock =>
    -- lines 57-67
    if s.subscribers_mutex.isSome then .blocked
    else
      .ok (set_thread (publish { s with subscribers_mutex := some c } l.key l.value) c
        { l with pc := .publish_unlock })
  | .publish_unlock =>
    -- line 69
    .ok (set_thread { s with subscribers_mutex := none } c { l with pc := .store_unlock })
  | .store_unlock =>
    -- line 158, then line 161
    .ok (respond { s with store_mutex := none } c l)
  | .quit_unlock =>
    -- lines 155-156, then lines 163-165
    .ok (set_thread { s with store_mutex := none } c { l with pc := .closed })

/-! ## The system of all connections -/

/-- What can happen next in the system: bytes arrive on the socket of a thread waiting
in `recv`, or a thread executes its next synchronisation call. -/
inductive Event
  | recv (c : ConnId) (data : String)
  | step (c : ConnId)
deriving DecidableEq, Repr

/-- The effect of one event. -/
def next : Event → System → Outcome
  | .recv c data, s => recv c data s
  | .step c, s => step c s

/-- The effect of a sequence of events, first to last. -/
def exec : List Event → System → Outcome
  | [], s => .ok s
  | e :: es, s =>
    match next e s with
    | .ok s1 => exec es s1
    | o => o

/-- The states the system can be in: those a sequence of events leads to from a state
`started stack`, whatever fitting strings the threads find in their arrays; `initial` is
one of these states. -/
inductive Reachable : System → Prop
  | start (stack : ConnId → String × String × String) : Fits stack → Reachable (started stack)
  | next {s s1 : System} (e : Event) : Reachable s → next e s = .ok s1 → Reachable s1

/-- Thread `c` runs alone until it waits in `recv` again or has returned, for at most `fuel`
steps.  `blocked` when a mutex it needs is locked, or the fuel is spent. -/
def run (c : ConnId) : Nat → System → Outcome
  | 0, s => if (s.thread c).pc = .recv ∨ (s.thread c).pc = .closed then .ok s else .blocked
  | fuel + 1, s =>
    if (s.thread c).pc = .recv ∨ (s.thread c).pc = .closed then .ok s
    else
      match step c s with
      | .ok s1 => run c fuel s1
      | o => o

/-- Thread `c` receives `data` and handles it to the end with no other thread running in
between.  A request takes at most six steps (lines 111, 112, 115, 57, 69, 158). -/
def handle (c : ConnId) (data : String) (s : System) : Outcome :=
  match recv c data s with
  | .ok s1 => run c 6 s1
  | o => o

/-- The state a sequence of events leads to; an event that cannot happen ends the
sequence. -/
def after : List Event → System → System
  | [], s => s
  | e :: es, s =>
    match next e s with
    | .ok s1 => after es s1
    | _ => s

/-- The synchronisation calls thread `c` executes or attempts when it runs alone as in
`run`: its program counters, in order. -/
def calls (c : ConnId) : Nat → System → List Pc
  | 0, _ => []
  | fuel + 1, s =>
    if (s.thread c).pc = .recv ∨ (s.thread c).pc = .closed then []
    else
      (s.thread c).pc ::
        (match step c s with
        | .ok s1 => calls c fuel s1
        | _ => [])

/-- The number of synchronisation calls left before thread `c` is back in `recv` or has
returned, counted along the longest path of `client_handler` from each program counter. -/
def remaining : Pc → Nat
  | .recv => 0
  | .closed => 0
  | .beg_lock => 1
  | .end_unlock => 1
  | .sub_lock => 2
  | .sub_unlock => 1
  | .gate_lock => 6
  | .gate_unlock => 5
  | .store_lock => 4
  | .publish_lock => 3
  | .publish_unlock => 2
  | .store_unlock => 1
  | .quit_unlock => 1

/-! ## The transaction gate of the specification -/

/-- The gate of the specification. -/
inductive Gate
  | Idle
  | Active (owner : ConnId)
deriving DecidableEq, Repr

/-- The gate as a function of the state: `Active c` when thread `c` holds
`transaction_mutex` with its `in_transaction` flag set, `Idle` otherwise. -/
def gate (s : System) : Gate :=
  match s.transaction_mutex with
  | some c => if (s.thread c).in_transaction = 1 then .Active c else .Idle
  | none => .Idle

/-! ## Request lines and tokens of the protocol -/

/-- A token of at most `n` characters: not empty and free of white space and of NUL. -/
def IsToken (n : Nat) (t : String) : Prop :=
  0 < t.length ∧ t.length ≤ n ∧ (∀ ch ∈ t.data, isspace ch = false) ∧
    ∀ ch ∈ t.data, ¬ ch = '\x00'

instance (n : Nat) (t : String) : Decidable (IsToken n t) := by
  unfold IsToken; infer_instance

/-- The request line with a command and no argument. -/
def line1 (cmd : String) : String := cmd ++ "\n"

/-- The request line with a command and a key. -/
def line2 (cmd key : String) : String := cmd ++ " " ++ key ++ "\n"

/-- The request line with a command, a key and a value. -/
def line3 (cmd key value : String) : String := cmd ++ " " ++ key ++ " " ++ value ++ "\n"

/-- Thread `c` can handle a store request without waiting: it is in `recv`, the store and
registry locks are free, and either no lock is held on the gate and `c` is in no transaction,
or `c` is in its own transaction. -/
def Ready (s : System) (c : ConnId) : Prop :=
  (s.thread c).pc = .recv ∧ s.store_mutex = none ∧ s.subscribers_mutex = none ∧
  (((s.thread c).in_transaction = 0 ∧ s.transaction_mutex = none) ∨
   ((s.thread c).in_transaction = 1 ∧ s.transaction_owner = some c))

/-- The store array has its declared size and `store_size` is within it. -/
def StoreWF (s : Store) : Prop :=
  s.store.length = MAX_KEY_VALUE_PAIRS ∧ s.store_size ≤ MAX_KEY_VALUE_PAIRS

/-- The store holds the key `K` in one of its live slots. -/
def Present (kv : Store) (K : String) : Prop :=
  ∃ i, i < kv.store_size ∧ (kv.store.getD i default).key = K

/-- The bytes `recv` can return for one request: at least one and at most
`BUFFER_SIZE - 1`. -/
def Receivable (data : String) : Prop := 0 < data.length ∧ data.length ≤ BUFFER_SIZE - 1

/-- No two live slots of the store hold the same key. -/
def UniqueKeys (kv : Store) : Prop :=
  ∀ i j, i < kv.store_size → j < kv.store_size →
    (kv.store.getD i default).key = (kv.store.getD j default).key → i = j

/-- The store invariant of the system: the array is well formed, its live keys are distinct,
and the `key` array of every thread holds at most 127 characters. -/
def StoreInv (s : System) : Prop :=
  StoreWF s.kv ∧ UniqueKeys s.kv ∧ ∀ c, (s.thread c).key.length ≤ 127

/-- The registry array has its declared size and `num_subscribers` is within it. -/
def RegistryWF (r : Registry) : Prop :=
  r.subscribers.length = MAX_CLIENTS ∧ r.num_subscribers ≤ MAX_CLIENTS

/-- The subscription records: the first `num_subscribers` slots of the array. -/
def records (r : Registry) : List Subscriber :=
  r.subscribers.take r.num_subscribers

/-- The number of subscription records of connection `d` for the key `K`. -/
def record_count (r : Registry) (d : ConnId) (K : String) : Nat :=
  (records r).countP (fun x => decide (x.client_socket = d ∧ x.key = K))

/-- The gate invariant for thread `c`: its flag is 0, or it is 1 and `c` both holds
`transaction_mutex` and is recorded in `transaction_owner`; at lines 112 and 96 the thread
holds `transaction_mutex` with its flag 0; at line 111 its flag is 0. -/
def GateInvAt (s : System) (c : ConnId) : Prop :=
  ((s.thread c).in_transaction = 0 ∨
    ((s.thread c).in_transaction = 1 ∧ s.transaction_mutex = some c ∧
      s.transaction_owner = some c)) ∧
  ((s.thread c).pc = .gate_unlock →
    s.transaction_mutex = some c ∧ (s.thread c).in_transaction = 0) ∧
  ((s.thread c).pc = .end_unlock →
    s.transaction_mutex = some c ∧ (s.thread c).in_transaction = 0) ∧
  ((s.thread c).pc = .gate_lock → (s.thread c).in_transaction = 0)

/-- The gate invariant of the system. -/
def GateInv (s : System) : Prop := ∀ c, GateInvAt s c

/-! ## Auxiliary definitions of the proofs -/

/-- The messages part of `publish_loop`: what the loop appends to the messages `sent` on
each socket. -/
def publish_sent (r : Registry) (key buffer : String) :
    Nat → Nat → (ConnId → List String) → (ConnId → List String)
  | 0, _, sent => sent
  | n + 1, i, sent =>
    let subscriber := r.subscribers.getD i default
    publish_sent r key buffer n (i + 1)
      (if subscriber.key = key then
        Function.update sent subscriber.client_socket (sent subscriber.client_socket ++ [buffer])
      else sent)

/-- The program counters of the store path: from line 115 on a thread meets no call on
`transaction_mutex`. -/
def StorePath (pc : Pc) : Prop :=
  pc = .store_lock ∨ pc = .publish_lock ∨ pc = .publish_unlock ∨ pc = .store_unlock ∨
    pc = .quit_unlock ∨ pc = .recv ∨ pc = .closed

/-! ## States and schedules of the scenarios -/

/-- The state `s` with the gate idle for connection `c`: `transaction_mutex` is free and the
flag of `c` is 0. -/
def with_idle_gate (s : System) (c : ConnId) : System :=
  { s with
    transaction_mutex := none
    thread := Function.update s.thread c { (s.thread c) with in_transaction := 0 } }

/-- Scenario B before the PUT: connection 2 has subscribed to the key `a`. -/
def subscribed_2 : System :=
  after [.recv 2 "SUB a\n", .step 2, .step 2] initial

/-- The state in which connection 1 has begun a transaction and waits for its next
request. -/
def in_transaction_1 : System :=
  after [.recv 1 "BEG\n", .step 1] initial

/-- The schedule of the race: connection 2 passes the gate wait of a PUT (lines 111 and
112), then connection 1 begins a transaction. -/
def race_events : List Event :=
  [.recv 2 "PUT a 1\n", .step 2, .step 2, .recv 1 "BEG\n", .step 1]

/-! ## Vocabulary of the store and registry claims -/

/-- The entries of the store: its first `store_size` slots, in order. -/
def entries (kv : Store) : List KeyValuePair :=
  kv.store.take kv.store_size

/-- A sequence of requests, each one received by its connection and handled to the end
before the next one arrives. -/
def serve : List (ConnId × String) → System → Outcome
  | [], s => .ok s
  | (c, data) :: rest, s =>
    match handle c data s with
    | .ok s1 => serve rest s1
    | o => o

/-- The state a sequence of requests leads to; a request that is not answered ends the
sequence. -/
def served : List (ConnId × String) → System → System
  | [], s => s
  | (c, data) :: rest, s =>
    match handle c data s with
    | .ok s1 => served rest s1
    | _ => s

/-- A sequence of requests of two connections that inserts, overwrites and deletes. -/
def mixed_requests : List (ConnId × String) :=
  [(1, "PUT a 1\n"), (2, "PUT b 2\n"), (1, "GET a\n"), (2, "PUT a 3\n"), (1, "DEL a\n"),
    (1, "PUT c 4\n")]
/-- The state the requests of `mixed_requests` lead to from `initial`. -/
def mixed_state : System := served mixed_requests initial

/-- The `i`-th of a family of distinct keys: `k`, `kk`, `kkk`, ... -/
def fill_key (i : Nat) : String :=
  String.mk (List.replicate (i + 1) 'k')

/-- The requests `PUT k v`, `PUT kk v`, ... of connection 1 for the first `n` keys of
`fill_key`. -/
def fill_requests (n : Nat) : List (ConnId × String) :=
  (List.range n).map (fun i => (1, line3 "PUT" (fill_key i) "v"))

/-- Requests of one connection in which the second and third leave arguments out. -/
def stale_requests : List (ConnId × String) :=
  [(1, "PUT a 1\n"), (1, "PUT k\n"), (1, "GET\n")]

/-! ## Vocabulary of the dispatcher claims -/

/-- The command is one of the seven the dispatcher knows, in any spelling of upper and lower
case. -/
def Recognized (cmd : String) : Prop :=
  strcasecmp cmd "BEG" = true ∨ strcasecmp cmd "END" = true ∨ strcasecmp cmd "SUB" = true ∨
    strcasecmp cmd "GET" = true ∨ strcasecmp cmd "PUT" = true ∨ strcasecmp cmd "DEL" = true ∨
    strcasecmp cmd "QUIT" = true

instance (cmd : String) : Decidable (Recognized cmd) := by
  unfold Recognized; infer_instance

/-- Apply a function to the state of an outcome. -/
def Outcome.map (f : System → System) : Outcome → Outcome
  | .ok s => .ok (f s)
  | .blocked => .blocked
  | .undefined => .undefined

/-- The state `s` with other contents in the arrays `cmd` and `buffer` of thread `c`. -/
def recased (s : System) (c : ConnId) (cmd buffer : String) : System :=
  set_thread s c { (s.thread c) with cmd := cmd, buffer := buffer }

/-- The program counters at which the buffer of a thread holds what it sends next, or has
just sent. -/
def Settled (pc : Pc) : Prop :=
  pc = .recv ∨ pc = .end_unlock ∨ pc = .store_unlock ∨ pc = .publish_lock ∨
    pc = .publish_unlock

instance (pc : Pc) : Decidable (Settled pc) := by
  unfold Settled; infer_instance

/-- Two outcomes are the same to every observer: both wait, both are undefined, or both are
states with the same store, registry, messages sent on every socket, locks, owner, and the
same program counter and `in_transaction` flag in every thread. -/
def SameOutcome : Outcome → Outcome → Prop
  | .ok s1, .ok s2 =>
    s1.kv = s2.kv ∧ s1.registry = s2.registry ∧ s1.sent = s2.sent ∧
    s1.store_mutex = s2.store_mutex ∧ s1.subscribers_mutex = s2.subscribers_mutex ∧
    s1.transaction_mutex = s2.transaction_mutex ∧
    s1.transaction_owner = s2.transaction_owner ∧
    (∀ d, (s1.thread d).pc = (s2.thread d).pc ∧
      (s1.thread d).in_transaction = (s2.thread d).in_transaction) ∧
    gate s1 = gate s2
  | .blocked, .blocked => True
  | .undefined, .undefined => True
  | _, _ => False

/-- The command of a thread on the store path is one of GET, PUT, DEL, QUIT. -/
def StoreCommand (l : Local) : Prop :=
  (l.pc = .gate_lock ∨ l.pc = .gate_unlock ∨ l.pc = .store_lock) →
    (strcasecmp l.cmd "GET" = true ∨ strcasecmp l.cmd "PUT" = true ∨
      strcasecmp l.cmd "DEL" = true ∨ strcasecmp l.cmd "QUIT" = true)

/-- The second outcome is the first up to the contents of the arrays `cmd` and `buffer` of
thread `c`. -/
def Respelled (c : ConnId) : Outcome → Outcome → Prop
  | .ok s1, .ok t1 => ∃ cmd b, t1 = recased s1 c cmd b
  | .blocked, .blocked => True
  | .undefined, .undefined => True
  | _, _ => False

/-! ## Lemmas on the library functions -/

theorem takeWhile_token (l rest : List Char) (sep : Char) (hl : ∀ ch ∈ l, isspace ch = false)
    (hsep : isspace sep = true) :
    (l ++ sep :: rest).takeWhile (fun ch => !isspace ch) = l := by
  induction l with
  | nil => simp [List.takeWhile, hsep]
  | cons a l ih =>
    have ha : isspace a = false := hl a (by simp)
    have ih2 := ih (fun ch h => hl ch (by simp [h]))
    simp [List.takeWhile_cons, ha, ih2]

theorem scan_s_token (n : Nat) (t : String) (sep : Char) (rest : List Char)
    (ht : IsToken n t) (hsep : isspace sep = true) :
    scan_s n (t.data ++ sep :: rest) = some (t.data, sep :: rest) := by
  obtain ⟨hpos, hlen, hns, _⟩ := ht
  have hlen2 : t.data.length ≤ n := hlen
  obtain ⟨a, l, hal⟩ : ∃ a l, t.data = a :: l := by
    cases h : t.data with
    | nil => simp [String.length, h] at hpos
    | cons a l => exact ⟨a, l, rfl⟩
  have ha : isspace a = false := hns a (by simp [hal])
  have hdrop : (t.data ++ sep :: rest).dropWhile isspace = t.data ++ sep :: rest := by
    rw [hal]; simp [List.dropWhile, ha]
  unfold scan_s
  simp only [hdrop, takeWhile_token t.data rest sep hns hsep, List.take_of_length_le hlen2]
  simp [hal]

theorem scan_s_eol (n : Nat) : scan_s n ['\n'] = none := by
  simp [scan_s, isspace, List.dropWhile]

theorem isspace_blank : isspace ' ' = true := by decide

theorem scan_s_skip (n : Nat) (sep : Char) (l : List Char) (hsep : isspace sep = true) :
    scan_s n (sep :: l) = scan_s n l := by
  simp [scan_s, List.dropWhile_cons, hsep]

theorem length_blank : (" " : String).length = 1 := rfl

theorem length_newline : ("\n" : String).length = 1 := rfl

theorem isspace_newline : isspace '\n' = true := by decide

theorem scan_line3 (w K V cmd key value : String) (hw : IsToken 15 w)
    (hK : IsToken 127 K) (hV : IsToken 127 V) :
    sscanf (line3 w K V) cmd key value = (w, K, V) := by
  have e : (line3 w K V).data = w.data ++ ' ' :: (K.data ++ ' ' :: (V.data ++ ['\n'])) := by
    simp [line3, String.data_append]
  unfold sscanf
  rw [e, scan_s_token 15 w ' ' _ hw isspace_blank]
  simp only []
  rw [scan_s_skip 127 ' ' _ isspace_blank, scan_s_token 127 K ' ' _ hK isspace_blank]
  simp only []
  rw [scan_s_skip 127 ' ' _ isspace_blank, scan_s_token 127 V '\n' _ hV isspace_newline]

theorem scan_line2 (w K cmd key value : String) (hw : IsToken 15 w)
    (hK : IsToken 127 K) :
    sscanf (line2 w K) cmd key value = (w, K, value) := by
  have e : (line2 w K).data = w.data ++ ' ' :: (K.data ++ ['\n']) := by
    simp [line2, String.data_append]
  unfold sscanf
  rw [e, scan_s_token 15 w ' ' _ hw isspace_blank]
  simp only []
  rw [scan_s_skip 127 ' ' _ isspace_blank, scan_s_token 127 K '\n' _ hK isspace_newline]
  simp only []
  rw [scan_s_eol]

theorem scan_line1 (w cmd key value : String) (hw : IsToken 15 w) :
    sscanf (line1 w) cmd key value = (w, key, value) := by
  have e : (line1 w).data = w.data ++ ['\n'] := by
    simp [line1, String.data_append]
  unfold sscanf
  rw [e, scan_s_token 15 w '\n' _ hw isspace_newline]
  simp only []
  rw [scan_s_eol]

theorem c_str_of_no_nul (t : String) (h : ∀ ch ∈ t.data, ¬ ch = '\x00') : c_str t = t := by
  unfold c_str
  have e : t.data.takeWhile (fun ch => ch != '\x00') = t.data := by
    rw [List.takeWhile_eq_self_iff]
    intro ch hch
    simpa using h ch hch
  rw [e]

theorem c_str_line1 (w : String) (hw : IsToken 15 w) : c_str (line1 w) = line1 w := by
  apply c_str_of_no_nul
  intro ch hch
  simp only [line1, String.data_append, List.mem_append] at hch
  rcases hch with h | h
  · exact hw.2.2.2 ch h
  · have e : ch = '\n' := by simpa using h
    rw [e]; decide

theorem c_str_line2 (w K : String) (hw : IsToken 15 w) (hK : IsToken 127 K) :
    c_str (line2 w K) = line2 w K := by
  apply c_str_of_no_nul
  intro ch hch
  simp only [line2, String.data_append, List.mem_append] at hch
  rcases hch with ((h | h) | h) | h
  · exact hw.2.2.2 ch h
  · have e : ch = ' ' := by simpa using h
    rw [e]; decide
  · exact hK.2.2.2 ch h
  · have e : ch = '\n' := by simpa using h
    rw [e]; decide

theorem c_str_line3 (w K V : String) (hw : IsToken 15 w) (hK : IsToken 127 K)
    (hV : IsToken 127 V) : c_str (line3 w K V) = line3 w K V := by
  apply c_str_of_no_nul
  intro ch hch
  simp only [line3, String.data_append, List.mem_append] at hch
  rcases hch with ((((h | h) | h) | h) | h) | h
  · exact hw.2.2.2 ch h
  · have e : ch = ' ' := by simpa using h
    rw [e]; decide
  · exact hK.2.2.2 ch h
  · have e : ch = ' ' := by simpa using h
    rw [e]; decide
  · exact hV.2.2.2 ch h
  · have e : ch = '\n' := by simpa using h
    rw [e]; decide

theorem sscanf_line3 (w K V cmd key value : String) (hw : IsToken 15 w)
    (hK : IsToken 127 K) (hV : IsToken 127 V) :
    sscanf (c_str (line3 w K V)) cmd key value = (w, K, V) := by
  rw [c_str_line3 w K V hw hK hV]
  exact scan_line3 w K V cmd key value hw hK hV

theorem sscanf_line2 (w K cmd key value : String) (hw : IsToken 15 w)
    (hK : IsToken 127 K) :
    sscanf (c_str (line2 w K)) cmd key value = (w, K, value) := by
  rw [c_str_line2 w K hw hK]
  exact scan_line2 w K cmd key value hw hK

theorem sscanf_line1 (w cmd key value : String) (hw : IsToken 15 w) :
    sscanf (c_str (line1 w)) cmd key value = (w, key, value) := by
  rw [c_str_line1 w hw]
  exact scan_line1 w cmd key value hw

theorem line3_length (w K V : String) :
    (line3 w K V).length = w.length + K.length + V.length + 3 := by
  simp [line3, String.length_append, length_blank, length_newline]; omega

theorem line2_length (w K : String) : (line2 w K).length = w.length + K.length + 2 := by
  simp [line2, String.length_append, length_blank, length_newline]; omega

theorem line1_length (w : String) : (line1 w).length = w.length + 1 := by
  simp [line1, String.length_append, length_newline]

theorem strncpy_of_le (src : String) (n : Nat) (h : src.length ≤ n) : strncpy src n = src := by
  have h2 : src.data.length ≤ n := h
  simp [strncpy, List.take_of_length_le h2]

theorem snprintf_of_lt (size : Nat) (text : String) (h : text.length < size) :
    snprintf size text = text := by
  have h2 : text.data.length ≤ size - 1 := by
    have : text.data.length < size := h
    omega
  simp [snprintf, List.take_of_length_le h2]

/-! ## Lemmas on the store -/

theorem find_key_eq_some_iff (store : List KeyValuePair) (key : String) (n i j : Nat) :
    find_key store key n i = some j ↔
      i ≤ j ∧ j < i + n ∧ key = (store.getD j default).key ∧
        ∀ k, i ≤ k → k < j → ¬ key = (store.getD k default).key := by
  induction n generalizing i with
  | zero => simp [find_key]; intro h1 h2; omega
  | succ n ih =>
    unfold find_key
    by_cases h : key = (store.getD i default).key
    · simp only [h, if_true, Option.some.injEq]
      constructor
      · intro e; subst e
        exact ⟨le_refl _, by omega, rfl, fun k h1 h2 => by omega⟩
      · rintro ⟨h1, _, _, h4⟩
        by_contra hne
        exact h4 i (le_refl _) (by omega) (by rw [← h])
    · simp only [h, if_false, ih]
      constructor
      · rintro ⟨h1, h2, h3, h4⟩
        refine ⟨by omega, by omega, h3, fun k hk1 hk2 => ?_⟩
        by_cases hki : k = i
        · subst hki; exact h
        · exact h4 k (by omega) hk2
      · rintro ⟨h1, h2, h3, h4⟩
        have hij : i ≠ j := by
          intro e; subst e; exact h h3
        exact ⟨by omega, by omega, h3, fun k hk1 hk2 => h4 k (by omega) hk2⟩

theorem find_key_eq_none_iff (store : List KeyValuePair) (key : String) (n i : Nat) :
    find_key store key n i = none ↔
      ∀ k, i ≤ k → k < i + n → ¬ key = (store.getD k default).key := by
  induction n generalizing i with
  | zero => simp [find_key]; intro k h1 h2; omega
  | succ n ih =>
    unfold find_key
    by_cases h : key = (store.getD i default).key
    · simp only [h, if_true]
      constructor
      · intro e; cases e
      · intro hall
        exact absurd (by rw [← h]) (hall i (le_refl _) (by omega))
    · simp only [h, if_false, ih]
      constructor
      · intro hall k hk1 hk2
        by_cases hki : k = i
        · subst hki; exact h
        · exact hall k (by omega) (by omega)
      · intro hall k hk1 hk2
        exact hall k (by omega) (by omega)

theorem getD_set_eq (l : List KeyValuePair) (i : Nat) (x : KeyValuePair) (h : i < l.length) :
    (l.set i x).getD i default = x := by
  simp [List.getD_eq_getElem?_getD, List.getElem?_set, h]

theorem getD_set_ne (l : List KeyValuePair) (i j : Nat) (x : KeyValuePair) (h : i ≠ j) :
    (l.set i x).getD j default = l.getD j default := by
  simp [List.getD_eq_getElem?_getD, List.getElem?_set, h]

theorem find_key_of_present (kv : Store) (K : String) (h : Present kv K) :
    ∃ j, find_key kv.store K kv.store_size 0 = some j := by
  cases hf : find_key kv.store K kv.store_size 0 with
  | some j => exact ⟨j, rfl⟩
  | none =>
    obtain ⟨i, hi, hk⟩ := h
    rw [find_key_eq_none_iff] at hf
    exact absurd hk.symm (hf i (Nat.zero_le _) (by omega))

theorem put_body_some (kv : Store) (K V : String)
    (h : Present kv K ∨ kv.store_size < MAX_KEY_VALUE_PAIRS) :
    ∃ kv1, put_body kv K V = some kv1 := by
  unfold put_body
  cases hf : find_key kv.store K kv.store_size 0 with
  | some j => exact ⟨_, rfl⟩
  | none =>
    rcases h with h | h
    · obtain ⟨j, hj⟩ := find_key_of_present kv K h
      rw [hf] at hj; cases hj
    · simp [h]

theorem put_body_find (kv kv1 : Store) (K V : String) (hwf : StoreWF kv)
    (hK : K.length ≤ 127) (hV : V.length ≤ 127) (hput : put_body kv K V = some kv1) :
    StoreWF kv1 ∧ ∃ j, find_key kv1.store K kv1.store_size 0 = some j ∧
      (kv1.store.getD j default).value = V := by
  obtain ⟨hlen, hsize⟩ := hwf
  have eK : strncpy K 128 = K := strncpy_of_le K 128 (by omega)
  have eV : strncpy V 128 = V := strncpy_of_le V 128 (by omega)
  unfold put_body at hput
  cases hf : find_key kv.store K kv.store_size 0 with
  | some j =>
    rw [hf] at hput
    simp only [Option.some.injEq] at hput
    subst hput
    have hj := (find_key_eq_some_iff _ _ _ _ _).1 hf
    obtain ⟨_, hj2, hj3, hj4⟩ := hj
    have hjl : j < kv.store.length := by omega
    refine ⟨⟨by simp [hlen], hsize⟩, j, ?_, ?_⟩
    · rw [find_key_eq_some_iff]
      refine ⟨Nat.zero_le _, hj2, ?_, ?_⟩
      · simp only [getD_set_eq _ _ _ hjl]; exact hj3
      · intro k hk1 hk2
        have : j ≠ k := by omega
        simp only [getD_set_ne _ _ _ _ this]
        exact hj4 k hk1 hk2
    · simp only [getD_set_eq _ _ _ hjl, eV]
  | none =>
    rw [hf] at hput
    by_cases hcap : kv.store_size < MAX_KEY_VALUE_PAIRS
    · simp only [hcap, if_true, Option.some.injEq] at hput
      subst hput
      have hn := (find_key_eq_none_iff _ _ _ _).1 hf
      have hjl : kv.store_size < kv.store.length := by omega
      refine ⟨⟨by simp [hlen], by simp only []; omega⟩, kv.store_size, ?_, ?_⟩
      · rw [find_key_eq_some_iff]
        refine ⟨Nat.zero_le _, by simp, ?_, ?_⟩
        · simp only [getD_set_eq _ _ _ hjl, eK]
        · intro k hk1 hk2
          have : kv.store_size ≠ k := by omega
          simp only [getD_set_ne _ _ _ _ this]
          exact hn k hk1 (by omega)
      · simp only [getD_set_eq _ _ _ hjl, eV]
    · simp [hcap] at hput

theorem present_of_find (kv : Store) (K : String) (j : Nat)
    (h : find_key kv.store K kv.store_size 0 = some j) : Present kv K := by
  obtain ⟨_, h2, h3, _⟩ := (find_key_eq_some_iff _ _ _ _ _).1 h
  exact ⟨j, by omega, h3.symm⟩

theorem get_body_of_find (kv : Store) (K : String) (j : Nat)
    (h : find_key kv.store K kv.store_size 0 = some j) :
    get_body kv K =
      snprintf BUFFER_SIZE ("GET:" ++ K ++ ":" ++ (kv.store.getD j default).value ++ "\n") := by
  simp [get_body, h]

/-! ## One request handled to the end -/

theorem strcasecmp_excl (c a b : String) (ha : strcasecmp c a = true)
    (hab : ¬ a.data.map Char.toLower = b.data.map Char.toLower) : strcasecmp c b = false := by
  simp only [strcasecmp, beq_iff_eq] at ha
  simp only [strcasecmp, ha, beq_eq_false_iff_ne, ne_eq]
  exact hab

theorem publish_loop_eq (key buffer : String) (n i : Nat) (s : System) :
    publish_loop key buffer n i s =
      { s with sent := publish_sent s.registry key buffer n i s.sent } := by
  induction n generalizing i s with
  | zero => simp [publish_loop, publish_sent]
  | succ n ih =>
    by_cases h : (s.registry.subscribers.getD i default).key = key
    · simp only [publish_loop, publish_sent, h, if_true, ih, send]
    · simp only [publish_loop, publish_sent, h, if_false, ih]

theorem receivable_not_long (data : String) (hd : Receivable data) :
    ¬ (1023 < data.length) := by
  have := hd.2; simp only [BUFFER_SIZE] at this; omega

theorem receivable_not_empty (data : String) (hd : Receivable data) : ¬ (data.length = 0) := by
  have := hd.1; omega

theorem handle_get (s : System) (c : ConnId) (data cmd key value : String)
    (hr : Ready s c) (hd : Receivable data)
    (hparse : sscanf (c_str data) (s.thread c).cmd (s.thread c).key (s.thread c).value = (cmd, key, value))
    (hcmd : strcasecmp cmd "GET" = true) :
    handle c data s = .ok (respond s c
      { (s.thread c) with buffer := get_body s.kv key, cmd := cmd, key := key, value := value }) := by
  have h1 : strcasecmp cmd "BEG" = false := strcasecmp_excl _ _ _ hcmd (by decide)
  have h2 : strcasecmp cmd "END" = false := strcasecmp_excl _ _ _ hcmd (by decide)
  have h3 : strcasecmp cmd "SUB" = false := strcasecmp_excl _ _ _ hcmd (by decide)
  obtain ⟨hpc, hsm, hsub, hg⟩ := hr
  have hlen2 := receivable_not_long data hd
  have hpos2 := receivable_not_empty data hd
  rcases hg with ⟨hin, htm⟩ | ⟨hin, hown⟩
  · simp [handle, recv, hpc, hlen2, hpos2, dispatch, hparse, h1, h2, h3, hin, run, step,
      set_thread, htm, store_step, hsm, hcmd, respond, send]
  · simp [handle, recv, hpc, hlen2, hpos2, dispatch, hparse, h1, h2, h3, hin, hown, run, step,
      set_thread, store_step, hsm, hcmd, respond, send]

theorem handle_put (s : System) (c : ConnId) (data cmd key value : String) (kv1 : Store)
    (hr : Ready s c) (hd : Receivable data)
    (hparse : sscanf (c_str data) (s.thread c).cmd (s.thread c).key (s.thread c).value = (cmd, key, value))
    (hcmd : strcasecmp cmd "PUT" = true) (hput : put_body s.kv key value = some kv1) :
    handle c data s = .ok (respond
      { s with
        kv := kv1
        sent := publish_sent s.registry key
          (snprintf BUFFER_SIZE ("PUB:" ++ key ++ ":" ++ value ++ "\n"))
          s.registry.num_subscribers 0 s.sent } c
      { (s.thread c) with
        buffer := snprintf BUFFER_SIZE ("PUT:" ++ key ++ ":" ++ value ++ "\n")
        cmd := cmd, key := key, value := value }) := by
  have h1 : strcasecmp cmd "BEG" = false := strcasecmp_excl _ _ _ hcmd (by decide)
  have h2 : strcasecmp cmd "END" = false := strcasecmp_excl _ _ _ hcmd (by decide)
  have h3 : strcasecmp cmd "SUB" = false := strcasecmp_excl _ _ _ hcmd (by decide)
  have h4 : strcasecmp cmd "GET" = false := strcasecmp_excl _ _ _ hcmd (by decide)
  obtain ⟨hpc, hsm, hsub, hg⟩ := hr
  have hlen2 := receivable_not_long data hd
  have hpos2 := receivable_not_empty data hd
  rcases hg with ⟨hin, htm⟩ | ⟨hin, hown⟩
  · simp [handle, recv, hpc, hlen2, hpos2, dispatch, hparse, h1, h2, h3, h4, hin, run, step,
      set_thread, htm, store_step, hsm, hsub, hcmd, hput, respond, send, publish,
      publish_loop_eq]
  · simp [handle, recv, hpc, hlen2, hpos2, dispatch, hparse, h1, h2, h3, h4, hin, hown, run, step,
      set_thread, store_step, hsm, hsub, hcmd, hput, respond, send, publish,
      publish_loop_eq]

theorem handle_put_undefined (s : System) (c : ConnId) (data cmd key value : String)
    (hr : Ready s c) (hd : Receivable data)
    (hparse : sscanf (c_str data) (s.thread c).cmd (s.thread c).key (s.thread c).value = (cmd, key, value))
    (hcmd : strcasecmp cmd "PUT" = true) (hput : put_body s.kv key value = none) :
    handle c data s = .undefined := by
  have h1 : strcasecmp cmd "BEG" = false := strcasecmp_excl _ _ _ hcmd (by decide)
  have h2 : strcasecmp cmd "END" = false := strcasecmp_excl _ _ _ hcmd (by decide)
  have h3 : strcasecmp cmd "SUB" = false := strcasecmp_excl _ _ _ hcmd (by decide)
  have h4 : strcasecmp cmd "GET" = false := strcasecmp_excl _ _ _ hcmd (by decide)
  obtain ⟨hpc, hsm, hsub, hg⟩ := hr
  have hlen2 := receivable_not_long data hd
  have hpos2 := receivable_not_empty data hd
  rcases hg with ⟨hin, htm⟩ | ⟨hin, hown⟩
  · simp [handle, recv, hpc, hlen2, hpos2, dispatch, hparse, h1, h2, h3, h4, hin, run, step,
      set_thread, htm, store_step, hsm, hsub, hcmd, hput]
  · simp [handle, recv, hpc, hlen2, hpos2, dispatch, hparse, h1, h2, h3, h4, hin, hown, run, step,
      set_thread, store_step, hsm, hsub, hcmd, hput]

theorem handle_del (s : System) (c : ConnId) (data cmd key value : String)
    (hr : Ready s c) (hd : Receivable data)
    (hparse : sscanf (c_str data) (s.thread c).cmd (s.thread c).key (s.thread c).value = (cmd, key, value))
    (hcmd : strcasecmp cmd "DEL" = true) :
    handle c data s = .ok (respond { s with kv := (del_body s.kv key).1 } c
      { (s.thread c) with
        buffer := (del_body s.kv key).2, cmd := cmd, key := key, value := value }) := by
  have h1 : strcasecmp cmd "BEG" = false := strcasecmp_excl _ _ _ hcmd (by decide)
  have h2 : strcasecmp cmd "END" = false := strcasecmp_excl _ _ _ hcmd (by decide)
  have h3 : strcasecmp cmd "SUB" = false := strcasecmp_excl _ _ _ hcmd (by decide)
  have h4 : strcasecmp cmd "GET" = false := strcasecmp_excl _ _ _ hcmd (by decide)
  have h5 : strcasecmp cmd "PUT" = false := strcasecmp_excl _ _ _ hcmd (by decide)
  obtain ⟨hpc, hsm, hsub, hg⟩ := hr
  have hlen2 := receivable_not_long data hd
  have hpos2 := receivable_not_empty data hd
  rcases hg with ⟨hin, htm⟩ | ⟨hin, hown⟩
  · simp [handle, recv, hpc, hlen2, hpos2, dispatch, hparse, h1, h2, h3, h4, h5, hin, run, step,
      set_thread, htm, store_step, hsm, hcmd, respond, send]
  · simp [handle, recv, hpc, hlen2, hpos2, dispatch, hparse, h1, h2, h3, h4, h5, hin, hown, run,
      step, set_thread, store_step, hsm, hcmd, respond, send]

theorem ready_respond (s : System) (c d : ConnId) (l : Local) (kv : Store)
    (sent : ConnId → List String) (hd : Ready s d)
    (hl : l.in_transaction = (s.thread c).in_transaction) :
    Ready (respond { s with kv := kv, sent := sent } c l) d := by
  obtain ⟨hpc, hsm, hsub, hg⟩ := hd
  by_cases h : d = c
  · subst h
    simpa [Ready, respond, set_thread, send, hsm, hsub, hl] using hg
  · simpa [Ready, respond, set_thread, send, hsm, hsub, Function.update, h, hpc] using hg

theorem token_PUT : IsToken 15 "PUT" := by decide
theorem token_GET : IsToken 15 "GET" := by decide
theorem token_DEL : IsToken 15 "DEL" := by decide

theorem receivable_line3 (w K V : String) (hw : IsToken 15 w) (hK : IsToken 127 K)
    (hV : IsToken 127 V) : Receivable (line3 w K V) := by
  have := hw.2.1; have := hK.2.1; have := hV.2.1
  constructor
  · rw [line3_length]; omega
  · rw [line3_length]; simp only [BUFFER_SIZE]; omega

theorem receivable_line2 (w K : String) (hw : IsToken 15 w) (hK : IsToken 127 K) :
    Receivable (line2 w K) := by
  have := hw.2.1; have := hK.2.1
  constructor
  · rw [line2_length]; omega
  · rw [line2_length]; simp only [BUFFER_SIZE]; omega

theorem receivable_line1 (w : String) (hw : IsToken 15 w) : Receivable (line1 w) := by
  have := hw.2.1
  constructor
  · rw [line1_length]; omega
  · rw [line1_length]; simp only [BUFFER_SIZE]; omega

theorem get_text (K V : String) (hK : K.length ≤ 127) (hV : V.length ≤ 127) :
    snprintf BUFFER_SIZE ("GET:" ++ K ++ ":" ++ V ++ "\n") = "GET:" ++ K ++ ":" ++ V ++ "\n" := by
  apply snprintf_of_lt
  have e1 : ("GET:" : String).length = 4 := rfl
  have e2 : (":" : String).length = 1 := rfl
  simp only [String.length_append, e1, e2, length_newline, BUFFER_SIZE]
  omega

theorem respond_kv (s : System) (c : ConnId) (l : Local) : (respond s c l).kv = s.kv := rfl

theorem respond_sent_self (s : System) (c : ConnId) (l : Local) :
    (respond s c l).sent c = s.sent c ++ [l.buffer] := by
  simp [respond, send, set_thread]

/-! ## Effect of one step on the store -/

theorem step_key (c : ConnId) (s s1 : System) (h : step c s = .ok s1) (d : ConnId) :
    (s1.thread d).key = (s.thread d).key := by
  unfold step at h
  cases hpc : (s.thread c).pc <;>
    simp only [hpc, store_step, respond, send, set_thread, publish, publish_loop_eq] at h <;>
    (repeat' split at h) <;> simp at h <;> subst h <;>
    by_cases hd : d = c <;> simp [Function.update, hd, *]

theorem step_kv (c : ConnId) (s s1 : System) (h : step c s = .ok s1) :
    s1.kv = s.kv ∨ put_body s.kv (s.thread c).key (s.thread c).value = some s1.kv ∨
      s1.kv = (del_body s.kv (s.thread c).key).1 := by
  unfold step at h
  cases hpc : (s.thread c).pc <;>
    simp only [hpc, store_step, respond, send, set_thread, publish, publish_loop_eq] at h <;>
    (repeat' split at h) <;> simp at h <;> subst h <;> simp [*]

theorem put_body_wf (kv kv1 : Store) (K V : String) (hwf : StoreWF kv)
    (hput : put_body kv K V = some kv1) : StoreWF kv1 := by
  obtain ⟨hlen, hsize⟩ := hwf
  unfold put_body at hput
  split at hput
  · simp only [Option.some.injEq] at hput
    subst hput
    exact ⟨by simp [hlen], hsize⟩
  · simp only [] at hput
    split at hput
    · simp only [Option.some.injEq] at hput
      subst hput
      exact ⟨by simp [hlen], by simp only []; omega⟩
    · cases hput

theorem put_body_unique (kv kv1 : Store) (K V : String) (hwf : StoreWF kv)
    (hu : UniqueKeys kv) (hK : K.length ≤ 127) (hput : put_body kv K V = some kv1) :
    UniqueKeys kv1 := by
  obtain ⟨hlen, hsize⟩ := hwf
  have eK : strncpy K 128 = K := strncpy_of_le K 128 (by omega)
  unfold put_body at hput
  cases hf : find_key kv.store K kv.store_size 0 with
  | some j =>
    rw [hf] at hput
    simp only [Option.some.injEq] at hput
    subst hput
    obtain ⟨_, hj2, hj3, _⟩ := (find_key_eq_some_iff _ _ _ _ _).1 hf
    have hjl : j < kv.store.length := by omega
    have hkey : ∀ a, ((kv.store.set j
        { (kv.store.getD j default) with value := strncpy V 128 }).getD a default).key =
        (kv.store.getD a default).key := by
      intro a
      by_cases ha : j = a
      · subst ha; rw [getD_set_eq _ _ _ hjl]
      · rw [getD_set_ne _ _ _ _ ha]
    intro a b ha hb hab
    simp only [hkey] at hab
    exact hu a b ha hb hab
  | none =>
    rw [hf] at hput
    by_cases hcap : kv.store_size < MAX_KEY_VALUE_PAIRS
    · simp only [hcap, if_true, Option.some.injEq] at hput
      subst hput
      have hn := (find_key_eq_none_iff _ _ _ _).1 hf
      have hjl : kv.store_size < kv.store.length := by omega
      have hnew : ((kv.store.set kv.store_size
          { key := strncpy K 128, value := strncpy V 128 }).getD kv.store_size default).key = K := by
        rw [getD_set_eq _ _ _ hjl]; exact eK
      have hold : ∀ a, a < kv.store_size → ((kv.store.set kv.store_size
          { key := strncpy K 128, value := strncpy V 128 }).getD a default).key =
          (kv.store.getD a default).key := by
        intro a ha
        rw [getD_set_ne _ _ _ _ (by omega)]
      intro a b ha hb hab
      simp only [] at ha hb
      by_cases haa : a = kv.store_size
      · by_cases hbb : b = kv.store_size
        · omega
        · exfalso
          rw [haa, hnew, hold b (by omega)] at hab
          exact hn b (Nat.zero_le _) (by omega) hab
      · by_cases hbb : b = kv.store_size
        · exfalso
          rw [hbb, hnew, hold a (by omega)] at hab
          exact hn a (Nat.zero_le _) (by omega) hab.symm
        · rw [hold a (by omega), hold b (by omega)] at hab
          exact hu a b (by omega) (by omega) hab
    · simp [hcap] at hput

theorem del_body_wf (kv : Store) (K : String) (hwf : StoreWF kv) :
    StoreWF (del_body kv K).1 := by
  obtain ⟨hlen, hsize⟩ := hwf
  unfold del_body
  split
  · exact ⟨by simp [hlen], by simp only []; omega⟩
  · exact ⟨hlen, hsize⟩

theorem del_body_slot (kv : Store) (K : String) (i a : Nat)
    (hwf : StoreWF kv) (hf : find_key kv.store K kv.store_size 0 = some i) :
    ((del_body kv K).1.store.getD a default) =
      kv.store.getD (if a = i then kv.store_size - 1 else a) default := by
  obtain ⟨hlen, hsize⟩ := hwf
  obtain ⟨_, hj2, _, _⟩ := (find_key_eq_some_iff _ _ _ _ _).1 hf
  have hil : i < kv.store.length := by omega
  simp only [del_body, hf]
  by_cases ha : a = i
  · subst ha; simp only [if_true]; rw [getD_set_eq _ _ _ hil]
  · simp only [ha, if_false]; rw [getD_set_ne _ _ _ _ (fun e => ha e.symm)]

theorem del_body_size (kv : Store) (K : String) (i : Nat)
    (hf : find_key kv.store K kv.store_size 0 = some i) :
    (del_body kv K).1.store_size = kv.store_size - 1 := by
  simp only [del_body, hf]

theorem del_body_unique (kv : Store) (K : String) (hwf : StoreWF kv) (hu : UniqueKeys kv) :
    UniqueKeys (del_body kv K).1 := by
  cases hf : find_key kv.store K kv.store_size 0 with
  | none => simpa [del_body, hf] using hu
  | some i =>
    obtain ⟨_, hj2, _, _⟩ := (find_key_eq_some_iff _ _ _ _ _).1 hf
    intro a b ha hb hab
    rw [del_body_size kv K i hf] at ha hb
    rw [del_body_slot kv K i a hwf hf, del_body_slot kv K i b hwf hf] at hab
    have := hu _ _ (by split <;> omega) (by split <;> omega) hab
    split at this <;> split at this <;> omega

theorem del_body_absent (kv : Store) (K : String) (hwf : StoreWF kv) (hu : UniqueKeys kv) :
    find_key (del_body kv K).1.store K (del_body kv K).1.store_size 0 = none := by
  cases hf : find_key kv.store K kv.store_size 0 with
  | none => simp [del_body, hf]
  | some i =>
    obtain ⟨_, hj2, hj3, _⟩ := (find_key_eq_some_iff _ _ _ _ _).1 hf
    rw [find_key_eq_none_iff]
    intro a _ ha hk
    rw [del_body_size kv K i hf] at ha
    rw [del_body_slot kv K i a hwf hf, hj3] at hk
    have := hu _ _ (by omega) (by split <;> omega) hk
    split at this <;> omega

theorem scan_s_length (n : Nat) (input tok rest : List Char)
    (h : scan_s n input = some (tok, rest)) : tok.length ≤ n := by
  unfold scan_s at h
  simp only [] at h
  split at h
  · cases h
  · simp only [Option.some.injEq, Prod.mk.injEq] at h
    rw [← h.1]
    exact List.length_take_le _ _

theorem sscanf_key_length (buffer cmd key value : String) (h : key.length ≤ 127) :
    (sscanf buffer cmd key value).2.1.length ≤ 127 := by
  unfold sscanf
  split
  · exact h
  · split
    · exact h
    · rename_i k r2 hk
      have := scan_s_length _ _ _ _ hk
      split <;> exact this

theorem dispatch_kv (c : ConnId) (s : System) (l : Local) : (dispatch c s l).kv = s.kv := by
  unfold dispatch
  simp only []
  repeat' split
  all_goals rfl

theorem dispatch_key (c : ConnId) (s : System) (l : Local) (d : ConnId) :
    ((dispatch c s l).thread d).key =
      if d = c then (sscanf l.buffer l.cmd l.key l.value).2.1 else (s.thread d).key := by
  unfold dispatch
  simp only []
  by_cases hd : d = c <;> repeat' split
  all_goals simp [set_thread, respond, send, Function.update, hd]

theorem recv_kv (c : ConnId) (data : String) (s s1 : System) (h : recv c data s = .ok s1) :
    s1.kv = s.kv := by
  unfold recv at h
  simp only [] at h
  repeat' split at h
  all_goals cases h
  · rfl
  · exact dispatch_kv _ _ _

theorem recv_key (c : ConnId) (data : String) (s s1 : System) (h : recv c data s = .ok s1)
    (hk : ∀ d, (s.thread d).key.length ≤ 127) (d : ConnId) : (s1.thread d).key.length ≤ 127 := by
  unfold recv at h
  simp only [] at h
  repeat' split at h
  all_goals cases h
  · by_cases hd : d = c
    · subst hd; simpa [set_thread] using hk d
    · simpa [set_thread, Function.update, hd] using hk d
  · rw [dispatch_key]
    split
    · exact sscanf_key_length _ _ _ _ (hk c)
    · exact hk d

/-- The state `initial` is the state `started` on fresh stacks. -/
theorem Reachable.init : Reachable initial :=
  Reachable.start (fun _ => ("", "", "")) (fun _ => ⟨by simp, by simp, by simp⟩)

theorem reachable_store_inv (s : System) (h : Reachable s) : StoreInv s := by
  induction h with
  | start stack hfit =>
    refine ⟨by simp [StoreWF, started, initial], ?_, fun c => (hfit c).2.1⟩
    intro i j hi hj
    simp [started, initial] at hi
  | next e _ hnext ih =>
    obtain ⟨hwf, hu, hk⟩ := ih
    cases e with
    | recv c data =>
      have e := recv_kv c data _ _ hnext
      exact ⟨e ▸ hwf, e ▸ hu, recv_key c data _ _ hnext hk⟩
    | step c =>
      have hkey := step_key c _ _ hnext
      refine ⟨?_, ?_, fun d => by rw [hkey d]; exact hk d⟩
      · rcases step_kv c _ _ hnext with e | e | e
        · exact e ▸ hwf
        · exact put_body_wf _ _ _ _ hwf e
        · exact e ▸ del_body_wf _ _ hwf
      · rcases step_kv c _ _ hnext with e | e | e
        · exact e ▸ hu
        · exact put_body_unique _ _ _ _ hwf hu (hk c) e
        · exact e ▸ del_body_unique _ _ hwf hu

theorem run_reachable (c : ConnId) (n : Nat) (s s1 : System) (hs : Reachable s)
    (h : run c n s = .ok s1) : Reachable s1 := by
  induction n generalizing s with
  | zero =>
    unfold run at h
    split at h
    · cases h; exact hs
    · cases h
  | succ n ih =>
    unfold run at h
    split at h
    · cases h; exact hs
    · cases hstep : step c s with
      | ok s2 =>
        rw [hstep] at h
        exact ih s2 (Reachable.next (Event.step c) hs hstep) h
      | blocked => rw [hstep] at h; cases h
      | undefined => rw [hstep] at h; cases h

theorem handle_reachable (c : ConnId) (data : String) (s s1 : System) (hs : Reachable s)
    (h : handle c data s = .ok s1) : Reachable s1 := by
  unfold handle at h
  cases hrecv : recv c data s with
  | ok s2 =>
    rw [hrecv] at h
    exact run_reachable c 6 s2 s1 (Reachable.next (Event.recv c data) hs hrecv) h
  | blocked => rw [hrecv] at h; cases h
  | undefined => rw [hrecv] at h; cases h

theorem get_absent_text (K : String) (hK : K.length ≤ 127) :
    snprintf BUFFER_SIZE ("GET:" ++ K ++ ":key_nonexistent\n") =
      "GET:" ++ K ++ ":key_nonexistent\n" := by
  apply snprintf_of_lt
  have e1 : ("GET:" : String).length = 4 := rfl
  have e2 : (":key_nonexistent\n" : String).length = 17 := rfl
  simp only [String.length_append, e1, e2, BUFFER_SIZE]
  omega

/-! ## The fan-out -/

theorem publish_sent_eq (r : Registry) (key buffer : String) (n i : Nat)
    (sent : ConnId → List String) (h : i + n ≤ r.subscribers.length) (d : ConnId) :
    publish_sent r key buffer n i sent d =
      sent d ++ List.replicate
        (((r.subscribers.drop i).take n).countP
          (fun x => decide (x.client_socket = d ∧ x.key = key))) buffer := by
  induction n generalizing i sent with
  | zero => simp [publish_sent]
  | succ n ih =>
    have hi : i < r.subscribers.length := by omega
    have hget : r.subscribers.getD i default = r.subscribers[i] := by
      simp [List.getD_eq_getElem?_getD, List.getElem?_eq_getElem hi]
    have hdrop : (r.subscribers.drop i).take (n + 1) =
        r.subscribers[i] :: (r.subscribers.drop (i + 1)).take n := by
      rw [List.drop_eq_getElem_cons hi, List.take_succ_cons]
    unfold publish_sent
    simp only [hget, hdrop, List.countP_cons]
    rw [ih (i + 1) _ (by omega)]
    by_cases hk : r.subscribers[i].key = key
    · by_cases hs : r.subscribers[i].client_socket = d
      · rw [hs]
        simp [hk, hs, List.replicate_succ]
      · simp [hk, hs, Function.update, Ne.symm hs]
    · simp [hk]

theorem publish_sent_all (r : Registry) (key buffer : String)
    (sent : ConnId → List String) (h : RegistryWF r) (d : ConnId) :
    publish_sent r key buffer r.num_subscribers 0 sent d =
      sent d ++ List.replicate (record_count r d key) buffer := by
  have := publish_sent_eq r key buffer r.num_subscribers 0 sent (by have := h.1; have := h.2; omega) d
  simpa [record_count, records] using this

theorem reply_text (p K V : String) (hp : p.length ≤ 16) (hK : K.length ≤ 127)
    (hV : V.length ≤ 127) :
    snprintf BUFFER_SIZE (p ++ K ++ ":" ++ V ++ "\n") = p ++ K ++ ":" ++ V ++ "\n" := by
  apply snprintf_of_lt
  have e2 : (":" : String).length = 1 := rfl
  simp only [String.length_append, e2, length_newline, BUFFER_SIZE]
  omega

/-! ## The gate invariant -/

theorem step_other (c : ConnId) (s s1 : System) (h : step c s = .ok s1) (d : ConnId)
    (hd : d ≠ c) : s1.thread d = s.thread d := by
  unfold step at h
  cases hpc : (s.thread c).pc <;>
    simp only [hpc, store_step, respond, send, set_thread, publish, publish_loop_eq] at h <;>
    (repeat' split at h) <;> simp at h <;> subst h <;> simp [Function.update, hd]

/-- What one step of thread `c` does to the gate variables. -/
theorem step_gate (c : ConnId) (s s1 : System) (h : step c s = .ok s1) :
    ((s.thread c).pc = .beg_lock ∧ s.transaction_mutex = none ∧
        s1.transaction_mutex = some c ∧ (s1.thread c).pc = .recv ∧
        (((s.thread c).in_transaction = 0 ∧ (s1.thread c).in_transaction = 1 ∧
            s1.transaction_owner = some c) ∨
          ((s.thread c).in_transaction ≠ 0 ∧
            (s1.thread c).in_transaction = (s.thread c).in_transaction ∧
            s1.transaction_owner = s.transaction_owner))) ∨
    ((s.thread c).pc = .gate_lock ∧ s.transaction_mutex = none ∧
        s1.transaction_mutex = some c ∧ (s1.thread c).pc = .gate_unlock ∧
        (s1.thread c).in_transaction = (s.thread c).in_transaction ∧
        s1.transaction_owner = s.transaction_owner) ∨
    (((s.thread c).pc = .gate_unlock ∨ (s.thread c).pc = .end_unlock) ∧
        s1.transaction_mutex = none ∧
        (s1.thread c).pc ≠ .gate_unlock ∧ (s1.thread c).pc ≠ .end_unlock ∧
        (s1.thread c).pc ≠ .gate_lock ∧
        (s1.thread c).in_transaction = (s.thread c).in_transaction ∧
        s1.transaction_owner = s.transaction_owner) ∨
    ((s.thread c).pc ≠ .beg_lock ∧ (s.thread c).pc ≠ .gate_lock ∧
        (s.thread c).pc ≠ .gate_unlock ∧ (s.thread c).pc ≠ .end_unlock ∧
        s1.transaction_mutex = s.transaction_mutex ∧
        (s1.thread c).pc ≠ .gate_unlock ∧ (s1.thread c).pc ≠ .end_unlock ∧
        (s1.thread c).pc ≠ .gate_lock ∧
        (s1.thread c).in_transaction = (s.thread c).in_transaction ∧
        s1.transaction_owner = s.transaction_owner) := by
  unfold step at h
  cases hpc : (s.thread c).pc <;>
    simp only [hpc, store_step, respond, send, set_thread, publish, publish_loop_eq] at h <;>
    (repeat' split at h) <;> simp at h <;> subst h <;> simp_all

theorem dispatch_other (c : ConnId) (s : System) (l : Local) (d : ConnId) (hd : d ≠ c) :
    (dispatch c s l).thread d = s.thread d := by
  unfold dispatch
  simp only []
  repeat' split
  all_goals simp [set_thread, respond, send, Function.update, hd]

/-- What `dispatch` does to the gate variables. -/
theorem dispatch_gate (c : ConnId) (s : System) (l : Local) :
    (dispatch c s l).transaction_mutex = s.transaction_mutex ∧
    (dispatch c s l).transaction_owner = s.transaction_owner ∧
    ((((dispatch c s l).thread c).in_transaction = l.in_transaction ∧
        ((dispatch c s l).thread c).pc ≠ .gate_unlock ∧
        ((dispatch c s l).thread c).pc ≠ .end_unlock ∧
        (((dispatch c s l).thread c).pc = .gate_lock → l.in_transaction = 0)) ∨
      (l.in_transaction = 1 ∧ s.transaction_owner = some c ∧
        ((dispatch c s l).thread c).in_transaction = 0 ∧
        ((dispatch c s l).thread c).pc = .end_unlock ∧
        strcasecmp ((dispatch c s l).thread c).cmd "END" = true)) := by
  unfold dispatch
  simp only []
  repeat' split
  all_goals simp_all [set_thread, respond, send]

/-- What a `recv` event of thread `c` does to the gate variables. -/
theorem recv_gate (c : ConnId) (data : String) (s s1 : System) (h : recv c data s = .ok s1) :
    (s.thread c).pc = .recv ∧
    (∀ d, d ≠ c → s1.thread d = s.thread d) ∧
    s1.transaction_mutex = s.transaction_mutex ∧
    s1.transaction_owner = s.transaction_owner ∧
    (((s1.thread c).in_transaction = (s.thread c).in_transaction ∧
        (s1.thread c).pc ≠ .gate_unlock ∧ (s1.thread c).pc ≠ .end_unlock ∧
        ((s1.thread c).pc = .gate_lock → (s.thread c).in_transaction = 0)) ∨
      ((s.thread c).in_transaction = 1 ∧ s.transaction_owner = some c ∧
        (s1.thread c).in_transaction = 0 ∧ (s1.thread c).pc = .end_unlock ∧
        strcasecmp (s1.thread c).cmd "END" = true)) := by
  unfold recv at h
  simp only [] at h
  split at h
  · cases h
  rename_i hpc
  simp only [ne_eq, not_not] at hpc
  split at h
  · cases h
  split at h
  · cases h
    refine ⟨hpc, fun d hd => by simp [set_thread, Function.update, hd], rfl, rfl, Or.inl ?_⟩
    simp [set_thread]
  · cases h
    have hg := dispatch_gate c s { (s.thread c) with buffer := c_str data }
    exact ⟨hpc, fun d hd => dispatch_other c s _ d hd, hg.1, hg.2.1, hg.2.2⟩

theorem gate_inv_recv (c : ConnId) (data : String) (s s1 : System)
    (h : recv c data s = .ok s1) (hinv : GateInv s) : GateInv s1 := by
  obtain ⟨_, hother, htm, hown, hcase⟩ := recv_gate c data s s1 h
  intro d
  have hd0 := hinv d
  by_cases hd : d = c
  · subst hd
    unfold GateInvAt at hd0 ⊢
    rw [htm, hown]
    rcases hcase with ⟨h1, h2, h3, h4⟩ | ⟨h1, h2, h3, h4, _⟩
    · rw [h1]
      exact ⟨hd0.1, fun e => absurd e h2, fun e => absurd e h3, h4⟩
    · rw [h3, h4]
      have htm0 : s.transaction_mutex = some d := by
        rcases hd0.1 with e | e
        · omega
        · exact e.2.1
      exact ⟨Or.inl rfl, (fun e => by cases e), (fun _ => ⟨htm0, rfl⟩), (fun e => by cases e)⟩
  · unfold GateInvAt at hd0 ⊢
    rw [htm, hown, hother d hd]
    exact hd0

theorem gate_inv_step (c : ConnId) (s s1 : System)
    (h : step c s = .ok s1) (hinv : GateInv s) : GateInv s1 := by
  have hother := step_other c s s1 h
  have hc0 := hinv c
  intro d
  have hd0 := hinv d
  unfold GateInvAt at hd0 hc0 ⊢
  by_cases hd : d = c
  · subst hd
    rcases step_gate d s s1 h with
      ⟨h1, h2, h3, h4, h5⟩ | ⟨h1, h2, h3, h4, h5, h6⟩ | ⟨h1, h2, h3, h4, h5, h6, h7⟩ |
      ⟨h1, h2, h3, h4, h5, h6, h7, h8, h9, h10⟩
    · rw [h3, h4]
      refine ⟨?_, (fun e => by cases e), (fun e => by cases e), (fun e => by cases e)⟩
      rcases h5 with ⟨_, e1, e2⟩ | ⟨e0, _, _⟩
      · exact Or.inr ⟨e1, rfl, e2⟩
      · rcases hd0.1 with e | e
        · exact absurd e e0
        · rw [h2] at e; cases e.2.1
    · rw [h3, h4, h5, h6]
      have e0 := hd0.2.2.2 h1
      exact ⟨Or.inl e0, (fun _ => ⟨rfl, e0⟩), (fun e => by cases e), (fun e => by cases e)⟩
    · have e0 : (s.thread d).in_transaction = 0 := by
        rcases h1 with e | e
        · exact (hd0.2.1 e).2
        · exact (hd0.2.2.1 e).2
      rw [h6]
      exact ⟨Or.inl e0, fun e => absurd e h3, fun e => absurd e h4, fun e => absurd e h5⟩
    · rw [h5, h9, h10]
      exact ⟨hd0.1, fun e => absurd e h6, fun e => absurd e h7, fun e => absurd e h8⟩
  · rw [hother d hd]
    rcases step_gate c s s1 h with
      ⟨_, h2, _⟩ | ⟨_, h2, _⟩ | ⟨h1, _⟩ | ⟨_, _, _, _, h5, _, _, _, _, h10⟩
    · -- the mutex was free: no flag is set, no thread is at line 112 or 96
      rw [h2] at hd0
      refine ⟨Or.inl ?_, fun e => ?_, fun e => ?_, hd0.2.2.2⟩
      · rcases hd0.1 with e | e
        · exact e
        · cases e.2.1
      · cases (hd0.2.1 e).1
      · cases (hd0.2.2.1 e).1
    · rw [h2] at hd0
      refine ⟨Or.inl ?_, fun e => ?_, fun e => ?_, hd0.2.2.2⟩
      · rcases hd0.1 with e | e
        · exact e
        · cases e.2.1
      · cases (hd0.2.1 e).1
      · cases (hd0.2.2.1 e).1
    · -- thread `c` held the mutex, so thread `d` did not
      have hc : s.transaction_mutex = some c := by
        rcases h1 with e | e
        · exact (hc0.2.1 e).1
        · exact (hc0.2.2.1 e).1
      have hne : ¬ s.transaction_mutex = some d := by
        rw [hc]; intro e; exact hd (Option.some.inj e).symm
      refine ⟨Or.inl ?_, fun e => ?_, fun e => ?_, hd0.2.2.2⟩
      · rcases hd0.1 with e | e
        · exact e
        · exact absurd e.2.1 hne
      · exact absurd (hd0.2.1 e).1 hne
      · exact absurd (hd0.2.2.1 e).1 hne
    · rw [h5, h10]
      exact hd0

theorem reachable_gate_inv (s : System) (h : Reachable s) : GateInv s := by
  induction h with
  | start stack hfit =>
    intro c
    simp [GateInvAt, started, initial]
  | next e _ hnext ih =>
    cases e with
    | recv c data => exact gate_inv_recv c data _ _ hnext ih
    | step c => exact gate_inv_step c _ _ hnext ih

/-! ## Requests on the gate -/

theorem after_reachable (es : List Event) (s : System) (hs : Reachable s) :
    Reachable (after es s) := by
  induction es generalizing s with
  | nil => exact hs
  | cons e es ih =>
    unfold after
    cases hnext : next e s with
    | ok s1 => exact ih s1 (Reachable.next e hs hnext)
    | blocked => exact hs
    | undefined => exact hs

theorem exec_reachable (es : List Event) (s s1 : System) (hs : Reachable s)
    (h : exec es s = .ok s1) : Reachable s1 := by
  induction es generalizing s with
  | nil => cases h; exact hs
  | cons e es ih =>
    unfold exec at h
    cases hnext : next e s with
    | ok s2 => rw [hnext] at h; exact ih s2 (Reachable.next e hs hnext) h
    | blocked => rw [hnext] at h; cases h
    | undefined => rw [hnext] at h; cases h

theorem token_BEG : IsToken 15 "BEG" := by decide
theorem token_END : IsToken 15 "END" := by decide
theorem token_QUIT : IsToken 15 "QUIT" := by decide

theorem handle_beg (s : System) (c : ConnId) (data cmd key value : String)
    (hpc : (s.thread c).pc = .recv) (htm : s.transaction_mutex = none)
    (hin : (s.thread c).in_transaction = 0) (hd : Receivable data)
    (hparse : sscanf (c_str data) (s.thread c).cmd (s.thread c).key (s.thread c).value = (cmd, key, value))
    (hcmd : strcasecmp cmd "BEG" = true) :
    handle c data s = .ok (respond
      { s with transaction_mutex := some c, transaction_owner := some c } c
      { (s.thread c) with
        in_transaction := 1
        buffer := "BEG:transaction_started\n"
        cmd := cmd, key := key, value := value }) := by
  have hlen2 := receivable_not_long data hd
  have hpos2 := receivable_not_empty data hd
  have e : snprintf 1024 "BEG:transaction_started\n" = "BEG:transaction_started\n" := by decide
  simp [handle, recv, hpc, hlen2, hpos2, dispatch, hparse, hcmd, hin, run, step,
    set_thread, htm, respond, send, e]

theorem handle_beg_blocked (s : System) (c d : ConnId) (data cmd key value : String)
    (hpc : (s.thread c).pc = .recv) (htm : s.transaction_mutex = some d) (hd : Receivable data)
    (hparse : sscanf (c_str data) (s.thread c).cmd (s.thread c).key (s.thread c).value = (cmd, key, value))
    (hcmd : strcasecmp cmd "BEG" = true) :
    handle c data s = .blocked := by
  have hlen2 := receivable_not_long data hd
  have hpos2 := receivable_not_empty data hd
  simp [handle, recv, hpc, hlen2, hpos2, dispatch, hparse, hcmd, run, step,
    set_thread, htm]

theorem handle_end_owner (s : System) (c : ConnId) (data cmd key value : String)
    (hpc : (s.thread c).pc = .recv) (hin : (s.thread c).in_transaction = 1)
    (hown : s.transaction_owner = some c) (hd : Receivable data)
    (hparse : sscanf (c_str data) (s.thread c).cmd (s.thread c).key (s.thread c).value = (cmd, key, value))
    (hcmd : strcasecmp cmd "END" = true) :
    handle c data s = .ok (respond { s with transaction_mutex := none } c
      { (s.thread c) with
        in_transaction := 0
        buffer := "END:transaction_ended\n"
        cmd := cmd, key := key, value := value }) := by
  have h1 : strcasecmp cmd "BEG" = false := strcasecmp_excl _ _ _ hcmd (by decide)
  have hlen2 := receivable_not_long data hd
  have hpos2 := receivable_not_empty data hd
  have e : snprintf 1024 "END:transaction_ended\n" = "END:transaction_ended\n" := by decide
  simp [handle, recv, hpc, hlen2, hpos2, dispatch, hparse, hcmd, h1, hin, hown, run, step,
    set_thread, respond, send, e]

theorem handle_end_other (s : System) (c : ConnId) (data cmd key value : String)
    (hpc : (s.thread c).pc = .recv)
    (hno : ¬ ((s.thread c).in_transaction = 1 ∧ s.transaction_owner = some c))
    (hd : Receivable data)
    (hparse : sscanf (c_str data) (s.thread c).cmd (s.thread c).key (s.thread c).value = (cmd, key, value))
    (hcmd : strcasecmp cmd "END" = true) :
    handle c data s = .ok (respond s c
      { (s.thread c) with
        buffer := "END:no_transaction_to_end\n"
        cmd := cmd, key := key, value := value }) := by
  have h1 : strcasecmp cmd "BEG" = false := strcasecmp_excl _ _ _ hcmd (by decide)
  have hlen2 := receivable_not_long data hd
  have hpos2 := receivable_not_empty data hd
  have e : snprintf 1024 "END:no_transaction_to_end\n" = "END:no_transaction_to_end\n" := by
    decide
  by_cases hin : (s.thread c).in_transaction = 1
  · have hown : ¬ s.transaction_owner = some c := fun h => hno ⟨hin, h⟩
    simp [handle, recv, hpc, hlen2, hpos2, dispatch, hparse, hcmd, h1, hin, hown, run,
      set_thread, respond, send, e]
  · simp [handle, recv, hpc, hlen2, hpos2, dispatch, hparse, hcmd, h1, hin, run,
      set_thread, respond, send, e]

theorem gate_active_iff (s : System) (c : ConnId) :
    gate s = .Active c ↔ s.transaction_mutex = some c ∧ (s.thread c).in_transaction = 1 := by
  unfold gate
  cases htm : s.transaction_mutex with
  | none => simp
  | some d =>
    by_cases hin : (s.thread d).in_transaction = 1
    · simp only [hin, if_true, Gate.Active.injEq, Option.some.injEq]
      constructor
      · intro e; subst e; exact ⟨rfl, hin⟩
      · intro e; exact e.1
    · simp only [hin, if_false, Option.some.injEq]
      constructor
      · intro e; cases e
      · rintro ⟨e, h1⟩; subst e; exact absurd h1 hin

theorem gate_idle_of_free (s : System) (h : s.transaction_mutex = none) : gate s = .Idle := by
  simp [gate, h]

theorem flag_of_reachable (s : System) (hs : Reachable s) (c : ConnId)
    (h : (s.thread c).in_transaction = 1) :
    s.transaction_mutex = some c ∧ s.transaction_owner = some c := by
  rcases (reachable_gate_inv s hs c).1 with e | e
  · omega
  · exact e.2

/-- One event keeps the gate `Active c`, unless it is the arrival of an END request on
connection `c`, which makes it idle. -/
theorem gate_next (s s1 : System) (c : ConnId) (e : Event) (hs : Reachable s)
    (hact : gate s = .Active c) (hnext : next e s = .ok s1) :
    gate s1 = .Active c ∨
      (gate s1 = .Idle ∧ ∃ data, e = .recv c data ∧ strcasecmp (s1.thread c).cmd "END" = true) := by
  obtain ⟨htm, hin⟩ := (gate_active_iff s c).1 hact
  have hinv := reachable_gate_inv s hs
  cases e with
  | recv d data =>
    obtain ⟨_, hother, htm1, _, hcase⟩ := recv_gate d data s s1 hnext
    by_cases hd : c = d
    · subst hd
      rcases hcase with ⟨h1, _⟩ | ⟨_, _, h3, _, h5⟩
      · exact Or.inl ((gate_active_iff s1 c).2 ⟨by rw [htm1, htm], by rw [h1, hin]⟩)
      · refine Or.inr ⟨?_, data, rfl, h5⟩
        simp [gate, htm1, htm, h3]
    · exact Or.inl ((gate_active_iff s1 c).2 ⟨by rw [htm1, htm], by rw [hother c hd, hin]⟩)
  | step d =>
    have hother := step_other d s s1 hnext
    rcases step_gate d s s1 hnext with
      ⟨_, h2, _⟩ | ⟨_, h2, _⟩ | ⟨h1, _⟩ | ⟨_, _, _, _, h5, _, _, _, h9, _⟩
    · rw [h2] at htm; cases htm
    · rw [h2] at htm; cases htm
    · exfalso
      have hd : s.transaction_mutex = some d ∧ (s.thread d).in_transaction = 0 := by
        rcases h1 with e | e
        · exact (hinv d).2.1 e
        · exact (hinv d).2.2.1 e
      rw [htm] at hd
      have := Option.some.inj hd.1
      subst this
      omega
    · refine Or.inl ((gate_active_iff s1 c).2 ⟨by rw [h5, htm], ?_⟩)
      by_cases hd : c = d
      · subst hd; rw [h9, hin]
      · rw [hother c hd, hin]

theorem closed_next (s s1 : System) (c : ConnId) (e : Event)
    (hpc : (s.thread c).pc = .closed) (hnext : next e s = .ok s1) :
    (s1.thread c).pc = .closed ∧ ∀ data, e ≠ .recv c data := by
  cases e with
  | recv d data =>
    obtain ⟨hpcd, hother, _⟩ := recv_gate d data s s1 hnext
    have hd : c ≠ d := by
      intro e; subst e; rw [hpc] at hpcd; cases hpcd
    refine ⟨by rw [hother c hd, hpc], fun data1 e => ?_⟩
    cases e; exact hd rfl
  | step d =>
    have hd : c ≠ d := by
      intro e; subst e
      simp [next, step, hpc] at hnext
    refine ⟨by rw [step_other d s s1 hnext c hd, hpc], fun data1 e => by cases e⟩

theorem abandoned_forever (es : List Event) (s s1 : System) (c : ConnId) (hs : Reachable s)
    (hact : gate s = .Active c) (hpc : (s.thread c).pc = .closed)
    (h : exec es s = .ok s1) : gate s1 = .Active c := by
  induction es generalizing s with
  | nil => cases h; exact hact
  | cons e es ih =>
    unfold exec at h
    cases hnext : next e s with
    | ok s2 =>
      rw [hnext] at h
      obtain ⟨hpc2, hne⟩ := closed_next s s2 c e hpc hnext
      rcases gate_next s s2 c e hs hact hnext with h2 | ⟨_, data, h3, _⟩
      · exact ih s2 (Reachable.next e hs hnext) h2 hpc2 h
      · exact absurd h3 (hne data)
    | blocked => rw [hnext] at h; cases h
    | undefined => rw [hnext] at h; cases h

theorem handle_quit_owner (s : System) (c : ConnId) (data cmd key value : String)
    (hpc : (s.thread c).pc = .recv) (hin : (s.thread c).in_transaction = 1)
    (hown : s.transaction_owner = some c) (hsm : s.store_mutex = none) (hd : Receivable data)
    (hparse : sscanf (c_str data) (s.thread c).cmd (s.thread c).key (s.thread c).value = (cmd, key, value))
    (hcmd : strcasecmp cmd "QUIT" = true) :
    handle c data s = .ok (set_thread s c
      { (s.thread c) with
        pc := .closed, buffer := c_str data, cmd := cmd, key := key, value := value }) := by
  have h1 : strcasecmp cmd "BEG" = false := strcasecmp_excl _ _ _ hcmd (by decide)
  have h2 : strcasecmp cmd "END" = false := strcasecmp_excl _ _ _ hcmd (by decide)
  have h3 : strcasecmp cmd "SUB" = false := strcasecmp_excl _ _ _ hcmd (by decide)
  have h4 : strcasecmp cmd "GET" = false := strcasecmp_excl _ _ _ hcmd (by decide)
  have h5 : strcasecmp cmd "PUT" = false := strcasecmp_excl _ _ _ hcmd (by decide)
  have h6 : strcasecmp cmd "DEL" = false := strcasecmp_excl _ _ _ hcmd (by decide)
  have hlen2 := receivable_not_long data hd
  have hpos2 := receivable_not_empty data hd
  simp [handle, recv, hpc, hlen2, hpos2, dispatch, hparse, h1, h2, h3, h4, h5, h6, hin, hown, run,
    step, set_thread, store_step, hsm, hcmd]

/-! ## The store path -/

theorem step_store_path (c : ConnId) (s s1 : System) (h : step c s = .ok s1)
    (hp : StorePath (s.thread c).pc) : StorePath (s1.thread c).pc := by
  unfold step at h
  unfold StorePath at hp ⊢
  cases hpc : (s.thread c).pc <;> rw [hpc] at hp <;>
    simp only [hpc, store_step, respond, send, set_thread, publish, publish_loop_eq] at h <;>
    (repeat' split at h) <;> simp at h hp <;> subst h <;> simp

theorem calls_store_path (c : ConnId) (n : Nat) (s : System)
    (hp : StorePath (s.thread c).pc) : ∀ pc ∈ calls c n s, StorePath pc := by
  induction n generalizing s with
  | zero => intro pc h; simp [calls] at h
  | succ n ih =>
    intro pc h
    unfold calls at h
    split at h
    · simp at h
    · rw [List.mem_cons] at h
      rcases h with h | h
      · rw [h]; exact hp
      · cases hstep : step c s with
        | ok s1 =>
          rw [hstep] at h
          exact ih s1 (step_store_path c s s1 hstep hp) pc h
        | blocked => rw [hstep] at h; simp at h
        | undefined => rw [hstep] at h; simp at h

theorem dispatch_owner_store (c : ConnId) (s : System) (l : Local)
    (hin : l.in_transaction = 1) (hown : s.transaction_owner = some c)
    (h1 : strcasecmp (sscanf l.buffer l.cmd l.key l.value).1 "BEG" = false)
    (h2 : strcasecmp (sscanf l.buffer l.cmd l.key l.value).1 "END" = false)
    (h3 : strcasecmp (sscanf l.buffer l.cmd l.key l.value).1 "SUB" = false) :
    ((dispatch c s l).thread c).pc = .store_lock := by
  unfold dispatch
  generalize sscanf l.buffer l.cmd l.key l.value = p at h1 h2 h3
  obtain ⟨cmd, key, value⟩ := p
  simp only [] at h1 h2 h3
  simp [h1, h2, h3, hin, hown, set_thread]

/-! ## Waiting for ever at line 84 -/

theorem stuck_next (s s1 : System) (c : ConnId) (e : Event) (hs : Reachable s)
    (htm : s.transaction_mutex = some c) (hpc : (s.thread c).pc = .beg_lock)
    (hnext : next e s = .ok s1) :
    s1.transaction_mutex = some c ∧ (s1.thread c).pc = .beg_lock := by
  have hinv := reachable_gate_inv s hs
  cases e with
  | recv d data =>
    obtain ⟨hpcd, hother, htm1, _⟩ := recv_gate d data s s1 hnext
    have hd : c ≠ d := by
      intro e; subst e; rw [hpc] at hpcd; cases hpcd
    exact ⟨by rw [htm1, htm], by rw [hother c hd, hpc]⟩
  | step d =>
    have hd : c ≠ d := by
      intro e; subst e
      simp [next, step, hpc, htm] at hnext
    refine ⟨?_, by rw [step_other d s s1 hnext c hd, hpc]⟩
    rcases step_gate d s s1 hnext with
      ⟨_, h2, _⟩ | ⟨_, h2, _⟩ | ⟨h1, _⟩ | ⟨_, _, _, _, h5, _⟩
    · rw [h2] at htm; cases htm
    · rw [h2] at htm; cases htm
    · exfalso
      have hdm : s.transaction_mutex = some d := by
        rcases h1 with e | e
        · exact ((hinv d).2.1 e).1
        · exact ((hinv d).2.2.1 e).1
      rw [htm] at hdm
      exact hd (Option.some.inj hdm)
    · rw [h5, htm]

/-- A thread that waits at line 84 for the mutex it holds itself waits for ever: whatever
happens next, it is still at line 84 and still holds the mutex. -/
theorem repeated_beg_stuck (es : List Event) (s s1 : System) (c : ConnId) (hs : Reachable s)
    (htm : s.transaction_mutex = some c) (hpc : (s.thread c).pc = .beg_lock)
    (h : exec es s = .ok s1) :
    s1.transaction_mutex = some c ∧ (s1.thread c).pc = .beg_lock := by
  induction es generalizing s with
  | nil => cases h; exact ⟨htm, hpc⟩
  | cons e es ih =>
    unfold exec at h
    cases hnext : next e s with
    | ok s2 =>
      rw [hnext] at h
      obtain ⟨htm2, hpc2⟩ := stuck_next s s2 c e hs htm hpc hnext
      exact ih s2 (Reachable.next e hs hnext) htm2 hpc2 h
    | blocked => rw [hnext] at h; cases h
    | undefined => rw [hnext] at h; cases h

/-! ## Fuel -/

theorem step_remaining (c : ConnId) (s s1 : System) (h : step c s = .ok s1) :
    remaining (s1.thread c).pc < remaining (s.thread c).pc := by
  unfold step at h
  cases hpc : (s.thread c).pc <;>
    simp only [hpc, store_step, respond, send, set_thread, publish, publish_loop_eq] at h <;>
    (repeat' split at h) <;> simp at h <;> subst h <;> simp [remaining]

theorem remaining_eq_zero (pc : Pc) (h : remaining pc = 0) : pc = .recv ∨ pc = .closed := by
  cases pc <;> simp [remaining] at h ⊢

/-- The fuel of `run` is enough as soon as it covers the calls left: more fuel gives the
same outcome. -/
theorem run_fuel (c : ConnId) (n k : Nat) (s : System)
    (h : remaining (s.thread c).pc ≤ n) : run c (n + k) s = run c n s := by
  induction n generalizing s with
  | zero =>
    have hz := remaining_eq_zero _ (Nat.le_zero.1 h)
    cases k with
    | zero => rfl
    | succ k => simp [run, hz]
  | succ n ih =>
    rw [Nat.add_right_comm]
    unfold run
    split
    · rfl
    · cases hstep : step c s with
      | ok s1 =>
        have := step_remaining c s s1 hstep
        exact ih s1 (by omega)
      | blocked => rfl
      | undefined => rfl

theorem remaining_le_six (pc : Pc) : remaining pc ≤ 6 := by
  cases pc <;> simp [remaining]

/-! ## Schedules and the holder of the gate -/

theorem exec_after (es : List Event) (s s1 : System) (h : exec es s = .ok s1) :
    after es s = s1 := by
  induction es generalizing s with
  | nil => cases h; rfl
  | cons e es ih =>
    unfold exec at h
    unfold after
    cases hnext : next e s with
    | ok s2 => rw [hnext] at h; exact ih s2 h
    | blocked => rw [hnext] at h; cases h
    | undefined => rw [hnext] at h; cases h

/-- In a reachable state the holder of `transaction_mutex` has its flag set, or is at the
unlock call of line 112 or of line 96. -/
theorem reachable_holder (s : System) (hs : Reachable s) (c : ConnId)
    (h : s.transaction_mutex = some c) :
    (s.thread c).in_transaction = 1 ∨ (s.thread c).pc = .gate_unlock ∨
      (s.thread c).pc = .end_unlock := by
  induction hs generalizing c with
  | start stack hfit => simp [started, initial] at h
  | @next s s1 e hs hnext ih =>
    have hinv := reachable_gate_inv s hs
    cases e with
    | recv d data =>
      obtain ⟨hpcd, hother, htm1, _, hcase⟩ := recv_gate d data s s1 hnext
      rw [htm1] at h
      have h0 := ih c h
      by_cases hd : c = d
      · subst hd
        have hin : (s.thread c).in_transaction = 1 := by
          rcases h0 with e | e | e
          · exact e
          · rw [hpcd] at e; cases e
          · rw [hpcd] at e; cases e
        rcases hcase with ⟨h1, _⟩ | ⟨_, _, _, h4, _⟩
        · exact Or.inl (by rw [h1, hin])
        · exact Or.inr (Or.inr h4)
      · rw [hother c hd]; exact h0
    | step d =>
      have hother := step_other d s s1 hnext
      rcases step_gate d s s1 hnext with
        ⟨_, h2, h3, _, h5⟩ | ⟨_, _, h3, h4, _⟩ | ⟨_, h2, _⟩ |
        ⟨_, _, h3, h4, h5, _, _, _, h9, _⟩
      · rw [h3] at h
        have := Option.some.inj h
        subst this
        rcases h5 with ⟨_, e1, _⟩ | ⟨e0, _, _⟩
        · exact Or.inl e1
        · rcases (hinv d).1 with e | e
          · exact absurd e e0
          · rw [h2] at e; cases e.2.1
      · rw [h3] at h
        have := Option.some.inj h
        subst this
        exact Or.inr (Or.inl h4)
      · rw [h2] at h; cases h
      · rw [h5] at h
        have h0 := ih c h
        by_cases hd : c = d
        · subst hd
          rcases h0 with e | e | e
          · exact Or.inl (by rw [h9, e])
          · exact absurd e h3
          · exact absurd e h4
        · rw [hother c hd]; exact h0

/-- Six steps are enough for every request: more fuel gives `run` the same outcome. -/
theorem run_six (c : ConnId) (k : Nat) (s : System) : run c (6 + k) s = run c 6 s :=
  run_fuel c 6 k s (remaining_le_six _)

/-! ## The gate wait and Scenario C -/

/-- While the gate is `Active a`, a thread at the gate wait of line 111 does not get past
it. -/
theorem gate_wait_blocks (s : System) (a b : ConnId) (hact : gate s = .Active a)
    (hpc : (s.thread b).pc = .gate_lock) : step b s = .blocked := by
  have htm := ((gate_active_iff s a).1 hact).1
  simp [step, hpc, htm]

/-- Scenario C: connection 1 begins a transaction; a `GET a` of connection 2 that arrives
afterwards waits at line 111; connection 1 puts `a 9` and ends the transaction; the GET of
connection 2 then goes on and is answered `GET:a:9`. -/
theorem scenario_C :
    step 2 (after [.recv 1 "BEG\n", .step 1, .recv 2 "GET a\n"] initial) = .blocked ∧
    (after [.recv 1 "BEG\n", .step 1, .recv 2 "GET a\n", .recv 1 "PUT a 9\n", .step 1, .step 1,
      .step 1, .step 1, .recv 1 "END\n", .step 1] initial).sent 1 =
      ["BEG:transaction_started\n", "PUT:a:9\n", "END:transaction_ended\n"] ∧
    step 2 (after [.recv 1 "BEG\n", .step 1, .recv 2 "GET a\n", .recv 1 "PUT a 9\n", .step 1,
      .step 1, .step 1, .step 1, .recv 1 "END\n"] initial) = .blocked ∧
    (after [.recv 1 "BEG\n", .step 1, .recv 2 "GET a\n", .recv 1 "PUT a 9\n", .step 1, .step 1,
      .step 1, .step 1, .recv 1 "END\n", .step 1, .step 2, .step 2, .step 2, .step 2]
      initial).sent 2 = ["GET:a:9\n"] :=
  ⟨rfl, rfl, rfl, rfl⟩

/-! ## Sequences of requests -/

theorem serve_reachable (reqs : List (ConnId × String)) (s s1 : System) (hs : Reachable s)
    (h : serve reqs s = .ok s1) : Reachable s1 := by
  induction reqs generalizing s with
  | nil => cases h; exact hs
  | cons r rest ih =>
    obtain ⟨c, data⟩ := r
    unfold serve at h
    cases hh : handle c data s with
    | ok s2 => rw [hh] at h; exact ih s2 (handle_reachable c data s s2 hs hh) h
    | blocked => rw [hh] at h; cases h
    | undefined => rw [hh] at h; cases h

/-! ## The registry -/

theorem take_set_succ {α : Type} (l : List α) (n : Nat) (x : α) (h : n < l.length) :
    (l.set n x).take (n + 1) = l.take n ++ [x] := by
  induction l generalizing n with
  | nil => simp at h
  | cons a l ih =>
    cases n with
    | zero => simp
    | succ n =>
      simp only [List.set_cons_succ, List.take_succ_cons, List.cons_append, List.cons.injEq,
        true_and]
      exact ih n (by simpa using h)

theorem token_SUB : IsToken 15 "SUB" := by decide

theorem handle_sub (s : System) (c : ConnId) (data cmd key value : String)
    (hpc : (s.thread c).pc = .recv) (hsub : s.subscribers_mutex = none) (hd : Receivable data)
    (hparse : sscanf (c_str data) (s.thread c).cmd (s.thread c).key (s.thread c).value = (cmd, key, value))
    (hcmd : strcasecmp cmd "SUB" = true) :
    handle c data s = .ok (respond { s with registry := subscribe s.registry c key } c
      { (s.thread c) with
        buffer := snprintf BUFFER_SIZE ("SUB:" ++ key ++ ":key_subscribed\n")
        cmd := cmd, key := key, value := value }) := by
  have h1 : strcasecmp cmd "BEG" = false := strcasecmp_excl _ _ _ hcmd (by decide)
  have h2 : strcasecmp cmd "END" = false := strcasecmp_excl _ _ _ hcmd (by decide)
  have hlen2 := receivable_not_long data hd
  have hpos2 := receivable_not_empty data hd
  simp [handle, recv, hpc, hlen2, hpos2, dispatch, hparse, h1, h2, hcmd, run, step,
    set_thread, hsub, respond, send]

theorem sub_text (K : String) (hK : K.length ≤ 127) :
    snprintf BUFFER_SIZE ("SUB:" ++ K ++ ":key_subscribed\n") =
      "SUB:" ++ K ++ ":key_subscribed\n" := by
  apply snprintf_of_lt
  have e1 : ("SUB:" : String).length = 4 := rfl
  have e2 : (":key_subscribed\n" : String).length = 16 := rfl
  simp only [String.length_append, e1, e2, BUFFER_SIZE]
  omega

/-! ## Frame lemmas of the store -/

theorem mem_entries_iff (kv : Store) (hwf : StoreWF kv) (e : KeyValuePair) :
    e ∈ entries kv ↔ ∃ j, j < kv.store_size ∧ kv.store.getD j default = e := by
  obtain ⟨hlen, hsize⟩ := hwf
  unfold entries
  rw [List.mem_iff_getElem]
  constructor
  · rintro ⟨j, hj, he⟩
    have hj2 : j < kv.store_size := by
      have := List.length_take_le kv.store_size kv.store
      simp only [List.length_take] at hj
      omega
    refine ⟨j, hj2, ?_⟩
    rw [← he, List.getElem_take]
    simp [List.getD_eq_getElem?_getD, List.getElem?_eq_getElem (show j < kv.store.length by omega)]
  · rintro ⟨j, hj, he⟩
    have hjl : j < kv.store.length := by omega
    refine ⟨j, by simp only [List.length_take]; omega, ?_⟩
    rw [← he, List.getElem_take]
    simp [List.getD_eq_getElem?_getD, List.getElem?_eq_getElem hjl]

theorem find_key_congr (st1 st : List KeyValuePair) (K : String) (n i : Nat)
    (h : ∀ j, i ≤ j → j < i + n → (st1.getD j default).key = (st.getD j default).key) :
    find_key st1 K n i = find_key st K n i := by
  induction n generalizing i with
  | zero => rfl
  | succ n ih =>
    unfold find_key
    rw [h i (le_refl _) (by omega), ih (i + 1) (fun j h1 h2 => h j (by omega) (by omega))]

theorem find_key_succ_ne (st : List KeyValuePair) (K : String) (n i : Nat)
    (h : ¬ K = (st.getD (i + n) default).key) :
    find_key st K (n + 1) i = find_key st K n i := by
  induction n generalizing i with
  | zero => simp [find_key, h] at *; exact h
  | succ n ih =>
    rw [find_key]
    conv_rhs => rw [find_key]
    split
    · rfl
    · exact ih (i + 1) (by rw [show i + 1 + n = i + (n + 1) by omega]; exact h)

theorem get_body_of_mem (kv : Store) (hwf : StoreWF kv) (hu : UniqueKeys kv)
    (e : KeyValuePair) (he : e ∈ entries kv) :
    get_body kv e.key = snprintf BUFFER_SIZE ("GET:" ++ e.key ++ ":" ++ e.value ++ "\n") := by
  obtain ⟨j, hj, hje⟩ := (mem_entries_iff kv hwf e).1 he
  obtain ⟨j0, hj0⟩ := find_key_of_present kv e.key ⟨j, hj, by rw [hje]⟩
  obtain ⟨_, h2, h3, _⟩ := (find_key_eq_some_iff _ _ _ _ _).1 hj0
  have : j0 = j := hu j0 j (by omega) hj (by rw [← h3, hje])
  subst this
  rw [get_body_of_find kv e.key j0 hj0, hje]

theorem get_body_of_absent (kv : Store) (K : String) (h : ¬ Present kv K) :
    get_body kv K = snprintf BUFFER_SIZE ("GET:" ++ K ++ ":key_nonexistent\n") := by
  cases hf : find_key kv.store K kv.store_size 0 with
  | none => simp [get_body, hf]
  | some j => exact absurd (present_of_find kv K j hf) h

theorem present_iff_mem (kv : Store) (hwf : StoreWF kv) (K : String) :
    Present kv K ↔ ∃ e, e ∈ entries kv ∧ e.key = K := by
  constructor
  · rintro ⟨j, hj, hk⟩
    exact ⟨_, (mem_entries_iff kv hwf _).2 ⟨j, hj, rfl⟩, hk⟩
  · rintro ⟨e, he, hk⟩
    obtain ⟨j, hj, hje⟩ := (mem_entries_iff kv hwf e).1 he
    exact ⟨j, hj, by rw [hje, hk]⟩

/-- Two stores with distinct keys whose entries with key `K` are the same answer GET `K`
alike. -/
theorem get_body_eq_of_entries (kv1 kv : Store) (hwf1 : StoreWF kv1) (hwf : StoreWF kv)
    (hu1 : UniqueKeys kv1) (hu : UniqueKeys kv) (K : String)
    (h : ∀ e, e.key = K → (e ∈ entries kv1 ↔ e ∈ entries kv)) :
    get_body kv1 K = get_body kv K := by
  by_cases hp : Present kv K
  · obtain ⟨e, he, hk⟩ := (present_iff_mem kv hwf K).1 hp
    have he1 := (h e hk).2 he
    rw [← hk, get_body_of_mem kv hwf hu e he, get_body_of_mem kv1 hwf1 hu1 e he1]
  · have hp1 : ¬ Present kv1 K := by
      intro hp1
      obtain ⟨e, he, hk⟩ := (present_iff_mem kv1 hwf1 K).1 hp1
      exact hp ((present_iff_mem kv hwf K).2 ⟨e, (h e hk).1 he, hk⟩)
    rw [get_body_of_absent kv K hp, get_body_of_absent kv1 K hp1]

theorem del_body_entries (kv : Store) (K : String) (hwf : StoreWF kv) (hu : UniqueKeys kv)
    (e : KeyValuePair) :
    e ∈ entries (del_body kv K).1 ↔ e ∈ entries kv ∧ ¬ e.key = K := by
  cases hf : find_key kv.store K kv.store_size 0 with
  | none =>
    have hn := (find_key_eq_none_iff _ _ _ _).1 hf
    have e1 : (del_body kv K).1 = kv := by simp [del_body, hf]
    rw [e1]
    constructor
    · intro he
      refine ⟨he, fun hk => ?_⟩
      obtain ⟨j, hj, hje⟩ := (mem_entries_iff kv hwf e).1 he
      exact hn j (Nat.zero_le _) (by omega) (by rw [hje, hk])
    · exact fun h => h.1
  | some i =>
    obtain ⟨_, hi, hki, _⟩ := (find_key_eq_some_iff _ _ _ _ _).1 hf
    have hi : i < kv.store_size := by omega
    have hwf1 := del_body_wf kv K hwf
    rw [mem_entries_iff _ hwf1, mem_entries_iff _ hwf, del_body_size kv K i hf]
    constructor
    · rintro ⟨a, ha, hae⟩
      rw [del_body_slot kv K i a hwf hf] at hae
      by_cases hai : a = i
      · simp only [hai, if_true] at hae
        refine ⟨⟨kv.store_size - 1, by omega, hae⟩, fun hk => ?_⟩
        have := hu (kv.store_size - 1) i (by omega) hi (by rw [hae, hk, hki])
        omega
      · simp only [hai, if_false] at hae
        refine ⟨⟨a, by omega, hae⟩, fun hk => ?_⟩
        exact hai (hu a i (by omega) hi (by rw [hae, hk, hki]))
    · rintro ⟨⟨j, hj, hje⟩, hk⟩
      have hji : j ≠ i := by
        intro e1; subst e1; exact hk (by rw [← hje, ← hki])
      by_cases hlast : j = kv.store_size - 1
      · refine ⟨i, by omega, ?_⟩
        rw [del_body_slot kv K i i hwf hf]
        simp only [if_true]
        rw [← hlast]; exact hje
      · refine ⟨j, by omega, ?_⟩
        rw [del_body_slot kv K i j hwf hf]
        simp only [hji, if_false]
        exact hje

theorem get_body_congr (kv1 kv : Store) (K : String)
    (hf : find_key kv1.store K kv1.store_size 0 = find_key kv.store K kv.store_size 0)
    (hv : ∀ j, find_key kv.store K kv.store_size 0 = some j →
      kv1.store.getD j default = kv.store.getD j default) :
    get_body kv1 K = get_body kv K := by
  unfold get_body
  rw [hf]
  cases h : find_key kv.store K kv.store_size 0 with
  | none => rfl
  | some j => simp only [hv j h]

/-- What `put_body` does to the array when the key is found at index `i`. -/
theorem put_body_present (kv kv1 : Store) (K V : String) (i : Nat) (hV : V.length ≤ 127)
    (hf : find_key kv.store K kv.store_size 0 = some i) (hput : put_body kv K V = some kv1) :
    kv1.store_size = kv.store_size ∧
      kv1.store = kv.store.set i { (kv.store.getD i default) with value := V } := by
  have eV : strncpy V 128 = V := strncpy_of_le V 128 (by omega)
  simp only [put_body, hf, Option.some.injEq, eV] at hput
  subst hput
  exact ⟨rfl, rfl⟩

/-- What `put_body` does to the array when the key is not found. -/
theorem put_body_absent (kv kv1 : Store) (K V : String) (hK : K.length ≤ 127)
    (hV : V.length ≤ 127) (hf : find_key kv.store K kv.store_size 0 = none)
    (hput : put_body kv K V = some kv1) :
    kv.store_size < MAX_KEY_VALUE_PAIRS ∧ kv1.store_size = kv.store_size + 1 ∧
      kv1.store = kv.store.set kv.store_size { key := K, value := V } := by
  have eK : strncpy K 128 = K := strncpy_of_le K 128 (by omega)
  have eV : strncpy V 128 = V := strncpy_of_le V 128 (by omega)
  simp only [put_body, hf, eK, eV] at hput
  split at hput
  · rename_i hcap
    simp only [Option.some.injEq] at hput
    subst hput
    exact ⟨hcap, rfl, rfl⟩
  · cases hput

theorem put_body_get_other (kv kv1 : Store) (K V K1 : String) (hwf : StoreWF kv)
    (hK : K.length ≤ 127) (hV : V.length ≤ 127) (hne : K1 ≠ K)
    (hput : put_body kv K V = some kv1) : get_body kv1 K1 = get_body kv K1 := by
  obtain ⟨hlen, hsize⟩ := hwf
  cases hf : find_key kv.store K kv.store_size 0 with
  | some i =>
    obtain ⟨hs, hst⟩ := put_body_present kv kv1 K V i hV hf hput
    obtain ⟨_, hi, hki, _⟩ := (find_key_eq_some_iff _ _ _ _ _).1 hf
    have hil : i < kv.store.length := by omega
    have hkey : ∀ j, (kv1.store.getD j default).key = (kv.store.getD j default).key := by
      intro j
      rw [hst]
      by_cases hj : i = j
      · subst hj; rw [getD_set_eq _ _ _ hil]
      · rw [getD_set_ne _ _ _ _ hj]
    apply get_body_congr
    · rw [hs]; exact find_key_congr _ _ _ _ _ (fun j _ _ => hkey j)
    · intro j hj
      obtain ⟨_, _, hkj, _⟩ := (find_key_eq_some_iff _ _ _ _ _).1 hj
      have hij : i ≠ j := by
        intro e; subst e; exact hne (by rw [hkj, ← hki])
      rw [hst, getD_set_ne _ _ _ _ hij]
  | none =>
    obtain ⟨hcap, hs, hst⟩ := put_body_absent kv kv1 K V hK hV hf hput
    have hil : kv.store_size < kv.store.length := by omega
    have hold : ∀ j, j < kv.store_size →
        kv1.store.getD j default = kv.store.getD j default := by
      intro j hj
      rw [hst, getD_set_ne _ _ _ _ (by omega)]
    have hnew : kv1.store.getD kv.store_size default = { key := K, value := V } := by
      rw [hst, getD_set_eq _ _ _ hil]
    apply get_body_congr
    · rw [hs, find_key_succ_ne _ _ _ _ (by rw [Nat.zero_add, hnew]; exact hne)]
      exact find_key_congr _ _ _ _ _ (fun j _ hj => by rw [hold j (by omega)])
    · intro j hj
      obtain ⟨_, hjs, _, _⟩ := (find_key_eq_some_iff _ _ _ _ _).1 hj
      exact hold j (by omega)

theorem gate_congr (s1 s : System) (htm : s1.transaction_mutex = s.transaction_mutex)
    (hflags : ∀ d, (s1.thread d).in_transaction = (s.thread d).in_transaction) :
    gate s1 = gate s := by
  unfold gate
  rw [htm]
  cases s.transaction_mutex with
  | none => rfl
  | some d => simp only [hflags d]

theorem respond_flag (s : System) (c d : ConnId) (l : Local)
    (hl : l.in_transaction = (s.thread c).in_transaction) :
    ((respond s c l).thread d).in_transaction = (s.thread d).in_transaction := by
  by_cases hd : d = c
  · subst hd; simp [respond, send, set_thread, hl]
  · simp [respond, send, set_thread, Function.update, hd]

theorem respond_sent_other (s : System) (c d : ConnId) (l : Local) (hd : d ≠ c) :
    (respond s c l).sent d = s.sent d := by
  simp [respond, send, set_thread, Function.update, hd]

theorem del_text (K : String) (hK : K.length ≤ 127) :
    snprintf BUFFER_SIZE ("DEL:" ++ K ++ ":key_deleted\n") = "DEL:" ++ K ++ ":key_deleted\n" ∧
    snprintf BUFFER_SIZE ("DEL:" ++ K ++ ":key_nonexistent\n") =
      "DEL:" ++ K ++ ":key_nonexistent\n" := by
  have e1 : ("DEL:" : String).length = 4 := rfl
  have e2 : (":key_deleted\n" : String).length = 13 := rfl
  have e3 : (":key_nonexistent\n" : String).length = 17 := rfl
  constructor <;> apply snprintf_of_lt <;>
    simp only [String.length_append, e1, e2, e3, BUFFER_SIZE] <;> omega

/-- When two states leave the same buffer for GET `K1`, the request line `GET K1` of a
connection ready in both is answered with the same message in both. -/
theorem get_same_response (s s1 : System) (d : ConnId) (K1 : String) (hr : Ready s d)
    (hr1 : Ready s1 d) (hK1 : IsToken 127 K1) (hget : get_body s1.kv K1 = get_body s.kv K1) :
    ∃ t t1 m, handle d (line2 "GET" K1) s = .ok t ∧ handle d (line2 "GET" K1) s1 = .ok t1 ∧
      t.sent d = s.sent d ++ [m] ∧ t1.sent d = s1.sent d ++ [m] := by
  have h := handle_get s d (line2 "GET" K1) "GET" K1 (s.thread d).value hr
    (receivable_line2 _ _ token_GET hK1) (sscanf_line2 _ _ _ _ _ token_GET hK1) (by decide)
  have h1 := handle_get s1 d (line2 "GET" K1) "GET" K1 (s1.thread d).value hr1
    (receivable_line2 _ _ token_GET hK1) (sscanf_line2 _ _ _ _ _ token_GET hK1) (by decide)
  refine ⟨_, _, get_body s.kv K1, h, h1, respond_sent_self _ _ _, ?_⟩
  rw [respond_sent_self]
  simp only [hget]

/-! ## The spelling of the command -/

theorem strcasecmp_congr (a b x : String) (h : strcasecmp a b = true) :
    strcasecmp a x = strcasecmp b x := by
  simp only [strcasecmp, beq_iff_eq] at h
  simp only [strcasecmp, h]

theorem step_cmd (c : ConnId) (s s1 : System) (h : step c s = .ok s1) :
    (s1.thread c).cmd = (s.thread c).cmd := by
  unfold step at h
  cases hpc : (s.thread c).pc <;>
    simp only [hpc, store_step, respond, send, set_thread, publish, publish_loop_eq] at h <;>
    (repeat' split at h) <;> simp at h <;> subst h <;> simp

theorem step_store_command (c : ConnId) (s s1 : System) (h : step c s = .ok s1)
    (hs : StoreCommand (s.thread c)) : StoreCommand (s1.thread c) := by
  unfold StoreCommand at hs ⊢
  unfold step at h
  cases hpc : (s.thread c).pc <;> rw [hpc] at hs <;>
    simp only [hpc, store_step, respond, send, set_thread, publish, publish_loop_eq] at h <;>
    (repeat' split at h) <;> simp at h hs <;> subst h <;> simp <;> exact hs

/-- One step of thread `c` does not look at the spelling of its command, nor at its buffer
while the buffer is not settled: with another spelling and another buffer the step has the
same outcome, up to that spelling and buffer. -/
theorem step_recased (c : ConnId) (s : System) (cmd1 buf1 : String)
    (hcase : strcasecmp cmd1 (s.thread c).cmd = true)
    (hbuf : Settled (s.thread c).pc → buf1 = (s.thread c).buffer)
    (hsc : StoreCommand (s.thread c)) :
    step c (recased s c cmd1 buf1) =
      Outcome.map (fun s1 => recased s1 c cmd1
        (if Settled (s1.thread c).pc then (s1.thread c).buffer else buf1)) (step c s) := by
  have hget := strcasecmp_congr cmd1 (s.thread c).cmd "GET" hcase
  have hput := strcasecmp_congr cmd1 (s.thread c).cmd "PUT" hcase
  have hdel := strcasecmp_congr cmd1 (s.thread c).cmd "DEL" hcase
  have hquit := strcasecmp_congr cmd1 (s.thread c).cmd "QUIT" hcase
  unfold StoreCommand at hsc
  unfold Settled at hbuf
  cases hpc : (s.thread c).pc <;> rw [hpc] at hbuf hsc <;> simp at hbuf hsc
  all_goals
    simp only [step, recased, set_thread, Function.update_same, hpc, store_step, hget, hput,
      hdel, hquit]
  all_goals (repeat' split) <;>
    simp_all [Outcome.map, recased, set_thread, respond, send, Settled, publish,
      publish_loop_eq]

theorem run_recased (c : ConnId) (n : Nat) (s : System) (cmd1 buf1 : String)
    (hcase : strcasecmp cmd1 (s.thread c).cmd = true)
    (hbuf : Settled (s.thread c).pc → buf1 = (s.thread c).buffer)
    (hsc : StoreCommand (s.thread c)) :
    Respelled c (run c n s) (run c n (recased s c cmd1 buf1)) := by
  have hpc : ((recased s c cmd1 buf1).thread c).pc = (s.thread c).pc := by
    simp [recased, set_thread]
  induction n generalizing s buf1 with
  | zero =>
    unfold run
    rw [hpc]
    split
    · exact ⟨cmd1, buf1, rfl⟩
    · trivial
  | succ n ih =>
    unfold run
    rw [hpc]
    split
    · exact ⟨cmd1, buf1, rfl⟩
    · rw [step_recased c s cmd1 buf1 hcase hbuf hsc]
      cases hstep : step c s with
      | ok s1 =>
        simp only [Outcome.map]
        exact ih s1 _ (by rw [step_cmd c s s1 hstep]; exact hcase)
          (fun h => by rw [if_pos h])
          (step_store_command c s s1 hstep hsc) (by simp [recased, set_thread])
      | blocked => trivial
      | undefined => trivial

theorem same_of_respelled (c : ConnId) (o1 o2 : Outcome) (h : Respelled c o1 o2) :
    SameOutcome o1 o2 := by
  cases o1 <;> cases o2 <;> simp only [Respelled] at h <;> try trivial
  rename_i s1 t1
  obtain ⟨cmd, b, rfl⟩ := h
  have hth : ∀ d, ((recased s1 c cmd b).thread d).pc = (s1.thread d).pc ∧
      ((recased s1 c cmd b).thread d).in_transaction = (s1.thread d).in_transaction := by
    intro d
    by_cases hd : d = c
    · subst hd; simp [recased, set_thread]
    · simp [recased, set_thread, Function.update, hd]
  exact ⟨rfl, rfl, rfl, rfl, rfl, rfl, rfl, fun d => ⟨(hth d).1.symm, (hth d).2.symm⟩,
    (gate_congr (recased s1 c cmd b) s1 rfl (fun d => (hth d).2)).symm⟩

/-- The dispatcher does not look at the spelling of a recognised command: two requests
that differ in the spelling of the command only are dispatched alike, up to the contents of
`cmd` and `buffer`. -/
theorem dispatch_recased (c : ConnId) (s : System) (l : Local)
    (data1 data2 cmd1 cmd2 key value : String)
    (hp1 : sscanf data1 l.cmd l.key l.value = (cmd1, key, value))
    (hp2 : sscanf data2 l.cmd l.key l.value = (cmd2, key, value))
    (hcase : strcasecmp cmd2 cmd1 = true) (hrec : Recognized cmd1) :
    dispatch c s { l with buffer := data2 } =
        recased (dispatch c s { l with buffer := data1 }) c cmd2
          (if Settled ((dispatch c s { l with buffer := data1 }).thread c).pc then
            ((dispatch c s { l with buffer := data1 }).thread c).buffer
          else data2) ∧
      ((dispatch c s { l with buffer := data1 }).thread c).cmd = cmd1 ∧
      StoreCommand ((dispatch c s { l with buffer := data1 }).thread c) := by
  have hbeg := strcasecmp_congr cmd2 cmd1 "BEG" hcase
  have hend := strcasecmp_congr cmd2 cmd1 "END" hcase
  have hsub := strcasecmp_congr cmd2 cmd1 "SUB" hcase
  unfold Recognized at hrec
  unfold StoreCommand
  simp only [dispatch, hp1, hp2, hbeg, hend, hsub]
  split
  · simp [recased, set_thread, Settled]
  · split
    · split
      · simp [recased, set_thread, Settled]
      · simp [recased, set_thread, Settled, respond, send]
    · split
      · simp [recased, set_thread, Settled]
      · split
        · simp [recased, set_thread, Settled, respond, send]
        · split
          · simp_all [recased, set_thread, Settled]
          · simp_all [recased, set_thread, Settled]

theorem not_recognized (cmd : String) (h : ¬ Recognized cmd) :
    strcasecmp cmd "BEG" = false ∧ strcasecmp cmd "END" = false ∧
    strcasecmp cmd "SUB" = false ∧ strcasecmp cmd "GET" = false ∧
    strcasecmp cmd "PUT" = false ∧ strcasecmp cmd "DEL" = false ∧
    strcasecmp cmd "QUIT" = false := by
  unfold Recognized at h
  simp only [not_or, Bool.not_eq_true] at h
  exact h

theorem handle_unknown (s : System) (c : ConnId) (data cmd key value : String)
    (hr : Ready s c) (hd : Receivable data)
    (hparse : sscanf (c_str data) (s.thread c).cmd (s.thread c).key (s.thread c).value = (cmd, key, value))
    (hcmd : ¬ Recognized cmd) :
    handle c data s = .ok (respond s c
      { (s.thread c) with buffer := c_str data, cmd := cmd, key := key, value := value }) := by
  obtain ⟨h1, h2, h3, h4, h5, h6, h7⟩ := not_recognized cmd hcmd
  obtain ⟨hpc, hsm, hsub, hg⟩ := hr
  have hlen2 := receivable_not_long data hd
  have hpos2 := receivable_not_empty data hd
  rcases hg with ⟨hin, htm⟩ | ⟨hin, hown⟩
  · simp [handle, recv, hpc, hlen2, hpos2, dispatch, hparse, h1, h2, h3, h4, h5, h6, h7, hin, run,
      step, set_thread, htm, store_step, hsm, respond, send]
  · simp [handle, recv, hpc, hlen2, hpos2, dispatch, hparse, h1, h2, h3, h4, h5, h6, h7, hin, hown,
      run, step, set_thread, store_step, hsm, respond, send]

theorem handle_respelled (s : System) (c : ConnId) (data1 data2 cmd1 cmd2 key value : String)
    (hd1 : Receivable data1) (hd2 : Receivable data2)
    (hp1 : sscanf (c_str data1) (s.thread c).cmd (s.thread c).key (s.thread c).value
      = (cmd1, key, value))
    (hp2 : sscanf (c_str data2) (s.thread c).cmd (s.thread c).key (s.thread c).value
      = (cmd2, key, value))
    (hcase : strcasecmp cmd2 cmd1 = true) (hrec : Recognized cmd1) :
    Respelled c (handle c data1 s) (handle c data2 s) := by
  by_cases hpc : (s.thread c).pc = .recv
  · have r1 : recv c data1 s = .ok (dispatch c s { (s.thread c) with buffer := c_str data1 }) := by
      simp [recv, hpc, receivable_not_long data1 hd1, receivable_not_empty data1 hd1]
    have r2 : recv c data2 s = .ok (dispatch c s { (s.thread c) with buffer := c_str data2 }) := by
      simp [recv, hpc, receivable_not_long data2 hd2, receivable_not_empty data2 hd2]
    obtain ⟨e, hcmd, hsc⟩ := dispatch_recased c s (s.thread c) (c_str data1) (c_str data2)
      cmd1 cmd2 key value hp1 hp2 hcase hrec
    simp only [handle, r1, r2]
    rw [e]
    exact run_recased c 6 _ cmd2 _ (by rw [hcmd]; exact hcase) (fun h => if_pos h) hsc
  · have r1 : recv c data1 s = .blocked := by simp [recv, hpc]
    have r2 : recv c data2 s = .blocked := by simp [recv, hpc]
    simp only [handle, r1, r2]
    trivial

/-! ## Filling the store -/

theorem serve_append (a b : List (ConnId × String)) (s : System) :
    serve (a ++ b) s =
      match serve a s with
      | .ok s1 => serve b s1
      | o => o := by
  induction a generalizing s with
  | nil => simp [serve]
  | cons r rest ih =>
    obtain ⟨c, data⟩ := r
    simp only [List.cons_append, serve]
    cases handle c data s with
    | ok s1 => exact ih s1
    | blocked => rfl
    | undefined => rfl

theorem fill_key_token (i : Nat) (h : i < 100) : IsToken 127 (fill_key i) := by
  refine ⟨?_, ?_, ?_, ?_⟩
  · simp [fill_key, String.length]
  · simp only [fill_key, String.length, List.length_replicate]; omega
  · intro ch hch
    simp only [fill_key] at hch
    rw [List.eq_of_mem_replicate hch]
    decide
  · intro ch hch
    simp only [fill_key] at hch
    rw [List.eq_of_mem_replicate hch]
    decide

theorem fill_key_length (i : Nat) : (fill_key i).length = i + 1 := by
  simp [fill_key, String.length]

theorem fill_key_ne (i j : Nat) (h : i ≠ j) : fill_key i ≠ fill_key j := by
  intro e
  have := congrArg String.length e
  rw [fill_key_length, fill_key_length] at this
  omega

theorem fill_key_ne_a (i : Nat) : ¬ fill_key i = "a" := by
  intro e
  have := congrArg String.data e
  simp [fill_key, List.replicate_succ] at this

theorem token_v : IsToken 127 "v" := by decide

/-- The first `n` requests of `fill_requests`, for `n` up to 100, are all answered and
fill the first `n` slots of the store with the keys of `fill_key`. -/
theorem fill_prefix (n : Nat) (hn : n ≤ 100) :
    ∃ s, serve (fill_requests n) initial = .ok s ∧ Ready s 1 ∧ StoreWF s.kv ∧
      s.kv.store_size = n ∧ ∀ j, j < n → (s.kv.store.getD j default).key = fill_key j := by
  induction n with
  | zero =>
    exact ⟨initial, rfl, ⟨rfl, rfl, rfl, Or.inl ⟨rfl, rfl⟩⟩, ⟨rfl, by decide⟩, rfl,
      fun j hj => absurd hj (Nat.not_lt_zero j)⟩
  | succ n ih =>
    obtain ⟨s, hserve, hr, hwf, hsize, hkeys⟩ := ih (by omega)
    have hK := fill_key_token n (by omega)
    have hf : find_key s.kv.store (fill_key n) s.kv.store_size 0 = none := by
      rw [find_key_eq_none_iff]
      intro k _ hk e
      rw [hkeys k (by omega)] at e
      exact fill_key_ne n k (by omega) e
    obtain ⟨kv1, hput⟩ := put_body_some s.kv (fill_key n) "v" (Or.inr (by
      show s.kv.store_size < 100
      omega))
    obtain ⟨_, hs1, hst⟩ := put_body_absent s.kv kv1 (fill_key n) "v" hK.2.1 (by decide) hf hput
    have h1 := handle_put s 1 (line3 "PUT" (fill_key n) "v") "PUT" (fill_key n) "v" kv1 hr
      (receivable_line3 _ _ _ token_PUT hK token_v)
      (sscanf_line3 _ _ _ _ _ _ token_PUT hK token_v) (by decide) hput
    have hr1 := ready_respond s 1 1
      { (s.thread 1) with
        buffer := snprintf BUFFER_SIZE ("PUT:" ++ fill_key n ++ ":" ++ "v" ++ "\n")
        cmd := "PUT", key := fill_key n, value := "v" } kv1
      (publish_sent s.registry (fill_key n)
        (snprintf BUFFER_SIZE ("PUB:" ++ fill_key n ++ ":" ++ "v" ++ "\n"))
        s.registry.num_subscribers 0 s.sent) hr rfl
    refine ⟨_, ?_, hr1, put_body_wf s.kv kv1 _ _ hwf hput, ?_, ?_⟩
    · simp only [fill_requests, List.range_succ, List.map_append, List.map_cons, List.map_nil]
      rw [serve_append]
      have hserve2 : serve (List.map (fun i => (1, line3 "PUT" (fill_key i) "v"))
          (List.range n)) initial = .ok s := hserve
      rw [hserve2]
      simp only [serve, h1]
    · show kv1.store_size = n + 1
      rw [hs1, hsize]
    · intro j hj
      show (kv1.store.getD j default).key = fill_key j
      rw [hst]
      have hil : s.kv.store_size < s.kv.store.length := by
        have := hwf.1
        simp only [MAX_KEY_VALUE_PAIRS] at this
        omega
      by_cases hjn : j = n
      · subst hjn
        rw [← hsize, getD_set_eq _ _ _ hil]
      · rw [getD_set_ne _ _ _ _ (by omega)]
        exact hkeys j (by omega)

/-- A PUT of a key that is not in a full store writes outside the array. -/
theorem put_body_full (kv : Store) (K V : String)
    (hfull : kv.store_size = MAX_KEY_VALUE_PAIRS) (habs : ¬ Present kv K) :
    put_body kv K V = none := by
  have hf : find_key kv.store K kv.store_size 0 = none := by
    cases hf : find_key kv.store K kv.store_size 0 with
    | none => rfl
    | some j => exact absurd (present_of_find kv K j hf) habs
  unfold put_body
  rw [hf]
  simp [hfull]

/-! ## The answer to an unrecognised command -/

/-- What an unrecognised request of a ready connection leaves behind: the C string of the
received bytes sent back on the socket of the connection and nothing else changed. -/
theorem handle_unknown_effect (s : System) (c : ConnId) (data cmd key value : String)
    (hr : Ready s c) (hd : Receivable data)
    (hparse : sscanf (c_str data) (s.thread c).cmd (s.thread c).key (s.thread c).value = (cmd, key, value))
    (hcmd : ¬ Recognized cmd) :
    ∃ s1, handle c data s = .ok s1 ∧ s1.sent c = s.sent c ++ [c_str data] ∧
      (∀ d, d ≠ c → s1.sent d = s.sent d) ∧ s1.kv = s.kv ∧ s1.registry = s.registry ∧
      gate s1 = gate s ∧ s1.transaction_mutex = s.transaction_mutex ∧
      s1.transaction_owner = s.transaction_owner ∧ Ready s1 c := by
  refine ⟨_, handle_unknown s c data cmd key value hr hd hparse hcmd, ?_, ?_, rfl, rfl, ?_, rfl,
    rfl, ?_⟩
  · rw [respond_sent_self]
  · intro d hd
    exact respond_sent_other s c d _ hd
  · exact gate_congr _ s rfl (fun d => respond_flag s c d _ rfl)
  · exact ready_respond s c c _ s.kv _ hr rfl

theorem recognized_congr (cmd1 cmd2 : String) (h : strcasecmp cmd2 cmd1 = true) :
    Recognized cmd2 ↔ Recognized cmd1 := by
  unfold Recognized
  simp only [strcasecmp_congr cmd2 cmd1 _ h]

/-! ## Messages sent while a request is received -/

/-- While it receives a request (lines 78-107) a thread whose guard of line 104 is false
sends nothing, or the answer of line 98. -/
theorem dispatch_sent (c : ConnId) (s : System) (l : Local)
    (hg : ¬ (l.in_transaction = 1 ∧ ¬ s.transaction_owner = some c)) :
    (dispatch c s l).sent = s.sent ∨
      (dispatch c s l).sent
        = Function.update s.sent c (s.sent c ++ ["END:no_transaction_to_end\n"]) := by
  unfold dispatch
  simp only
  (repeat' split) <;> first | exact Or.inl rfl | exact Or.inr rfl

theorem recv_sent (c : ConnId) (data : String) (s s1 : System)
    (hg : ¬ ((s.thread c).in_transaction = 1 ∧ ¬ s.transaction_owner = some c))
    (h : recv c data s = .ok s1) :
    s1.sent = s.sent ∨
      s1.sent = Function.update s.sent c (s.sent c ++ ["END:no_transaction_to_end\n"]) := by
  unfold recv at h
  simp only at h
  split at h
  · cases h
  · split at h
    · cases h
    · split at h
      · cases h; exact Or.inl rfl
      · cases h
        exact dispatch_sent c s _ hg

theorem guard_false (s : System) (hs : Reachable s) (c : ConnId) :
    ¬ ((s.thread c).in_transaction = 1 ∧ ¬ s.transaction_owner = some c) := by
  rintro ⟨h1, h2⟩
  exact h2 (flag_of_reachable s hs c h1).2

/-! ## The claims -/

/-- C1 (last write wins): in a state whose store array is well formed and either holds `K`
or has fewer than 100 live slots, for tokens `K`, `V1`, `V2` of 1 to 127 characters, the
request lines `PUT K V1`, `PUT K V2` and `GET K`, handled one after the other by connections
that are ready, are all answered, and the answer to the GET is the line `GET:K:V2`. -/
theorem last_write_wins (s : System) (a b c : ConnId) (K V1 V2 : String)
    (hwf : StoreWF s.kv) (ha : Ready s a) (hb : Ready s b) (hc : Ready s c)
    (hcap : Present s.kv K ∨ s.kv.store_size < MAX_KEY_VALUE_PAIRS)
    (hK : IsToken 127 K) (hV1 : IsToken 127 V1) (hV2 : IsToken 127 V2) :
    ∃ s1 s2 s3, handle a (line3 "PUT" K V1) s = .ok s1 ∧
      handle b (line3 "PUT" K V2) s1 = .ok s2 ∧
      handle c (line2 "GET" K) s2 = .ok s3 ∧
      s3.sent c = s2.sent c ++ ["GET:" ++ K ++ ":" ++ V2 ++ "\n"] := by
  -- first PUT
  obtain ⟨kv1, hput1⟩ := put_body_some s.kv K V1 hcap
  obtain ⟨hwf1, j1, hj1, _⟩ := put_body_find s.kv kv1 K V1 hwf hK.2.1 hV1.2.1 hput1
  have h1 := handle_put s a (line3 "PUT" K V1) "PUT" K V1 kv1 ha
    (receivable_line3 _ _ _ token_PUT hK hV1) (sscanf_line3 _ _ _ _ _ _ token_PUT hK hV1)
    (by decide) hput1
  have hb1 := ready_respond s a b
    { (s.thread a) with
      buffer := snprintf BUFFER_SIZE ("PUT:" ++ K ++ ":" ++ V1 ++ "\n")
      cmd := "PUT", key := K, value := V1 } kv1
    (publish_sent s.registry K (snprintf BUFFER_SIZE ("PUB:" ++ K ++ ":" ++ V1 ++ "\n"))
      s.registry.num_subscribers 0 s.sent) hb rfl
  have hc1 := ready_respond s a c
    { (s.thread a) with
      buffer := snprintf BUFFER_SIZE ("PUT:" ++ K ++ ":" ++ V1 ++ "\n")
      cmd := "PUT", key := K, value := V1 } kv1
    (publish_sent s.registry K (snprintf BUFFER_SIZE ("PUB:" ++ K ++ ":" ++ V1 ++ "\n"))
      s.registry.num_subscribers 0 s.sent) hc rfl
  generalize hs1 : respond _ a _ = s1 at h1 hb1 hc1
  have hkv1 : s1.kv = kv1 := by rw [← hs1]; rfl
  -- second PUT
  obtain ⟨kv2, hput2⟩ := put_body_some kv1 K V2 (Or.inl (present_of_find kv1 K j1 hj1))
  obtain ⟨hwf2, j2, hj2, hval2⟩ := put_body_find kv1 kv2 K V2 hwf1 hK.2.1 hV2.2.1 hput2
  rw [← hkv1] at hput2
  have h2 := handle_put s1 b (line3 "PUT" K V2) "PUT" K V2 kv2 hb1
    (receivable_line3 _ _ _ token_PUT hK hV2) (sscanf_line3 _ _ _ _ _ _ token_PUT hK hV2)
    (by decide) hput2
  have hc2 := ready_respond s1 b c
    { (s1.thread b) with
      buffer := snprintf BUFFER_SIZE ("PUT:" ++ K ++ ":" ++ V2 ++ "\n")
      cmd := "PUT", key := K, value := V2 } kv2
    (publish_sent s1.registry K (snprintf BUFFER_SIZE ("PUB:" ++ K ++ ":" ++ V2 ++ "\n"))
      s1.registry.num_subscribers 0 s1.sent) hc1 rfl
  generalize hs2 : respond _ b _ = s2 at h2 hc2
  have hkv2 : s2.kv = kv2 := by rw [← hs2]; rfl
  -- GET
  have h3 := handle_get s2 c (line2 "GET" K) "GET" K (s2.thread c).value hc2
    (receivable_line2 _ _ token_GET hK) (sscanf_line2 _ _ _ _ _ token_GET hK) (by decide)
  refine ⟨s1, s2, _, h1, h2, h3, ?_⟩
  rw [respond_sent_self, hkv2]
  simp only [get_body_of_find kv2 K j2 hj2, hval2, get_text K V2 hK.2.1 hV2.2.1]

theorem last_write_wins_witness :
    ∃ s1 s2 s3, handle 1 (line3 "PUT" "k" "v1") initial = .ok s1 ∧
      handle 2 (line3 "PUT" "k" "v2") s1 = .ok s2 ∧
      handle 3 (line2 "GET" "k") s2 = .ok s3 ∧
      s3.sent 3 = s2.sent 3 ++ ["GET:" ++ "k" ++ ":" ++ "v2" ++ "\n"] :=
  last_write_wins initial 1 2 3 "k" "v1" "v2" (by simp [StoreWF, initial])
    (by simp [Ready, initial]) (by simp [Ready, initial]) (by simp [Ready, initial])
    (Or.inr (by simp [initial])) (by decide) (by decide) (by decide)

/-- C2 (GET after DEL): in every reachable state, for every token `K` of 1 to 127
characters, the request line `DEL K` handled by a ready connection and then the line `GET K`
handled by a ready connection are both answered, and the answer to the GET is the line
`GET:K:key_nonexistent`.  Scenario A: on the initial state the lines `PUT a 1`, `GET a`,
`DEL a`, `GET a` of one connection are answered `PUT:a:1`, `GET:a:1`, `DEL:a:key_deleted`,
`GET:a:key_nonexistent`. -/
theorem get_after_del :
    (∀ (s : System) (c d : ConnId) (K : String), Reachable s → Ready s c → Ready s d →
      IsToken 127 K →
      ∃ s1 s2, handle c (line2 "DEL" K) s = .ok s1 ∧ handle d (line2 "GET" K) s1 = .ok s2 ∧
        s2.sent d = s1.sent d ++ ["GET:" ++ K ++ ":key_nonexistent\n"]) ∧
    (∃ s1 s2 s3 s4,
      handle 1 "PUT a 1\n" initial = .ok s1 ∧ s1.sent 1 = ["PUT:a:1\n"] ∧
      handle 1 "GET a\n" s1 = .ok s2 ∧ s2.sent 1 = ["PUT:a:1\n", "GET:a:1\n"] ∧
      handle 1 "DEL a\n" s2 = .ok s3 ∧
      s3.sent 1 = ["PUT:a:1\n", "GET:a:1\n", "DEL:a:key_deleted\n"] ∧
      handle 1 "GET a\n" s3 = .ok s4 ∧
      s4.sent 1 =
        ["PUT:a:1\n", "GET:a:1\n", "DEL:a:key_deleted\n", "GET:a:key_nonexistent\n"]) := by
  refine ⟨?_, ⟨_, _, _, _, rfl, rfl, rfl, rfl, rfl, rfl, rfl, rfl⟩⟩
  intro s c d K hs hc hd hK
  obtain ⟨hwf, hu, _⟩ := reachable_store_inv s hs
  have h1 := handle_del s c (line2 "DEL" K) "DEL" K (s.thread c).value hc
    (receivable_line2 _ _ token_DEL hK) (sscanf_line2 _ _ _ _ _ token_DEL hK) (by decide)
  have hd1 := ready_respond s c d
    { (s.thread c) with
      buffer := (del_body s.kv K).2, cmd := "DEL", key := K, value := (s.thread c).value }
    (del_body s.kv K).1 s.sent hd rfl
  generalize hs1 : respond _ c _ = s1 at h1 hd1
  have hkv1 : s1.kv = (del_body s.kv K).1 := by rw [← hs1]; rfl
  have h2 := handle_get s1 d (line2 "GET" K) "GET" K (s1.thread d).value hd1
    (receivable_line2 _ _ token_GET hK) (sscanf_line2 _ _ _ _ _ token_GET hK) (by decide)
  refine ⟨s1, _, h1, h2, ?_⟩
  rw [respond_sent_self, hkv1]
  simp only [get_body, del_body_absent s.kv K hwf hu, get_absent_text K hK.2.1]

theorem get_after_del_witness :
    Present mixed_state.kv "b" ∧
    ∃ s1 s2, handle 1 (line2 "DEL" "b") mixed_state = .ok s1 ∧
      handle 2 (line2 "GET" "b") s1 = .ok s2 ∧
      s2.sent 2 = s1.sent 2 ++ ["GET:" ++ "b" ++ ":key_nonexistent\n"] :=
  ⟨⟨0, by decide, rfl⟩,
    get_after_del.1 mixed_state 1 2 "b"
      (serve_reachable mixed_requests initial _ Reachable.init rfl)
      ⟨rfl, rfl, rfl, Or.inl ⟨rfl, rfl⟩⟩ ⟨rfl, rfl, rfl, Or.inl ⟨rfl, rfl⟩⟩ (by decide)⟩

/-- C3 (fan-out fidelity).  For every state whose registry array is well formed and all `K`,
`V` of at most 127 characters, `publish (K, V)` changes nothing but the messages sent, and
sends on every descriptor `d` exactly as many copies of the line `PUB:K:V` as there are
records with descriptor `d` and key `K`: one per record for `K`, none for a record with
another key, two for a record that is there twice.  The request line `PUT K V` of a ready
connection `c`, for tokens `K`, `V` and a store that holds `K` or has a free slot, sends
exactly these messages and then the answer `PUT:K:V` to `c`. -/
theorem fan_out_fidelity (s : System) (K V : String) (hwf : RegistryWF s.registry)
    (hK : K.length ≤ 127) (hV : V.length ≤ 127) :
    publish s K V =
        { s with
          sent := fun d =>
            s.sent d ++ List.replicate (record_count s.registry d K)
              ("PUB:" ++ K ++ ":" ++ V ++ "\n") } ∧
      ∀ c, Ready s c → IsToken 127 K → IsToken 127 V →
        Present s.kv K ∨ s.kv.store_size < MAX_KEY_VALUE_PAIRS →
        ∃ s1, handle c (line3 "PUT" K V) s = .ok s1 ∧
          ∀ d, s1.sent d =
            s.sent d ++ List.replicate (record_count s.registry d K)
              ("PUB:" ++ K ++ ":" ++ V ++ "\n") ++
              (if d = c then ["PUT:" ++ K ++ ":" ++ V ++ "\n"] else []) := by
  have epub := reply_text "PUB:" K V (by decide) hK hV
  have eput := reply_text "PUT:" K V (by decide) hK hV
  constructor
  · simp only [publish, publish_loop_eq, epub]
    congr 1
    funext d
    exact publish_sent_all _ _ _ _ hwf d
  · intro c hc tK tV hcap
    obtain ⟨kv1, hput⟩ := put_body_some s.kv K V hcap
    have h1 := handle_put s c (line3 "PUT" K V) "PUT" K V kv1 hc
      (receivable_line3 _ _ _ token_PUT tK tV) (sscanf_line3 _ _ _ _ _ _ token_PUT tK tV)
      (by decide) hput
    refine ⟨_, h1, fun d => ?_⟩
    by_cases hd : d = c
    · subst hd
      simp [respond, send, set_thread, epub, eput, publish_sent_all _ _ _ _ hwf]
    · simp [respond, send, set_thread, epub, Function.update, hd,
        publish_sent_all _ _ _ _ hwf]

theorem fan_out_fidelity_witness :
    ∃ s1, handle 1 (line3 "PUT" "a" "42") subscribed_2 = .ok s1 ∧
      ∀ d, s1.sent d =
        subscribed_2.sent d ++ List.replicate (record_count subscribed_2.registry d "a")
          ("PUB:" ++ "a" ++ ":" ++ "42" ++ "\n") ++
          (if d = 1 then ["PUT:" ++ "a" ++ ":" ++ "42" ++ "\n"] else []) :=
  (fan_out_fidelity subscribed_2 "a" "42" ⟨rfl, by decide⟩ (by decide) (by decide)).2 1
    ⟨rfl, rfl, rfl, Or.inl ⟨rfl, rfl⟩⟩ (by decide) (by decide) (Or.inr (by decide))

/-- C4 (transaction exclusivity) fails on the code.  Connection 2 receives `PUT a 1` and
passes the gate wait (lines 111 and 112) while the gate is idle; connection 1 then receives
`BEG` and takes the gate.  In the state reached the gate is `Active 1`, and connection 2,
which is not the owner, takes `store_mutex` at line 115 and writes the store; its request
is answered `PUT:a:1` while the gate is still `Active 1`. -/
theorem transaction_exclusivity_race :
    exec race_events initial = .ok (after race_events initial) ∧
    Reachable (after race_events initial) ∧
    gate (after race_events initial) = .Active 1 ∧
    ((after race_events initial).thread 2).pc = .store_lock ∧
    (after race_events initial).kv.store_size = 0 ∧
    (∃ s1, step 2 (after race_events initial) = .ok s1 ∧ gate s1 = .Active 1 ∧
      s1.kv.store_size = 1 ∧ s1.kv.store.getD 0 default = { key := "a", value := "1" }) ∧
    gate (after (race_events ++ [.step 2, .step 2, .step 2, .step 2]) initial) = .Active 1 ∧
    (after (race_events ++ [.step 2, .step 2, .step 2, .step 2]) initial).sent 2 =
      ["PUT:a:1\n"] :=
  ⟨rfl, after_reachable _ _ Reachable.init, rfl, rfl, rfl, ⟨_, rfl, rfl, rfl, rfl⟩, rfl, rfl⟩

/-- C5 (gate exclusivity): in every reachable state at most one connection has its
`in_transaction` flag set to 1; a connection whose flag is 1 is the one recorded in
`transaction_owner` and the holder of `transaction_mutex`; and the gate is `Active c`
exactly when the flag of `c` is 1. -/
theorem gate_exclusivity (s : System) (hs : Reachable s) :
    (∀ c d, (s.thread c).in_transaction = 1 → (s.thread d).in_transaction = 1 → c = d) ∧
    (∀ c, (s.thread c).in_transaction = 1 →
      s.transaction_owner = some c ∧ s.transaction_mutex = some c) ∧
    (∀ c, gate s = .Active c ↔ (s.thread c).in_transaction = 1) := by
  refine ⟨fun c d hc hd => ?_, fun c hc => ?_, fun c => ?_⟩
  · have h1 := (flag_of_reachable s hs c hc).1
    have h2 := (flag_of_reachable s hs d hd).1
    rw [h1] at h2
    exact Option.some.inj h2
  · exact ⟨(flag_of_reachable s hs c hc).2, (flag_of_reachable s hs c hc).1⟩
  · rw [gate_active_iff]
    exact ⟨fun h => h.2, fun h => ⟨(flag_of_reachable s hs c h).1, h⟩⟩

theorem gate_exclusivity_witness :
    (∀ c d, (in_transaction_1.thread c).in_transaction = 1 →
      (in_transaction_1.thread d).in_transaction = 1 → c = d) ∧
    (∀ c, (in_transaction_1.thread c).in_transaction = 1 →
      in_transaction_1.transaction_owner = some c ∧
      in_transaction_1.transaction_mutex = some c) ∧
    (∀ c, gate in_transaction_1 = .Active c ↔ (in_transaction_1.thread c).in_transaction = 1) :=
  gate_exclusivity in_transaction_1 (after_reachable _ _ Reachable.init)

/-- C6 (BEG then END).  In every state where `transaction_mutex` is free and connection `c`
waits in `recv` with its flag 0 (the gate is idle), the request line `BEG` of `c` is
answered `BEG:transaction_started` and makes the gate `Active c`; the request line `END` of
`c` that follows is answered `END:transaction_ended` and makes the gate idle again, with
`transaction_mutex` free; store and registry are after the pair what they were before.
These are all the idle states up to one unlock call: in a reachable state where the gate is
idle and `c` waits in `recv`, the flag of `c` is 0 and `transaction_mutex` is free, or
another thread stands at its unlock call (line 112 or 96) and frees it in its next step,
which leaves the variables of `c`, the store and the registry as they are. -/
theorem beg_end_round_trip (s : System) (c : ConnId) (hpc : (s.thread c).pc = .recv) :
    (s.transaction_mutex = none → (s.thread c).in_transaction = 0 →
      gate s = .Idle ∧
      ∃ s1 s2, handle c "BEG\n" s = .ok s1 ∧ gate s1 = .Active c ∧
        s1.sent c = s.sent c ++ ["BEG:transaction_started\n"] ∧
        handle c "END\n" s1 = .ok s2 ∧ gate s2 = .Idle ∧ s2.transaction_mutex = none ∧
        s2.sent c = s1.sent c ++ ["END:transaction_ended\n"] ∧
        s2.kv = s.kv ∧ s2.registry = s.registry) ∧
    (Reachable s → gate s = .Idle →
      (s.thread c).in_transaction = 0 ∧
      (s.transaction_mutex = none ∨
        ∃ d s1, d ≠ c ∧ s.transaction_mutex = some d ∧ step d s = .ok s1 ∧
          s1.transaction_mutex = none ∧ s1.thread c = s.thread c ∧
          s1.kv = s.kv ∧ s1.registry = s.registry)) := by
  constructor
  · intro htm hin
    refine ⟨gate_idle_of_free s htm, ?_⟩
    have h1 := handle_beg s c (line1 "BEG") "BEG" (s.thread c).key (s.thread c).value hpc htm
      hin (receivable_line1 _ token_BEG) (sscanf_line1 _ _ _ _ token_BEG) (by decide)
    generalize hs1 : respond _ c _ = s1 at h1
    have hpc1 : (s1.thread c).pc = .recv := by rw [← hs1]; simp [respond, send, set_thread]
    have hin1 : (s1.thread c).in_transaction = 1 := by
      rw [← hs1]; simp [respond, send, set_thread]
    have hown1 : s1.transaction_owner = some c := by rw [← hs1]; rfl
    have htm1 : s1.transaction_mutex = some c := by rw [← hs1]; rfl
    have h2 := handle_end_owner s1 c (line1 "END") "END" (s1.thread c).key (s1.thread c).value
      hpc1 hin1 hown1 (receivable_line1 _ token_END) (sscanf_line1 _ _ _ _ token_END)
      (by decide)
    refine ⟨s1, _, h1, (gate_active_iff s1 c).2 ⟨htm1, hin1⟩, ?_, h2, ?_, rfl, ?_, ?_, ?_⟩
    · rw [← hs1, respond_sent_self]
    · exact gate_idle_of_free _ rfl
    · rw [respond_sent_self]
    · rw [← hs1]; rfl
    · rw [← hs1]; rfl
  · intro hs hidle
    have hflag : ∀ d, s.transaction_mutex = some d → ¬ (s.thread d).in_transaction = 1 :=
      fun d hd h => by
        rw [(gate_active_iff s d).2 ⟨hd, h⟩] at hidle; cases hidle
    have hin : (s.thread c).in_transaction = 0 := by
      rcases (reachable_gate_inv s hs c).1 with e | e
      · exact e
      · exact absurd e.1 (hflag c e.2.1)
    refine ⟨hin, ?_⟩
    cases htm : s.transaction_mutex with
    | none => exact Or.inl rfl
    | some d =>
      right
      have hd : d ≠ c := by
        intro e; subst e
        rcases reachable_holder s hs d htm with e | e | e
        · exact hflag d htm e
        · rw [hpc] at e; cases e
        · rw [hpc] at e; cases e
      rcases reachable_holder s hs d htm with e | e | e
      · exact absurd e (hflag d htm)
      · exact ⟨d, set_thread { s with transaction_mutex := none } d
            { (s.thread d) with pc := .store_lock },
          hd, rfl, by simp [step, e], rfl,
          by simp [set_thread, Function.update, Ne.symm hd], rfl, rfl⟩
      · exact ⟨d, respond { s with transaction_mutex := none } d (s.thread d),
          hd, rfl, by simp [step, e], rfl,
          by simp [respond, send, set_thread, Function.update, Ne.symm hd], rfl, rfl⟩

theorem beg_end_round_trip_witness :
    gate initial = .Idle ∧
    ∃ s1 s2, handle 1 "BEG\n" initial = .ok s1 ∧ gate s1 = .Active 1 ∧
      s1.sent 1 = initial.sent 1 ++ ["BEG:transaction_started\n"] ∧
      handle 1 "END\n" s1 = .ok s2 ∧ gate s2 = .Idle ∧ s2.transaction_mutex = none ∧
      s2.sent 1 = s1.sent 1 ++ ["END:transaction_ended\n"] ∧
      s2.kv = initial.kv ∧ s2.registry = initial.registry :=
  (beg_end_round_trip initial 1 rfl).1 rfl rfl

/-- C7 (repeated BEG by the owner) fails on the code.  In the state where connection 1 has
begun a transaction (the gate is `Active 1`), a second request line `BEG` of connection 1
is not answered: the thread calls `pthread_mutex_lock` on `transaction_mutex` at line 84,
which it holds itself, and waits there; nothing is sent after the first answer. -/
theorem repeated_beg_blocks :
    exec [.recv 1 "BEG\n", .step 1] initial = .ok in_transaction_1 ∧
    gate in_transaction_1 = .Active 1 ∧
    (in_transaction_1.thread 1).pc = .recv ∧
    handle 1 "BEG\n" in_transaction_1 = .blocked ∧
    (∃ s0, recv 1 "BEG\n" in_transaction_1 = .ok s0 ∧ calls 1 6 s0 = [.beg_lock] ∧
      step 1 s0 = .blocked ∧ s0.sent 1 = ["BEG:transaction_started\n"]) :=
  ⟨rfl, rfl, rfl, rfl, ⟨_, rfl, rfl, rfl, rfl⟩⟩

/-- C8 (END without ownership): in every reachable state, for every connection `c` that
waits in `recv` and is not the active owner of the gate (also when the gate is idle), the
request line `END` of `c` is answered `END:no_transaction_to_end`, and the gate,
`transaction_mutex`, `transaction_owner`, the flags of all connections, the store and the
registry are left as they were. -/
theorem end_without_ownership (s : System) (c : ConnId) (hs : Reachable s)
    (hpc : (s.thread c).pc = .recv) (hno : gate s ≠ .Active c) :
    ∃ s1, handle c "END\n" s = .ok s1 ∧
      s1.sent c = s.sent c ++ ["END:no_transaction_to_end\n"] ∧
      gate s1 = gate s ∧ s1.transaction_mutex = s.transaction_mutex ∧
      s1.transaction_owner = s.transaction_owner ∧
      (∀ d, (s1.thread d).in_transaction = (s.thread d).in_transaction) ∧
      s1.kv = s.kv ∧ s1.registry = s.registry := by
  have hflag : ¬ (s.thread c).in_transaction = 1 := fun h =>
    hno ((gate_active_iff s c).2 ⟨(flag_of_reachable s hs c h).1, h⟩)
  have h1 := handle_end_other s c (line1 "END") "END" (s.thread c).key (s.thread c).value hpc
    (fun h => hflag h.1) (receivable_line1 _ token_END) (sscanf_line1 _ _ _ _ token_END)
    (by decide)
  have hflags : ∀ d, ((respond s c
      { (s.thread c) with
        buffer := "END:no_transaction_to_end\n"
        cmd := "END", key := (s.thread c).key, value := (s.thread c).value }).thread
        d).in_transaction = (s.thread d).in_transaction := by
    intro d
    by_cases hd : d = c
    · subst hd; simp [respond, send, set_thread]
    · simp [respond, send, set_thread, Function.update, hd]
  refine ⟨_, h1, respond_sent_self _ _ _, ?_, rfl, rfl, hflags, rfl, rfl⟩
  unfold gate
  show (match s.transaction_mutex with
    | some c1 => _
    | none => _) = _
  cases s.transaction_mutex with
  | none => rfl
  | some d => simp only [hflags d]

theorem end_without_ownership_witness :
    ∃ s1, handle 1 "END\n" initial = .ok s1 ∧
      s1.sent 1 = initial.sent 1 ++ ["END:no_transaction_to_end\n"] ∧
      gate s1 = gate initial ∧ s1.transaction_mutex = initial.transaction_mutex ∧
      s1.transaction_owner = initial.transaction_owner ∧
      (∀ d, (s1.thread d).in_transaction = (initial.thread d).in_transaction) ∧
      s1.kv = initial.kv ∧ s1.registry = initial.registry :=
  end_without_ownership initial 1 Reachable.init rfl (by decide)

/-- C9 (release only by the owner's END): in every reachable state where the gate is
`Active c`, an event after which the gate is idle is the arrival of an END request on
connection `c`, and after any other event the gate is still `Active c`.  When `c` waits in
`recv` and its peer disconnects (`recv` returns no byte), or `c` handles the request line
`QUIT`, the thread of `c` ends and the gate is `Active c` in every later state. -/
theorem gate_release_only_by_end (s : System) (c : ConnId) (hs : Reachable s)
    (hact : gate s = .Active c) :
    (∀ e s1, next e s = .ok s1 →
      (gate s1 = .Idle →
        ∃ data, e = .recv c data ∧ strcasecmp (s1.thread c).cmd "END" = true) ∧
      (gate s1 = .Idle ∨ gate s1 = .Active c)) ∧
    ((s.thread c).pc = .recv →
      ∃ s1, recv c "" s = .ok s1 ∧ (s1.thread c).pc = .closed ∧
        ∀ es s2, exec es s1 = .ok s2 → gate s2 = .Active c) ∧
    ((s.thread c).pc = .recv → s.store_mutex = none →
      ∃ s1, handle c "QUIT\n" s = .ok s1 ∧ (s1.thread c).pc = .closed ∧
        ∀ es s2, exec es s1 = .ok s2 → gate s2 = .Active c) := by
  obtain ⟨htm, hin⟩ := (gate_active_iff s c).1 hact
  refine ⟨fun e s1 hnext => ?_, fun hpc => ?_, fun hpc hsm => ?_⟩
  · rcases gate_next s s1 c e hs hact hnext with h | ⟨h1, h2⟩
    · exact ⟨(fun hi => by rw [h] at hi; cases hi), Or.inr h⟩
    · exact ⟨fun _ => h2, Or.inl h1⟩
  · have h1 : recv c "" s = .ok (set_thread s c { (s.thread c) with pc := .closed }) := by
      simp [recv, hpc]
    have hpc1 : ((set_thread s c { (s.thread c) with pc := .closed }).thread c).pc = .closed := by
      simp [set_thread]
    have hact1 : gate (set_thread s c { (s.thread c) with pc := .closed }) = .Active c :=
      (gate_active_iff _ c).2 ⟨htm, by simp [set_thread, hin]⟩
    exact ⟨_, h1, hpc1, fun es s2 h =>
      abandoned_forever es _ s2 c (Reachable.next (.recv c "") hs h1) hact1 hpc1 h⟩
  · have hown := (flag_of_reachable s hs c hin).2
    have h1 := handle_quit_owner s c (line1 "QUIT") "QUIT" (s.thread c).key (s.thread c).value
      hpc hin hown hsm (receivable_line1 _ token_QUIT) (sscanf_line1 _ _ _ _ token_QUIT)
      (by decide)
    generalize hs1 : set_thread s c _ = s1 at h1
    have hpc1 : (s1.thread c).pc = .closed := by rw [← hs1]; simp [set_thread]
    have hact1 : gate s1 = .Active c :=
      (gate_active_iff _ c).2 ⟨by rw [← hs1]; exact htm, by rw [← hs1]; simp [set_thread, hin]⟩
    exact ⟨s1, h1, hpc1, fun es s2 h =>
      abandoned_forever es _ s2 c (handle_reachable c _ s s1 hs h1) hact1 hpc1 h⟩

theorem gate_release_only_by_end_witness :
    ∃ s1, handle 1 "QUIT\n" in_transaction_1 = .ok s1 ∧ (s1.thread 1).pc = .closed ∧
      ∀ es s2, exec es s1 = .ok s2 → gate s2 = .Active 1 :=
  (gate_release_only_by_end in_transaction_1 1 (after_reachable _ _ Reachable.init) rfl).2.2
    rfl rfl

/-- C10 (owner non-blocking): in every reachable state where the gate is `Active c`,
connection `c` waits in `recv` and the store and registry locks are free, for every request
whose command is GET, PUT or DEL: thread `c` goes from `recv` straight to line 115 and makes
no call on `transaction_mutex` (lines 84 and 111) while it handles the request; and the
request has the same outcome as the same request handled by `c` as a non-owner on an idle
gate (its flag 0 and `transaction_mutex` free): both write outside the store array, or both
are answered, with the same store, the same registry and the same messages sent on every
socket, the answer among them. -/
theorem owner_non_blocking (s : System) (c : ConnId) (data : String) (hs : Reachable s)
    (hact : gate s = .Active c) (hpc : (s.thread c).pc = .recv)
    (hsm : s.store_mutex = none) (hsub : s.subscribers_mutex = none) (hd : Receivable data)
    (hcmd : strcasecmp (sscanf (c_str data) (s.thread c).cmd (s.thread c).key (s.thread c).value).1 "GET"
        = true ∨
      strcasecmp (sscanf (c_str data) (s.thread c).cmd (s.thread c).key (s.thread c).value).1 "PUT"
        = true ∨
      strcasecmp (sscanf (c_str data) (s.thread c).cmd (s.thread c).key (s.thread c).value).1 "DEL"
        = true) :
    (∃ s0, recv c data s = .ok s0 ∧ (s0.thread c).pc = .store_lock ∧
      Pc.beg_lock ∉ calls c 6 s0 ∧ Pc.gate_lock ∉ calls c 6 s0) ∧
    ((handle c data s = .undefined ∧ handle c data (with_idle_gate s c) = .undefined) ∨
      ∃ s1 t1, handle c data s = .ok s1 ∧ handle c data (with_idle_gate s c) = .ok t1 ∧
        s1.kv = t1.kv ∧ s1.registry = t1.registry ∧ s1.sent = t1.sent) := by
  obtain ⟨htm, hin⟩ := (gate_active_iff s c).1 hact
  have hown := (flag_of_reachable s hs c hin).2
  have hr : Ready s c := ⟨hpc, hsm, hsub, Or.inr ⟨hin, hown⟩⟩
  have hrt : Ready (with_idle_gate s c) c := by
    refine ⟨?_, hsm, hsub, Or.inl ⟨?_, rfl⟩⟩ <;> simp [with_idle_gate, hpc]
  generalize hp : sscanf (c_str data) (s.thread c).cmd (s.thread c).key (s.thread c).value = p at hcmd
  obtain ⟨cmd, key, value⟩ := p
  simp only [] at hcmd
  have hpt : sscanf (c_str data) ((with_idle_gate s c).thread c).cmd
      ((with_idle_gate s c).thread c).key ((with_idle_gate s c).thread c).value
      = (cmd, key, value) := by
    simpa [with_idle_gate] using hp
  constructor
  · have hrecv : recv c data s = .ok (dispatch c s { (s.thread c) with buffer := c_str data }) := by
      simp [recv, hpc, receivable_not_long data hd, receivable_not_empty data hd]
    have hnot : strcasecmp cmd "BEG" = false ∧ strcasecmp cmd "END" = false ∧
        strcasecmp cmd "SUB" = false := by
      rcases hcmd with h | h | h <;>
        exact ⟨strcasecmp_excl _ _ _ h (by decide), strcasecmp_excl _ _ _ h (by decide),
          strcasecmp_excl _ _ _ h (by decide)⟩
    have hpc0 : ((dispatch c s { (s.thread c) with buffer := c_str data }).thread c).pc
        = .store_lock :=
      dispatch_owner_store c s _ hin hown (by simp only [hp]; exact hnot.1)
        (by simp only [hp]; exact hnot.2.1) (by simp only [hp]; exact hnot.2.2)
    have hpath := calls_store_path c 6 _ (Or.inl hpc0)
    refine ⟨_, hrecv, hpc0, fun h => ?_, fun h => ?_⟩
    · have := hpath _ h; simp [StorePath] at this
    · have := hpath _ h; simp [StorePath] at this
  · rcases hcmd with h | h | h
    · exact Or.inr ⟨_, _, handle_get s c data cmd key value hr hd hp h,
        handle_get _ c data cmd key value hrt hd hpt h, rfl, rfl, rfl⟩
    · cases hput : put_body s.kv key value with
      | none =>
        exact Or.inl ⟨handle_put_undefined s c data cmd key value hr hd hp h hput,
          handle_put_undefined _ c data cmd key value hrt hd hpt h hput⟩
      | some kv1 =>
        exact Or.inr ⟨_, _, handle_put s c data cmd key value kv1 hr hd hp h hput,
          handle_put _ c data cmd key value kv1 hrt hd hpt h hput, rfl, rfl, rfl⟩
    · exact Or.inr ⟨_, _, handle_del s c data cmd key value hr hd hp h,
        handle_del _ c data cmd key value hrt hd hpt h, rfl, rfl, rfl⟩

theorem owner_non_blocking_witness :
    (∃ s0, recv 1 "GET a\n" in_transaction_1 = .ok s0 ∧ (s0.thread 1).pc = .store_lock ∧
      Pc.beg_lock ∉ calls 1 6 s0 ∧ Pc.gate_lock ∉ calls 1 6 s0) ∧
    ((handle 1 "GET a\n" in_transaction_1 = .undefined ∧
        handle 1 "GET a\n" (with_idle_gate in_transaction_1 1) = .undefined) ∨
      ∃ s1 t1, handle 1 "GET a\n" in_transaction_1 = .ok s1 ∧
        handle 1 "GET a\n" (with_idle_gate in_transaction_1 1) = .ok t1 ∧
        s1.kv = t1.kv ∧ s1.registry = t1.registry ∧ s1.sent = t1.sent) :=
  owner_non_blocking in_transaction_1 1 "GET a\n" (after_reachable _ _ Reachable.init) rfl rfl
    rfl rfl ⟨by decide, by decide⟩ (Or.inl (by decide))

/-- C11 (capacity overflow) fails on the code.  The 100 requests `PUT k v`, `PUT kk v`,
... of connection 1 are all answered and leave a store of 100 entries, none with the key
`a`.  The request `PUT a v` that follows is not a no-op on that store: line 136 yields the
index 100 and lines 137 and 139 write the slot `store[100]`, outside the array, so the
request has no defined outcome. -/
theorem put_overflows_store :
    ∃ s, serve (fill_requests 100) initial = .ok s ∧ Reachable s ∧ Ready s 1 ∧
      StoreWF s.kv ∧ s.kv.store_size = 100 ∧ ¬ Present s.kv "a" ∧
      put_body s.kv "a" "v" = none ∧ handle 1 "PUT a v\n" s = .undefined := by
  obtain ⟨s, hserve, hr, hwf, hsize, hkeys⟩ := fill_prefix 100 (le_refl _)
  have habs : ¬ Present s.kv "a" := by
    rintro ⟨j, hj, hk⟩
    rw [hkeys j (by omega)] at hk
    exact fill_key_ne_a j hk
  have hput := put_body_full s.kv "a" "v" hsize habs
  exact ⟨s, hserve, serve_reachable _ _ _ Reachable.init hserve, hr, hwf, hsize, habs, hput,
    handle_put_undefined s 1 (line3 "PUT" "a" "v") "PUT" "a" "v" hr
      (receivable_line3 _ _ _ token_PUT (by decide) token_v)
      (sscanf_line3 _ _ _ _ _ _ token_PUT (by decide) token_v) (by decide) hput⟩

/-- C12 (subscribe appends or drops): for every well-formed registry, connection `c` and
key `K` of at most 127 characters, `subscribe (c, K)` on a registry with fewer than 100
records yields the old records in their order followed by the one new record `(c, K)`,
whether or not an equal record is already there, and on a registry with 100 records yields
the registry unchanged.  The request line `SUB K` of a connection in `recv`, with
`subscribers_mutex` free, does this to the registry and is answered `SUB:K:key_subscribed`
in both cases. -/
theorem subscribe_appends_or_drops (r : Registry) (c : ConnId) (K : String)
    (hwf : RegistryWF r) (hK : K.length ≤ 127) :
    (r.num_subscribers < MAX_CLIENTS →
      records (subscribe r c K) = records r ++ [{ client_socket := c, key := K }] ∧
      (subscribe r c K).num_subscribers = r.num_subscribers + 1 ∧
      RegistryWF (subscribe r c K)) ∧
    (r.num_subscribers = MAX_CLIENTS → subscribe r c K = r) ∧
    (∀ s : System, s.registry = r → (s.thread c).pc = .recv → s.subscribers_mutex = none →
      IsToken 127 K →
      ∃ s1, handle c (line2 "SUB" K) s = .ok s1 ∧ s1.registry = subscribe r c K ∧
        s1.kv = s.kv ∧ s1.sent c = s.sent c ++ ["SUB:" ++ K ++ ":key_subscribed\n"]) := by
  obtain ⟨hlen, hnum⟩ := hwf
  have eK : strncpy K 128 = K := strncpy_of_le K 128 (by omega)
  refine ⟨fun hlt => ?_, fun heq => ?_, fun s hr hpc hsub tK => ?_⟩
  · have hn : ¬ r.num_subscribers ≥ MAX_CLIENTS := by omega
    simp only [subscribe, hn, if_false, records, eK]
    refine ⟨take_set_succ _ _ _ (by omega), trivial, ?_, ?_⟩
    · simp [hlen]
    · show r.num_subscribers + 1 ≤ MAX_CLIENTS
      omega
  · have hn : r.num_subscribers ≥ MAX_CLIENTS := by omega
    simp only [subscribe, hn, if_true]
  · have h1 := handle_sub s c (line2 "SUB" K) "SUB" K (s.thread c).value hpc hsub
      (receivable_line2 _ _ token_SUB tK) (sscanf_line2 _ _ _ _ _ token_SUB tK) (by decide)
    rw [hr] at h1
    exact ⟨_, h1, rfl, rfl, by rw [respond_sent_self, sub_text K hK]⟩

theorem subscribe_appends_or_drops_witness :
    records (subscribe subscribed_2.registry 2 "a") =
        records subscribed_2.registry ++ [{ client_socket := 2, key := "a" }] ∧
      (subscribe subscribed_2.registry 2 "a").num_subscribers =
        subscribed_2.registry.num_subscribers + 1 ∧
      RegistryWF (subscribe subscribed_2.registry 2 "a") :=
  (subscribe_appends_or_drops subscribed_2.registry 2 "a" ⟨rfl, by decide⟩ (by decide)).1
    (by decide)

/-- C13 (key uniqueness): in every reachable state of the system, and so in every state a
sequence of requests handled one after the other leads to from the initial state (a PUT that
finds the store full has no resulting state), no two of the first `store_size` slots of the
store hold the same key. -/
theorem key_uniqueness :
    (∀ s, Reachable s → UniqueKeys s.kv) ∧
    (∀ reqs s, serve reqs initial = .ok s → UniqueKeys s.kv) :=
  ⟨fun s hs => (reachable_store_inv s hs).2.1,
    fun reqs s h => (reachable_store_inv s (serve_reachable reqs initial s Reachable.init h)).2.1⟩

theorem key_uniqueness_witness :
    serve mixed_requests initial = .ok (served mixed_requests initial) ∧
      entries (served mixed_requests initial).kv =
        [{ key := "b", value := "2" }, { key := "c", value := "4" }] ∧
      UniqueKeys (served mixed_requests initial).kv :=
  ⟨rfl, rfl, key_uniqueness.2 mixed_requests (served mixed_requests initial) rfl⟩

/-- C14 as stated fails.  The command `FOO` is none of BEG, END, SUB, GET, PUT, DEL, QUIT in
any spelling, and the request `FOO bar` of connection 1 on the initial state is answered:
the buffer still holds the received line when line 161 sends it, so the request line comes
back on the socket. -/
theorem unrecognized_command_answered :
    ¬ Recognized "FOO" ∧ sscanf (c_str "FOO bar\n") "" "" "" = ("FOO", "bar", "") ∧
    ∃ s1, handle 1 "FOO bar\n" initial = .ok s1 ∧ initial.sent 1 = [] ∧
      s1.sent 1 = ["FOO bar\n"] := by
  exact ⟨by decide, by decide, _, rfl, rfl, rfl⟩

/-- C14 (amended): a request of a ready connection whose command token is none of BEG, END,
SUB, GET, PUT, DEL, QUIT in any spelling is answered with one message: the C string the
received bytes leave in the buffer, that is the bytes before the first NUL among them, and
so the received bytes unchanged when none of them is NUL.  Nothing is sent on another
socket, and the Store, the Registry and the Gate are left as they were. -/
theorem unrecognized_command_echo (s : System) (c : ConnId) (data cmd key value : String)
    (hr : Ready s c) (hd : Receivable data)
    (hparse : sscanf (c_str data) (s.thread c).cmd (s.thread c).key (s.thread c).value
      = (cmd, key, value))
    (hcmd : ¬ Recognized cmd) :
    ∃ s1, handle c data s = .ok s1 ∧ s1.sent c = s.sent c ++ [c_str data] ∧
      ((∀ ch ∈ data.data, ¬ ch = '\x00') → s1.sent c = s.sent c ++ [data]) ∧
      (∀ d, d ≠ c → s1.sent d = s.sent d) ∧ s1.kv = s.kv ∧ s1.registry = s.registry ∧
      gate s1 = gate s ∧ s1.transaction_mutex = s.transaction_mutex ∧
      s1.transaction_owner = s.transaction_owner := by
  obtain ⟨s1, h, h1, h2, h3, h4, h5, h6, h7, _⟩ :=
    handle_unknown_effect s c data cmd key value hr hd hparse hcmd
  exact ⟨s1, h, h1, fun hz => by rw [h1, c_str_of_no_nul data hz], h2, h3, h4, h5, h6, h7⟩

theorem unrecognized_command_echo_witness :
    Ready mixed_state 2 ∧ Receivable "FOO bar\x00baz\n" ∧ ¬ Recognized "FOO" ∧
    c_str "FOO bar\x00baz\n" = "FOO bar" ∧
    ∃ s1, handle 2 "FOO bar\x00baz\n" mixed_state = .ok s1 ∧
      s1.sent 2 = mixed_state.sent 2 ++ [c_str "FOO bar\x00baz\n"] ∧
      ((∀ ch ∈ ("FOO bar\x00baz\n" : String).data, ¬ ch = '\x00') →
        s1.sent 2 = mixed_state.sent 2 ++ ["FOO bar\x00baz\n"]) ∧
      (∀ d, d ≠ 2 → s1.sent d = mixed_state.sent d) ∧ s1.kv = mixed_state.kv ∧
      s1.registry = mixed_state.registry ∧ gate s1 = gate mixed_state ∧
      s1.transaction_mutex = mixed_state.transaction_mutex ∧
      s1.transaction_owner = mixed_state.transaction_owner :=
  ⟨⟨rfl, rfl, rfl, Or.inl ⟨rfl, rfl⟩⟩, ⟨by decide, by decide⟩, by decide, by decide,
    unrecognized_command_echo mixed_state 2 "FOO bar\x00baz\n" "FOO" "bar" "3"
      ⟨rfl, rfl, rfl, Or.inl ⟨rfl, rfl⟩⟩ ⟨by decide, by decide⟩ (by decide) (by decide)⟩

/-- C15 fails on the code.  The arrays `cmd`, `key` and `value` of line 80 are not
initialised and the result of `sscanf` (line 81) is not looked at, so an argument missing
from a line is what the previous request of the connection left in the array.  After
`PUT a 1` the line `PUT k` stores the value `1` under `k`, not the empty string, and the line
`GET` that follows is handled as `GET k`; the same line `PUT k` as first request of a thread
on a fresh stack is answered differently. -/
theorem missing_arguments_are_stale :
    serve stale_requests initial = .ok (served stale_requests initial) ∧
    Reachable (served stale_requests initial) ∧
    (served stale_requests initial).sent 1 = ["PUT:a:1\n", "PUT:k:1\n", "GET:k:1\n"] ∧
    entries (served stale_requests initial).kv = [⟨"a", "1"⟩, ⟨"k", "1"⟩] ∧
    get_body (served stale_requests initial).kv "" = "GET::key_nonexistent\n" ∧
    ∃ s1, handle 1 "PUT k\n" initial = .ok s1 ∧ s1.sent 1 = ["PUT:k:\n"] := by
  exact ⟨rfl, serve_reachable stale_requests initial _ Reachable.init rfl, rfl, rfl, rfl, _, rfl,
    rfl⟩

/-- C16 as stated fails for the lines whose command is not recognised: `FOO` and `foo` are
spellings of one token, and the two requests are answered with different messages, each with
its own bytes. -/
theorem respelled_unrecognized_differs :
    strcasecmp "foo" "FOO" = true ∧ ¬ Recognized "FOO" ∧
    ∃ s1 s2, handle 1 "FOO\n" initial = .ok s1 ∧ handle 1 "foo\n" initial = .ok s2 ∧
      s1.sent 1 = ["FOO\n"] ∧ s2.sent 1 = ["foo\n"] ∧ ¬ s1.sent 1 = s2.sent 1 := by
  exact ⟨by decide, by decide, _, _, rfl, rfl, rfl, rfl, by decide⟩

/-- C16 (amended): two request lines that differ in the spelling of the command token only
(the tokens are equal up to case, the arguments are the same) have, in every state, the same
outcome when the command is one of BEG, END, SUB, GET, PUT, DEL, QUIT: the same messages on
every socket, the same Store, Registry, Gate, locks and program counters.  When the command
is none of them, a ready connection gets each line back in its own spelling (the C string
the received bytes leave in the buffer: the bytes before the first NUL among them) and the
two results agree on everything but that message.  Keys are compared exactly: the slot a
key is found in holds that very key. -/
theorem case_insensitive_commands (s : System) (c : ConnId)
    (data1 data2 cmd1 cmd2 key value : String)
    (hd1 : Receivable data1) (hd2 : Receivable data2)
    (hp1 : sscanf (c_str data1) (s.thread c).cmd (s.thread c).key (s.thread c).value
      = (cmd1, key, value))
    (hp2 : sscanf (c_str data2) (s.thread c).cmd (s.thread c).key (s.thread c).value
      = (cmd2, key, value))
    (hcase : strcasecmp cmd2 cmd1 = true) :
    (Recognized cmd1 → SameOutcome (handle c data1 s) (handle c data2 s)) ∧
    (¬ Recognized cmd1 → Ready s c →
      ∃ s1 s2, handle c data1 s = .ok s1 ∧ handle c data2 s = .ok s2 ∧
        s1.sent c = s.sent c ++ [c_str data1] ∧ s2.sent c = s.sent c ++ [c_str data2] ∧
        (∀ d, d ≠ c → s1.sent d = s2.sent d) ∧ s1.kv = s2.kv ∧ s1.registry = s2.registry ∧
        gate s1 = gate s2) ∧
    (∀ j, find_key s.kv.store key s.kv.store_size 0 = some j →
      (s.kv.store.getD j default).key = key) := by
  refine ⟨fun hrec => same_of_respelled c _ _
    (handle_respelled s c data1 data2 cmd1 cmd2 key value hd1 hd2 hp1 hp2 hcase hrec), ?_, ?_⟩
  · intro hrec hr
    have hrec2 : ¬ Recognized cmd2 := fun h => hrec ((recognized_congr cmd1 cmd2 hcase).1 h)
    obtain ⟨s1, h1, a1, b1, c1, d1, e1, _⟩ :=
      handle_unknown_effect s c data1 cmd1 key value hr hd1 hp1 hrec
    obtain ⟨s2, h2, a2, b2, c2, d2, e2, _⟩ :=
      handle_unknown_effect s c data2 cmd2 key value hr hd2 hp2 hrec2
    exact ⟨s1, s2, h1, h2, a1, a2, fun d hd => (b1 d hd).trans (b2 d hd).symm,
      c1.trans c2.symm, d1.trans d2.symm, e1.trans e2.symm⟩
  · intro j hj
    exact ((find_key_eq_some_iff _ _ _ _ j).1 hj).2.2.1.symm

theorem case_insensitive_commands_witness :
    strcasecmp "get" "GET" = true ∧ Recognized "GET" ∧
    SameOutcome (handle 1 "GET b\n" mixed_state) (handle 1 "get b\n" mixed_state) ∧
    (∃ s1, handle 1 "get b\n" mixed_state = .ok s1 ∧
      s1.sent 1 = mixed_state.sent 1 ++ ["GET:b:2\n"]) ∧
    (∃ s1, handle 1 "get B\n" mixed_state = .ok s1 ∧
      s1.sent 1 = mixed_state.sent 1 ++ ["GET:B:key_nonexistent\n"]) :=
  ⟨by decide, by decide,
    (case_insensitive_commands mixed_state 1 "GET b\n" "get b\n" "GET" "get" "b" "4"
      ⟨by decide, by decide⟩ ⟨by decide, by decide⟩ rfl rfl (by decide)).1 (by decide),
    ⟨_, rfl, rfl⟩, ⟨_, rfl, rfl⟩⟩

/-- C17 (unreachable rejection branch): in every reachable state of the multi-connection
system the guard `in_transaction == 1 && !pthread_equal (transaction_owner, pthread_self ())`
of line 104 is false for every connection, so lines 105-107 are not executed and no
connection is sent the rejection `ERROR:transaction_in_progress` by them: while it receives
and dispatches a request (lines 78-107) a connection sends nothing, or the answer
`END:no_transaction_to_end` of line 98, on its own socket. -/
theorem rejection_branch_unreachable (s : System) (hs : Reachable s) (c : ConnId) :
    ¬ ((s.thread c).in_transaction = 1 ∧ ¬ s.transaction_owner = some c) ∧
    ∀ data s1, recv c data s = .ok s1 →
      s1.sent = s.sent ∨
        s1.sent = Function.update s.sent c (s.sent c ++ ["END:no_transaction_to_end\n"]) :=
  ⟨guard_false s hs c, fun data s1 h => recv_sent c data s s1 (guard_false s hs c) h⟩

theorem rejection_branch_unreachable_witness :
    Reachable in_transaction_1 ∧ (in_transaction_1.thread 1).in_transaction = 1 ∧
    in_transaction_1.transaction_owner = some 1 ∧
    ¬ ((in_transaction_1.thread 1).in_transaction = 1 ∧
      ¬ in_transaction_1.transaction_owner = some 1) ∧
    ∀ data s1, recv 1 data in_transaction_1 = .ok s1 →
      s1.sent = in_transaction_1.sent ∨
        s1.sent = Function.update in_transaction_1.sent 1
          (in_transaction_1.sent 1 ++ ["END:no_transaction_to_end\n"]) :=
  ⟨after_reachable _ _ Reachable.init, rfl, rfl,
    rejection_branch_unreachable in_transaction_1 (after_reachable _ _ Reachable.init) 1⟩

/-- C18 (DEL keeps every survivor): for every state whose store is well formed with distinct
keys, and every token `K`, the request line `DEL K` of a ready connection is answered.  If
`K` is present the answer is `DEL:K:key_deleted`, `store_size` goes down by exactly one, and
the entries afterwards are exactly the entries before whose key is not `K` (as a set: the
last entry takes the place of the deleted one, also when the deleted one is the last);
if `K` is absent the answer is `DEL:K:key_nonexistent` and the store is unchanged.  In both
cases the keys stay distinct, and for every token `K1` other than `K` the request line
`GET K1` of a ready connection is answered with the same message after the DEL as before
it. -/
theorem del_keeps_survivors (s : System) (c : ConnId) (K : String) (hr : Ready s c)
    (hwf : StoreWF s.kv) (hu : UniqueKeys s.kv) (hK : IsToken 127 K) :
    ∃ s1, handle c (line2 "DEL" K) s = .ok s1 ∧
      (Present s.kv K →
        s1.sent c = s.sent c ++ ["DEL:" ++ K ++ ":key_deleted\n"] ∧
        s1.kv.store_size + 1 = s.kv.store_size ∧
        ∀ e, e ∈ entries s1.kv ↔ e ∈ entries s.kv ∧ ¬ e.key = K) ∧
      (¬ Present s.kv K →
        s1.sent c = s.sent c ++ ["DEL:" ++ K ++ ":key_nonexistent\n"] ∧ s1.kv = s.kv) ∧
      StoreWF s1.kv ∧ UniqueKeys s1.kv ∧
      (∀ K1, K1 ≠ K → get_body s1.kv K1 = get_body s.kv K1) ∧
      ∀ d K1, Ready s d → IsToken 127 K1 → K1 ≠ K →
        ∃ t t1 m, handle d (line2 "GET" K1) s = .ok t ∧
          handle d (line2 "GET" K1) s1 = .ok t1 ∧
          t.sent d = s.sent d ++ [m] ∧ t1.sent d = s1.sent d ++ [m] := by
  have hget : ∀ K1, K1 ≠ K → get_body (del_body s.kv K).1 K1 = get_body s.kv K1 := by
    intro K1 hne
    apply get_body_eq_of_entries _ _ (del_body_wf s.kv K hwf) hwf
      (del_body_unique s.kv K hwf hu) hu
    intro e hk
    rw [del_body_entries s.kv K hwf hu e]
    exact ⟨fun h => h.1, fun h => ⟨h, by rw [hk]; exact hne⟩⟩
  have h1 := handle_del s c (line2 "DEL" K) "DEL" K (s.thread c).value hr
    (receivable_line2 _ _ token_DEL hK) (sscanf_line2 _ _ _ _ _ token_DEL hK) (by decide)
  have hwf1 := del_body_wf s.kv K hwf
  have hu1 := del_body_unique s.kv K hwf hu
  refine ⟨_, h1, fun hp => ?_, fun hp => ?_, hwf1, hu1, hget, fun d K1 hd hK1 hne => ?_⟩
  · obtain ⟨i, hf⟩ := find_key_of_present s.kv K hp
    obtain ⟨_, hi, _, _⟩ := (find_key_eq_some_iff _ _ _ _ _).1 hf
    refine ⟨?_, ?_, fun e => del_body_entries s.kv K hwf hu e⟩
    · rw [respond_sent_self]
      simp only [del_body, hf, (del_text K hK.2.1).1]
    · show (del_body s.kv K).1.store_size + 1 = s.kv.store_size
      rw [del_body_size s.kv K i hf]; omega
  · have hf : find_key s.kv.store K s.kv.store_size 0 = none := by
      cases hf : find_key s.kv.store K s.kv.store_size 0 with
      | none => rfl
      | some j => exact absurd (present_of_find s.kv K j hf) hp
    constructor
    · rw [respond_sent_self]
      simp only [del_body, hf, (del_text K hK.2.1).2]
    · show (del_body s.kv K).1 = s.kv
      simp only [del_body, hf]
  · exact get_same_response s _ d K1 hd
      (ready_respond s c d
        { (s.thread c) with
          buffer := (del_body s.kv K).2, cmd := "DEL", key := K, value := (s.thread c).value }
        (del_body s.kv K).1 s.sent hd rfl) hK1 (hget K1 hne)

theorem del_keeps_survivors_witness :
    Present mixed_state.kv "b" ∧
    entries mixed_state.kv = [{ key := "b", value := "2" }, { key := "c", value := "4" }] ∧
    ∃ s1, handle 1 (line2 "DEL" "b") mixed_state = .ok s1 ∧
      s1.sent 1 = mixed_state.sent 1 ++ ["DEL:" ++ "b" ++ ":key_deleted\n"] ∧
      s1.kv.store_size + 1 = mixed_state.kv.store_size ∧
      (∀ e, e ∈ entries s1.kv ↔ e ∈ entries mixed_state.kv ∧ ¬ e.key = "b") ∧
      StoreWF s1.kv ∧ UniqueKeys s1.kv ∧
      (∀ K1, K1 ≠ "b" → get_body s1.kv K1 = get_body mixed_state.kv K1) ∧
      ∀ d K1, Ready mixed_state d → IsToken 127 K1 → K1 ≠ "b" →
        ∃ t t1 m, handle d (line2 "GET" K1) mixed_state = .ok t ∧
          handle d (line2 "GET" K1) s1 = .ok t1 ∧
          t.sent d = mixed_state.sent d ++ [m] ∧ t1.sent d = s1.sent d ++ [m] :=
  have hp : Present mixed_state.kv "b" := ⟨0, by decide, rfl⟩
  match del_keeps_survivors mixed_state 1 "b" ⟨rfl, rfl, rfl, Or.inl ⟨rfl, rfl⟩⟩
    (reachable_store_inv _ (serve_reachable mixed_requests initial _ Reachable.init rfl)).1
    (reachable_store_inv _ (serve_reachable mixed_requests initial _ Reachable.init rfl)).2.1
    (by decide) with
  | ⟨s1, h, hpres, _, hwf, hu, hget, hothers⟩ =>
    ⟨hp, rfl, s1, h, (hpres hp).1, (hpres hp).2.1, (hpres hp).2.2, hwf, hu, hget, hothers⟩

/-- C19 (PUT touches only its own key): for every state whose store array is well formed
with fewer than 100 entries, and all tokens `K`, `V`, the request line `PUT K V` of a ready
connection is answered `PUT:K:V` (the last message sent to it, after the notifications of
the fan-out).  If `K` was present, at its first index `i`, then `store_size` and every slot
other than `i` are unchanged, every slot keeps its key, and the value of slot `i` is `V`; if
`K` was absent the entries are the old entries followed by `(K, V)` and `store_size` has
grown by one.  In both cases, for every token `K1` other than `K`, the request line `GET K1`
of a ready connection is answered with the same message after the PUT as before it. -/
theorem put_touches_own_key (s : System) (c : ConnId) (K V : String) (hr : Ready s c)
    (hwf : StoreWF s.kv) (hcap : s.kv.store_size < MAX_KEY_VALUE_PAIRS)
    (hK : IsToken 127 K) (hV : IsToken 127 V) :
    ∃ s1, handle c (line3 "PUT" K V) s = .ok s1 ∧
      (s1.thread c).buffer = "PUT:" ++ K ++ ":" ++ V ++ "\n" ∧
      s1.sent c =
        publish_sent s.registry K ("PUB:" ++ K ++ ":" ++ V ++ "\n")
          s.registry.num_subscribers 0 s.sent c ++ ["PUT:" ++ K ++ ":" ++ V ++ "\n"] ∧
      (∀ i, find_key s.kv.store K s.kv.store_size 0 = some i →
        s1.kv.store_size = s.kv.store_size ∧
        (∀ j, j ≠ i → s1.kv.store.getD j default = s.kv.store.getD j default) ∧
        (∀ j, (s1.kv.store.getD j default).key = (s.kv.store.getD j default).key) ∧
        (s1.kv.store.getD i default).value = V) ∧
      (¬ Present s.kv K →
        s1.kv.store_size = s.kv.store_size + 1 ∧
        entries s1.kv = entries s.kv ++ [{ key := K, value := V }]) ∧
      (∀ K1, K1 ≠ K → get_body s1.kv K1 = get_body s.kv K1) ∧
      ∀ d K1, Ready s d → IsToken 127 K1 → K1 ≠ K →
        ∃ t t1 m, handle d (line2 "GET" K1) s = .ok t ∧
          handle d (line2 "GET" K1) s1 = .ok t1 ∧
          t.sent d = s.sent d ++ [m] ∧ t1.sent d = s1.sent d ++ [m] := by
  obtain ⟨kv1, hput⟩ := put_body_some s.kv K V (Or.inr hcap)
  have h1 := handle_put s c (line3 "PUT" K V) "PUT" K V kv1 hr
    (receivable_line3 _ _ _ token_PUT hK hV) (sscanf_line3 _ _ _ _ _ _ token_PUT hK hV)
    (by decide) hput
  have epub := reply_text "PUB:" K V (by decide) hK.2.1 hV.2.1
  have eput := reply_text "PUT:" K V (by decide) hK.2.1 hV.2.1
  obtain ⟨hlen, hsize⟩ := hwf
  have hget : ∀ K1, K1 ≠ K → get_body kv1 K1 = get_body s.kv K1 := fun K1 hne =>
    put_body_get_other s.kv kv1 K V K1 ⟨hlen, hsize⟩ hK.2.1 hV.2.1 hne hput
  refine ⟨_, h1, ?_, ?_, fun i hf => ?_, fun hp => ?_, hget, fun d K1 hd hK1 hne =>
    get_same_response s _ d K1 hd (ready_respond s c d _ kv1 _ hd rfl) hK1 (hget K1 hne)⟩
  · simp [respond, send, set_thread, eput]
  · rw [respond_sent_self]
    simp only [eput, epub]
  · obtain ⟨hs, hst⟩ := put_body_present s.kv kv1 K V i hV.2.1 hf hput
    obtain ⟨_, hi, _, _⟩ := (find_key_eq_some_iff _ _ _ _ _).1 hf
    have hil : i < s.kv.store.length := by omega
    show kv1.store_size = _ ∧ (∀ j, j ≠ i → kv1.store.getD j default = _) ∧
      (∀ j, (kv1.store.getD j default).key = _) ∧ (kv1.store.getD i default).value = V
    rw [hst]
    refine ⟨hs, fun j hj => getD_set_ne _ _ _ _ (Ne.symm hj), fun j => ?_, ?_⟩
    · by_cases hj : i = j
      · subst hj; rw [getD_set_eq _ _ _ hil]
      · rw [getD_set_ne _ _ _ _ hj]
    · rw [getD_set_eq _ _ _ hil]
  · have hf : find_key s.kv.store K s.kv.store_size 0 = none := by
      cases hf : find_key s.kv.store K s.kv.store_size 0 with
      | none => rfl
      | some j => exact absurd (present_of_find s.kv K j hf) hp
    obtain ⟨_, hs, hst⟩ := put_body_absent s.kv kv1 K V hK.2.1 hV.2.1 hf hput
    show kv1.store_size = _ ∧ entries kv1 = _
    refine ⟨hs, ?_⟩
    unfold entries
    rw [hs, hst]
    exact take_set_succ _ _ _ (by omega)

theorem put_touches_own_key_witness :
    ∃ s1, handle 2 (line3 "PUT" "b" "9") (served mixed_requests initial) = .ok s1 ∧
      (s1.thread 2).buffer = "PUT:" ++ "b" ++ ":" ++ "9" ++ "\n" ∧
      s1.sent 2 =
        publish_sent (served mixed_requests initial).registry "b"
          ("PUB:" ++ "b" ++ ":" ++ "9" ++ "\n")
          (served mixed_requests initial).registry.num_subscribers 0
          (served mixed_requests initial).sent 2 ++ ["PUT:" ++ "b" ++ ":" ++ "9" ++ "\n"] ∧
      (∀ i, find_key (served mixed_requests initial).kv.store "b"
          (served mixed_requests initial).kv.store_size 0 = some i →
        s1.kv.store_size = (served mixed_requests initial).kv.store_size ∧
        (∀ j, j ≠ i → s1.kv.store.getD j default =
          (served mixed_requests initial).kv.store.getD j default) ∧
        (∀ j, (s1.kv.store.getD j default).key =
          ((served mixed_requests initial).kv.store.getD j default).key) ∧
        (s1.kv.store.getD i default).value = "9") ∧
      (¬ Present (served mixed_requests initial).kv "b" →
        s1.kv.store_size = (served mixed_requests initial).kv.store_size + 1 ∧
        entries s1.kv = entries (served mixed_requests initial).kv ++
          [{ key := "b", value := "9" }]) ∧
      (∀ K1, K1 ≠ "b" →
        get_body s1.kv K1 = get_body (served mixed_requests initial).kv K1) ∧
      ∀ d K1, Ready (served mixed_requests initial) d → IsToken 127 K1 → K1 ≠ "b" →
        ∃ t t1 m, handle d (line2 "GET" K1) (served mixed_requests initial) = .ok t ∧
          handle d (line2 "GET" K1) s1 = .ok t1 ∧
          t.sent d = (served mixed_requests initial).sent d ++ [m] ∧
          t1.sent d = s1.sent d ++ [m] :=
  put_touches_own_key (served mixed_requests initial) 2 "b" "9"
    ⟨rfl, rfl, rfl, Or.inl ⟨rfl, rfl⟩⟩ ⟨rfl, by decide⟩ (by decide) (by decide) (by decide)

/-- C20 (GET is read-only): for every state and every token `K`, the request line `GET K` of
a ready connection is answered and leaves the store (array and `store_size`), the registry,
the gate, `transaction_mutex` and `transaction_owner` as they were; nothing is sent to any
other connection and exactly one message is sent to the requester, the buffer of GET.
That buffer is `GET:K:V` where `V` is the value of the first slot whose key is `K` (a value
of at most 127 characters, as every value array holds), and `GET:K:key_nonexistent` when no
slot has the key `K`. -/
theorem get_read_only (s : System) (c : ConnId) (K : String) (hr : Ready s c)
    (hK : IsToken 127 K) :
    ∃ s1, handle c (line2 "GET" K) s = .ok s1 ∧
      s1.kv = s.kv ∧ s1.registry = s.registry ∧ gate s1 = gate s ∧
      s1.transaction_mutex = s.transaction_mutex ∧
      s1.transaction_owner = s.transaction_owner ∧
      (∀ d, d ≠ c → s1.sent d = s.sent d) ∧
      s1.sent c = s.sent c ++ [get_body s.kv K] ∧
      (∀ i, i < s.kv.store_size → (s.kv.store.getD i default).key = K →
        (∀ j, j < i → ¬ (s.kv.store.getD j default).key = K) →
        (s.kv.store.getD i default).value.length ≤ 127 →
        get_body s.kv K = "GET:" ++ K ++ ":" ++ (s.kv.store.getD i default).value ++ "\n") ∧
      (¬ Present s.kv K → get_body s.kv K = "GET:" ++ K ++ ":key_nonexistent\n") := by
  have h1 := handle_get s c (line2 "GET" K) "GET" K (s.thread c).value hr
    (receivable_line2 _ _ token_GET hK) (sscanf_line2 _ _ _ _ _ token_GET hK) (by decide)
  refine ⟨_, h1, rfl, rfl, gate_congr _ _ rfl (fun d => respond_flag s c d _ rfl), rfl, rfl,
    fun d hd => respond_sent_other s c d _ hd, respond_sent_self _ _ _,
    fun i hi hki hfirst hlen => ?_, fun hp => ?_⟩
  · have hf : find_key s.kv.store K s.kv.store_size 0 = some i := by
      rw [find_key_eq_some_iff]
      exact ⟨Nat.zero_le _, by omega, hki.symm, fun j _ hj e => hfirst j hj e.symm⟩
    rw [get_body_of_find s.kv K i hf, get_text K _ hK.2.1 hlen]
  · rw [get_body_of_absent s.kv K hp, get_absent_text K hK.2.1]

theorem get_read_only_witness :
    ∃ s1, handle 1 (line2 "GET" "b") (served mixed_requests initial) = .ok s1 ∧
      s1.kv = (served mixed_requests initial).kv ∧
      s1.registry = (served mixed_requests initial).registry ∧
      gate s1 = gate (served mixed_requests initial) ∧
      s1.transaction_mutex = (served mixed_requests initial).transaction_mutex ∧
      s1.transaction_owner = (served mixed_requests initial).transaction_owner ∧
      (∀ d, d ≠ 1 → s1.sent d = (served mixed_requests initial).sent d) ∧
      s1.sent 1 = (served mixed_requests initial).sent 1 ++
        [get_body (served mixed_requests initial).kv "b"] ∧
      (∀ i, i < (served mixed_requests initial).kv.store_size →
        ((served mixed_requests initial).kv.store.getD i default).key = "b" →
        (∀ j, j < i → ¬ ((served mixed_requests initial).kv.store.getD j default).key = "b") →
        ((served mixed_requests initial).kv.store.getD i default).value.length ≤ 127 →
        get_body (served mixed_requests initial).kv "b" =
          "GET:" ++ "b" ++ ":" ++
            ((served mixed_requests initial).kv.store.getD i default).value ++ "\n") ∧
      (¬ Present (served mixed_requests initial).kv "b" →
        get_body (served mixed_requests initial).kv "b" =
          "GET:" ++ "b" ++ ":key_nonexistent\n") :=
  get_read_only (served mixed_requests initial) 1 "b" ⟨rfl, rfl, rfl, Or.inl ⟨rfl, rfl⟩⟩
    (by decide)

end Server
